import Mathlib

/-!
Verification development for the retrieval core of a multi-modal RAG system:
a three-tier topic cache with persistence, a per-session semantic history
buffer, a hybrid keyword/embedding validator with retry, a query
preprocessor, and the retrieval orchestrator.

The Python source is embedded shallowly: stateful classes become explicit
state records with state-passing functions, machine floats become exact
rationals, SQLite tables become association lists, and external
collaborators (embedding model, ANN index, reranker, generator worker)
become oracle parameters.  The wall clock is passed explicitly as a `now`
argument wherever the source calls `time.time()`.
-/

namespace RagCore

/-! ## Association lists (model of Python dict / OrderedDict values and of
SQLite tables keyed by a primary key) -/

def alookup {κ α : Type} [DecidableEq κ] : List (κ × α) → κ → Option α
  | [], _ => none
  | (k, v) :: rest, q => if k = q then some v else alookup rest q

def aupdate {κ α : Type} [DecidableEq κ] : List (κ × α) → κ → α → List (κ × α)
  | [], k, v => [(k, v)]
  | (k', v') :: rest, k, v =>
      if k' = k then (k, v) :: rest else (k', v') :: aupdate rest k v

def aremove {κ α : Type} [DecidableEq κ] : List (κ × α) → κ → List (κ × α)
  | [], _ => []
  | (k', v') :: rest, k => if k' = k then rest else (k', v') :: aremove rest k

/-! ## Rational square root and vector operations

Floats are modelled as exact rationals.  `ratSqrt` returns the exact square
root when the argument is the square of a rational and `0` otherwise; every
embedding vector manipulated in this development (the encoder emits
unit-norm vectors, and all concrete witnesses use unit or zero vectors) has
a rational norm, on which `ratSqrt` agrees exactly with the float
`np.linalg.norm`. -/

def ratSqrt (x : ℚ) : ℚ :=
  if x ≤ 0 then 0
  else
    let n := Nat.sqrt x.num.toNat
    let d := Nat.sqrt x.den
    if n * n = x.num.toNat ∧ d * d = x.den then (n : ℚ) / (d : ℚ) else 0

/-- Model of `np.dot` on equal-length float vectors. -/
def dotQ : List ℚ → List ℚ → ℚ
  | [], _ => 0
  | _, [] => 0
  | a :: as, b :: bs => a * b + dotQ as bs

/-- Model of `np.linalg.norm` (exact on rational-norm vectors). -/
def normQ (v : List ℚ) : ℚ := ratSqrt (dotQ v v)

/-- Model of `ConversationHistory._normalize`:
`norm = np.linalg.norm(vec); if norm == 0.0: return vec; return vec / norm`. -/
def vnormalize (v : List ℚ) : List ℚ :=
  let norm := normQ v
  if norm = 0 then v else v.map (· / norm)

/-! ## TopicKey and cache node (src/backend/cache_layer/TopicState.py,
src/backend/cache_layer/cache.py) -/

/-- `TopicKey` — frozen dataclass, structural equality over all fields. -/
structure TopicKey where
  topic_label : String
  modality_filter : String
  retrieval_policy : String
deriving DecidableEq

/-- Combined model of `TopicState` and `CacheNode.level`.  The source keeps
one `TopicState` object per `CacheNode` and one `CacheNode` per key; the
model stores the node data (state fields plus tier level) in the directory
and lets the tier maps hold keys, which is faithful because every read and
write of a node in the source goes through object identity shared between
the directory and exactly one tier. -/
structure CacheNodeM where
  cached_chunk_ids : List String
  access_count : Nat
  last_access_ts : ℚ
  first_seen_ts : ℚ
  score : ℚ
  confidence : ℚ
  level : Nat
deriving DecidableEq

/-- Capacities and thresholds read from `Config` in
`TopicCacheManager.__init__` (src/backend/config.py). -/
structure CacheCfg where
  cap_l1 : Nat
  cap_l2 : Nat
  cap_l3 : Nat
  l3_threshold : Nat
  l2_threshold : Nat
deriving DecidableEq

/-- Defaults: `L1_CAPACITY=32, L2_CAPACITY=128, L3_CAPACITY=1024,
L3_THRESHOLD=3, L2_THRESHOLD=8`. -/
def defaultCacheCfg : CacheCfg :=
  { cap_l1 := 32, cap_l2 := 128, cap_l3 := 1024, l3_threshold := 3, l2_threshold := 8 }

/-- The in-memory tiers (`OrderedDict` iteration order: least recent at the
front, most recent at the back), the directory, and the mirror of the
durable `cache_entries` table. -/
structure CacheState where
  L1 : List TopicKey
  L2 : List TopicKey
  L3 : List TopicKey
  directory : List (TopicKey × CacheNodeM)
  db : List (TopicKey × CacheNodeM)
deriving DecidableEq

def emptyCacheState : CacheState := ⟨[], [], [], [], []⟩

namespace TopicCacheManager

/-- `CacheLoader._save_cache_entry`: upsert of one row keyed by the topic key. -/
def saveCacheEntry (s : CacheState) (k : TopicKey) (n : CacheNodeM) : CacheState :=
  { s with db := aupdate s.db k n }

/-- `CacheLoader._delete_cache_entry`. -/
def deleteCacheEntry (s : CacheState) (k : TopicKey) : CacheState :=
  { s with db := aremove s.db k }

/-- `OrderedDict.move_to_end(key)`: remove the key and append it at the back.
The source raises if the key is absent; all call sites pass a key of the tier. -/
def moveToEnd (l : List TopicKey) (k : TopicKey) : List TopicKey :=
  l.erase k ++ [k]

/-- `TopicCacheManager._evict_from_L3`: pop the front of L3, drop the key from
the directory, delete the durable row. -/
def evictFromL3 (s : CacheState) : CacheState :=
  match s.L3 with
  | [] => s
  | k :: rest =>
      deleteCacheEntry { s with L3 := rest, directory := aremove s.directory k } k

/-- `TopicCacheManager._demote_L2_to_L3`: pop the front of L2, set its level
to 3, append to the back of L3, evict from L3 on overflow, persist the row. -/
def demoteL2toL3 (cfg : CacheCfg) (s : CacheState) : CacheState :=
  match s.L2 with
  | [] => s
  | k :: rest =>
      match alookup s.directory k with
      | none => s
      | some n =>
          let n' := { n with level := 3 }
          let s1 := { s with
                      L2 := rest
                      L3 := s.L3 ++ [k]
                      directory := aupdate s.directory k n' }
          let s2 := if s1.L3.length > cfg.cap_l3 then evictFromL3 s1 else s1
          saveCacheEntry s2 k n'

/-- `TopicCacheManager._demote_L1_to_L2`. -/
def demoteL1toL2 (cfg : CacheCfg) (s : CacheState) : CacheState :=
  match s.L1 with
  | [] => s
  | k :: rest =>
      match alookup s.directory k with
      | none => s
      | some n =>
          let n' := { n with level := 2 }
          let s1 := { s with
                      L1 := rest
                      L2 := s.L2 ++ [k]
                      directory := aupdate s.directory k n' }
          let s2 := if s1.L2.length > cfg.cap_l2 then demoteL2toL3 cfg s1 else s1
          saveCacheEntry s2 k n'

/-- `TopicCacheManager._promote_L3_to_L2`. -/
def promoteL3toL2 (cfg : CacheCfg) (s : CacheState) (k : TopicKey) : CacheState :=
  match alookup s.directory k with
  | none => s
  | some n =>
      let n' := { n with level := 2 }
      let s1 := { s with
                  L3 := s.L3.erase k
                  L2 := s.L2 ++ [k]
                  directory := aupdate s.directory k n' }
      let s2 := if s1.L2.length > cfg.cap_l2 then demoteL2toL3 cfg s1 else s1
      saveCacheEntry s2 k n'

/-- `TopicCacheManager._promote_L2_to_L1`. -/
def promoteL2toL1 (cfg : CacheCfg) (s : CacheState) (k : TopicKey) : CacheState :=
  match alookup s.directory k with
  | none => s
  | some n =>
      let n' := { n with level := 1 }
      let s1 := { s with
                  L2 := s.L2.erase k
                  L1 := s.L1 ++ [k]
                  directory := aupdate s.directory k n' }
      let s2 := if s1.L1.length > cfg.cap_l1 then demoteL1toL2 cfg s1 else s1
      saveCacheEntry s2 k n'

/-- `TopicCacheManager._on_access`: bump the access count, refresh the
timestamp, recompute `score = access_count + 0.1`, move the node to the back
of its current tier and persist the row. -/
def onAccess (now : ℚ) (s : CacheState) (k : TopicKey) : CacheState :=
  match alookup s.directory k with
  | none => s
  | some n =>
      let n' := { n with
                  access_count := n.access_count + 1
                  last_access_ts := now
                  score := (n.access_count + 1 : Nat) + (0.1 : ℚ) }
      let s1 := { s with directory := aupdate s.directory k n' }
      let s2 :=
        if n'.level = 1 then { s1 with L1 := moveToEnd s1.L1 k }
        else if n'.level = 2 then { s1 with L2 := moveToEnd s1.L2 k }
        else if n'.level = 3 then { s1 with L3 := moveToEnd s1.L3 k }
        else s1
      saveCacheEntry s2 k n'

/-- `TopicCacheManager._maybe_promote`. -/
def maybePromote (cfg : CacheCfg) (s : CacheState) (k : TopicKey) : CacheState :=
  match alookup s.directory k with
  | none => s
  | some n =>
      if n.level = 3 ∧ cfg.l3_threshold ≤ n.access_count then promoteL3toL2 cfg s k
      else if n.level = 2 ∧ cfg.l2_threshold ≤ n.access_count then promoteL2toL1 cfg s k
      else s

/-- `TopicCacheManager.lookup`: `None` and no effect on miss; on hit update
stats, maybe promote, and return the node's (mutated) state. -/
def lookup (cfg : CacheCfg) (now : ℚ) (s : CacheState) (k : TopicKey) :
    Option CacheNodeM × CacheState :=
  match alookup s.directory k with
  | none => (none, s)
  | some _ =>
      let s1 := onAccess now s k
      let s2 := maybePromote cfg s1 k
      (alookup s2.directory k, s2)

/-- `TopicCacheManager.insert_new`: return the installed state unchanged on a
duplicate key; otherwise build a fresh state (`access_count=1`, `score=1.0`),
insert into L3 (evicting on overflow), register in the directory and persist. -/
def insertNew (cfg : CacheCfg) (now : ℚ) (s : CacheState) (k : TopicKey)
    (cached_chunk_ids : List String) : CacheNodeM × CacheState :=
  let st : CacheNodeM :=
    { cached_chunk_ids := cached_chunk_ids, access_count := 1, last_access_ts := now,
      first_seen_ts := now, score := (1.0 : ℚ), confidence := 0, level := 3 }
  match alookup s.directory k with
  | some n => (n, s)
  | none =>
      let s1 := { s with L3 := s.L3 ++ [k] }
      let s2 := if s1.L3.length > cfg.cap_l3 then evictFromL3 s1 else s1
      let s3 := { s2 with directory := aupdate s2.directory k st }
      (st, saveCacheEntry s3 k st)

/-- `TopicCacheManager.debug_dump_levels` (read-only). -/
def debugDumpLevels (s : CacheState) : List TopicKey × List TopicKey × List TopicKey :=
  (s.L1, s.L2, s.L3)

/-- `TopicCacheManager.debug_counts` (read-only). -/
def debugCounts (s : CacheState) : Nat × Nat × Nat × Nat :=
  (s.L1.length, s.L2.length, s.L3.length, s.directory.length)

/-- The access pattern of the engine and of `cache_layer/test.py`: `lookup`,
and on a miss `insert_new`. -/
def access (cfg : CacheCfg) (now : ℚ) (s : CacheState) (k : TopicKey)
    (ids : List String) : CacheState :=
  match lookup cfg now s k with
  | (some _, s') => s'
  | (none, s') => (insertNew cfg now s' k ids).2

end TopicCacheManager

/-! ## Cache loader (src/backend/cache_layer/cache.py, `CacheLoader._load_cache`
and `TopicCacheManager.__init__`) -/

/-- One row of the durable `cache_entries` table. -/
structure CacheRow where
  key : TopicKey
  cached_chunk_ids : List String
  access_count : Nat
  last_access_ts : ℚ
  first_seen_ts : ℚ
  score : ℚ
  confidence : ℚ
  level : Nat
deriving DecidableEq

namespace CacheLoader

def rowNode (r : CacheRow) : CacheNodeM :=
  { cached_chunk_ids := r.cached_chunk_ids, access_count := r.access_count,
    last_access_ts := r.last_access_ts, first_seen_ts := r.first_seen_ts,
    score := r.score, confidence := r.confidence, level := r.level }

/-- The `ORDER BY level ASC, last_access_ts DESC` ordering of the load query. -/
def rowOrder (a b : CacheRow) : Prop :=
  a.level < b.level ∨ (a.level = b.level ∧ b.last_access_ts ≤ a.last_access_ts)

instance : DecidableRel rowOrder := fun a b => by
  unfold rowOrder; infer_instance

instance : IsTotal CacheRow rowOrder where
  total a b := by
    rcases Nat.lt_trichotomy a.level b.level with h | h | h
    · exact Or.inl (Or.inl h)
    · rcases le_total b.last_access_ts a.last_access_ts with h' | h'
      · exact Or.inl (Or.inr ⟨h, h'⟩)
      · exact Or.inr (Or.inr ⟨h.symm, h'⟩)
    · exact Or.inr (Or.inl h)

instance : IsTrans CacheRow rowOrder where
  trans a b c hab hbc := by
    rcases hab with h1 | ⟨e1, le1⟩
    · rcases hbc with h2 | ⟨e2, _⟩
      · exact Or.inl (h1.trans h2)
      · exact Or.inl (e2 ▸ h1)
    · rcases hbc with h2 | ⟨e2, le2⟩
      · exact Or.inl (e1 ▸ h2)
      · exact Or.inr ⟨e1.trans e2, le2.trans le1⟩

/-- `OrderedDict` assignment on a key-list view: an existing key keeps its
position, a new key is appended at the back. -/
def odIns (l : List TopicKey) (k : TopicKey) : List TopicKey :=
  if k ∈ l then l else l ++ [k]

/-- One iteration of the row loop in `_load_cache`: dispatch the row into its
recorded tier (levels other than 1, 2, 3 are skipped); the directory is the
by-key node store shared by the tiers. -/
def loadStep (acc : CacheState) (r : CacheRow) : CacheState :=
  if r.level = 1 then
    { acc with L1 := odIns acc.L1 r.key, directory := aupdate acc.directory r.key (rowNode r) }
  else if r.level = 2 then
    { acc with L2 := odIns acc.L2 r.key, directory := aupdate acc.directory r.key (rowNode r) }
  else if r.level = 3 then
    { acc with L3 := odIns acc.L3 r.key, directory := aupdate acc.directory r.key (rowNode r) }
  else acc

/-- `CacheLoader._load_cache` followed by the directory rebuild of
`TopicCacheManager.__init__`: rows are fetched ordered by
`level ASC, last_access_ts DESC` and inserted into their tiers in fetch
order; the `cache_entries` table itself is left unchanged. -/
def loadCache (rows : List CacheRow) : CacheState :=
  let sorted := List.insertionSort rowOrder rows
  sorted.foldl loadStep
    { emptyCacheState with db := rows.map (fun r => (r.key, rowNode r)) }

end CacheLoader

/-! ## Per-session semantic history
(src/backend/history_layer/history.py, `ConversationHistory`) -/

/-- `HistoryEntry` (src/backend/history_layer/history_node.py). -/
structure HistoryEntry where
  topic_key : TopicKey
  query_embedding : List ℚ
  chunk_ids : List String
  timestamp : ℚ
deriving DecidableEq

/-- One row of the durable `history_entries` table.  The float32
serialization round-trip of the embedding is the identity, so the row holds
the vector itself. -/
structure HistoryRow where
  session_id : String
  topic_key : TopicKey
  query_embedding : List ℚ
  chunk_ids : List String
  timestamp : ℚ
deriving DecidableEq

/-- In-memory deque (front = oldest, back = newest) plus the mirror of the
`history_entries` table, keyed by `(session_id, topic_key)`. -/
structure HistoryState where
  max_size : Nat
  sim_threshold : ℚ
  session_id : String
  entries : List HistoryEntry
  db : List ((String × TopicKey) × HistoryRow)
deriving DecidableEq

namespace ConversationHistory

/-- `deque(maxlen=max_size).append`: append at the back, silently dropping
from the front when over capacity. -/
def boundedAppend (max_size : Nat) (l : List HistoryEntry) (e : HistoryEntry) :
    List HistoryEntry :=
  let l2 := l ++ [e]
  l2.drop (l2.length - max_size)

/-- `deque.remove(entry)` where `entry` is the first element with the given
topic key (the scan in `add_or_update`). -/
def removeFirstKey : List HistoryEntry → TopicKey → List HistoryEntry
  | [], _ => []
  | e :: rest, k => if e.topic_key = k then rest else e :: removeFirstKey rest k

def entryRow (session_id : String) (e : HistoryEntry) : HistoryRow :=
  { session_id := session_id, topic_key := e.topic_key,
    query_embedding := e.query_embedding, chunk_ids := e.chunk_ids,
    timestamp := e.timestamp }

/-- `ConversationHistory._save_entry`: upsert keyed by `(session_id, topic_key)`. -/
def saveEntry (h : HistoryState) (e : HistoryEntry) : HistoryState :=
  { h with db := aupdate h.db (h.session_id, e.topic_key) (entryRow h.session_id e) }

/-- The scan of `find_similar`: most-recent first, return the chunk ids of the
first entry whose cosine similarity with the normalized query reaches the
threshold.  (The argument list is the reversed deque.) -/
def scanSimilar (threshold : ℚ) (qn : List ℚ) : List HistoryEntry → Option (List String)
  | [] => none
  | e :: rest =>
      let en := vnormalize e.query_embedding
      if threshold ≤ dotQ qn en then some e.chunk_ids else scanSimilar threshold qn rest

/-- `ConversationHistory.find_similar`.  Note that the source performs no
mutation here: no TTL check and no eviction of any kind. -/
def findSimilar (h : HistoryState) (query_embedding : List ℚ) : Option (List String) :=
  if h.entries = [] then none
  else scanSimilar h.sim_threshold (vnormalize query_embedding) h.entries.reverse

/-- `ConversationHistory.add_or_update`: normalize the embedding; if an entry
with the same topic key exists, remove it and append a fresh entry at the
back, else append a fresh entry (the bounded deque dropping the oldest on
overflow); persist the new entry.  No TTL check is performed. -/
def addOrUpdate (now : ℚ) (h : HistoryState) (topic_key : TopicKey)
    (query_embedding : List ℚ) (chunk_ids : List String) : HistoryState :=
  let q := vnormalize query_embedding
  let e : HistoryEntry :=
    { topic_key := topic_key, query_embedding := q, chunk_ids := chunk_ids, timestamp := now }
  if h.entries.any (fun x => x.topic_key = topic_key) then
    saveEntry
      { h with entries := boundedAppend h.max_size (removeFirstKey h.entries topic_key) e } e
  else
    saveEntry { h with entries := boundedAppend h.max_size h.entries e } e

/-- `ConversationHistory.size`. -/
def size (h : HistoryState) : Nat := h.entries.length

/-- The `ORDER BY timestamp DESC` ordering of `_load_from_db`. -/
def tsDesc (a b : HistoryRow) : Prop := b.timestamp ≤ a.timestamp

instance : DecidableRel tsDesc := fun a b => by unfold tsDesc; infer_instance

instance : IsTotal HistoryRow tsDesc where
  total a b := le_total b.timestamp a.timestamp

instance : IsTrans HistoryRow tsDesc where
  trans _ _ _ hab hbc := le_trans hbc hab

def rowEntry (r : HistoryRow) : HistoryEntry :=
  { topic_key := r.topic_key, query_embedding := r.query_embedding,
    chunk_ids := r.chunk_ids, timestamp := r.timestamp }

/-- `ConversationHistory._load_from_db`: select this session's rows, order by
timestamp descending, take the most recent `max_size`, and append them to the
deque oldest-first. -/
def loadFromDb (session_id : String) (max_size : Nat)
    (db : List ((String × TopicKey) × HistoryRow)) : List HistoryEntry :=
  let rows := (db.map Prod.snd).filter (fun r => r.session_id = session_id)
  let selected := (List.insertionSort tsDesc rows).take max_size
  selected.reverse.map rowEntry

end ConversationHistory

/-! ## Retrieval validator (src/backend/validation_layer/validator.py) -/

/-- The chunk dictionaries flowing between the engine, reranker and
validator.  Engine chunks always carry a `chunk_text` key (the `"text"`
fallback of `validate` is never taken on engine inputs), and the validator
attaches a `validation_score` key. -/
structure ChunkD where
  chunk_id : String
  chunk_text : String
  source_path : String
  validation_score : Option ℚ
deriving DecidableEq

/-- `ValidationResult` dataclass. -/
structure ValidationResult where
  is_valid : Bool
  confidence : ℚ
  validated_chunks : List ChunkD
  rejected_chunks : List ChunkD
  reason : Option String
  retry_query : Option String
deriving DecidableEq

namespace RetrievalValidator

def isAsciiAlpha (c : Char) : Bool :=
  ('a' ≤ c && c ≤ 'z') || ('A' ≤ c && c ≤ 'Z')

/-- Python regex word characters (`\w`), which the `\b` boundaries of
`r"\b[a-zA-Z]{2,}\b"` are defined against (ASCII inputs). -/
def isWordChar (c : Char) : Bool :=
  isAsciiAlpha c || ('0' ≤ c && c ≤ '9') || c = '_'

def boundaryOk : Option Char → Bool
  | none => true
  | some c => !isWordChar c

/-- `re.findall(r"\b[a-zA-Z]{2,}\b", text)`: maximal alphabetic runs of
length at least 2 whose neighbours (when present) are non-word characters.
`runPrev` is the character just before the current run, `acc` the current
run reversed. -/
def tokGo : Option Char → List Char → List Char → List (List Char)
  | runPrev, acc, [] =>
      if acc ≠ [] && boundaryOk runPrev && 2 ≤ acc.length then [acc.reverse] else []
  | runPrev, acc, c :: cs =>
      if isAsciiAlpha c then tokGo runPrev (c :: acc) cs
      else
        (if acc ≠ [] && boundaryOk runPrev && boundaryOk (some c) && 2 ≤ acc.length
         then [acc.reverse] else []) ++ tokGo (some c) [] cs

def wordTokens (s : String) : List String :=
  (tokGo none [] s.toList).map List.asString

/-- The stopword list of `RetrievalValidator._extract_keywords`. -/
def stopwords : List String :=
  ["a", "an", "the", "is", "are", "was", "were", "be", "been",
   "being", "have", "has", "had", "do", "does", "did", "will",
   "would", "could", "should", "may", "might", "can", "to", "of",
   "in", "for", "on", "with", "at", "by", "from", "as", "into",
   "through", "during", "before", "after", "above", "below", "up",
   "down", "out", "off", "over", "under", "again", "further",
   "then", "once", "here", "there", "when", "where", "why", "how",
   "all", "each", "few", "more", "most", "other", "some", "such",
   "no", "nor", "not", "only", "own", "same", "so", "than", "too",
   "very", "just", "and", "but", "if", "or", "because", "until",
   "while", "what", "which", "who", "whom", "this", "that", "these",
   "those", "am", "it", "its", "about", "also", "i", "me", "my",
   "myself", "we", "our", "ours", "you", "your", "he", "him", "his",
   "she", "her", "they", "them", "their"]

def lowerStr (s : String) : String := (s.toList.map Char.toLower).asString

/-- `RetrievalValidator._extract_keywords`: tokens of the lowercased text,
minus stopwords, as a set. -/
def extractKeywords (text : String) : Finset String :=
  ((wordTokens (lowerStr text)).filter (fun w => w ∉ stopwords)).toFinset

/-- `RetrievalValidator._compute_keyword_overlap`: fraction of query keywords
found in the chunk; neutral 0.5 when the query has no keywords. -/
def computeKeywordOverlap (query_keywords : Finset String) (chunk_text : String) : ℚ :=
  if query_keywords = ∅ then (0.5 : ℚ)
  else ((query_keywords ∩ extractKeywords chunk_text).card : ℚ) / (query_keywords.card : ℚ)

/-- The validator's collaborators and configuration: the embedding model (a
pure text-to-unit-norm-vector function, always supplied by the engine),
`min_similarity = Config.MIN_RELEVANCE_SCORE = 0.15` and
`max_retries = Config.MAX_RETRIES = 2`. -/
structure ValidatorCfg where
  encode : String → List ℚ
  min_similarity : ℚ
  max_retries : Nat

def defaultMinSimilarity : ℚ := 0.15

def defaultMaxRetries : Nat := 2

/-- Per-chunk combined score in `RetrievalValidator.validate`:
`0.4 * keyword_score + 0.6 * embedding_score`, the weights being the same
for every query. -/
def combinedScore (V : ValidatorCfg) (query_keywords : Finset String)
    (qe : List ℚ) (c : ChunkD) : ℚ :=
  let keyword_score := computeKeywordOverlap query_keywords c.chunk_text
  let embedding_score := dotQ qe (V.encode c.chunk_text)
  (0.4 : ℚ) * keyword_score + (0.6 : ℚ) * embedding_score

/-- `RetrievalValidator._generate_retry_query`. -/
def generateRetryQuery (original_query : String) : String :=
  if ¬ original_query.toList.contains '?' then "What is " ++ original_query ++ "?"
  else "detailed information about " ++ original_query

def sumQ (l : List ℚ) : ℚ := l.foldr (· + ·) 0

/-- `RetrievalValidator.validate`. -/
def validate (V : ValidatorCfg) (query : String) (chunks : List ChunkD)
    (query_embedding : Option (List ℚ)) : ValidationResult :=
  if chunks = [] then
    { is_valid := false, confidence := 0, validated_chunks := [],
      rejected_chunks := [], reason := some "No chunks to validate", retry_query := none }
  else
    let qe := query_embedding.getD (V.encode query)
    let qk := extractKeywords query
    let scored := chunks.map (fun c =>
      { c with validation_score := some (combinedScore V qk qe c) })
    let validated := scored.filter (fun c => V.min_similarity ≤ c.validation_score.getD 0)
    let rejected := scored.filter (fun c => ¬ V.min_similarity ≤ c.validation_score.getD 0)
    let is_valid : Bool := !validated.isEmpty
    let avg :=
      if validated.isEmpty then 0
      else sumQ (validated.map (fun c => c.validation_score.getD 0)) / (validated.length : ℚ)
    { is_valid := is_valid, confidence := avg, validated_chunks := validated,
      rejected_chunks := rejected,
      reason := if is_valid then none else some "Insufficient relevance",
      retry_query := if is_valid then none else some (generateRetryQuery query) }

/-- The retry loop of `validate_with_retry`; `left` is the number of retries
still allowed (`max_retries - attempt`).  Once an attempt fails with no
retry allowed the loop's remaining iterations revalidate unchanged inputs,
so it finishes with the last result and `max_retries` used. -/
def validateRetryAux (V : ValidatorCfg) (rf : String → List ChunkD) :
    Nat → Nat → String → List ChunkD → Option (List ℚ) → ValidationResult × Nat
  | left, attempt, current_query, chunks, qe =>
    let result := validate V current_query chunks qe
    if result.is_valid then (result, attempt)
    else
      match left, result.retry_query with
      | Nat.succ left', some rq =>
          if rq ≠ "" then
            validateRetryAux V rf left' (attempt + 1) rq (rf rq) (some (V.encode rq))
          else (result, V.max_retries)
      | _, _ => (result, V.max_retries)

/-- `RetrievalValidator.validate_with_retry`.  `initial_chunks or
retrieval_fn(query)` makes an empty initial list fall back to retrieval. -/
def validateWithRetry (V : ValidatorCfg) (rf : String → List ChunkD)
    (query : String) (initial_chunks : Option (List ChunkD))
    (query_embedding : Option (List ℚ)) : ValidationResult × Nat :=
  let chunks :=
    match initial_chunks with
    | some l => if l = [] then rf query else l
    | none => rf query
  validateRetryAux V rf V.max_retries 0 query chunks query_embedding

end RetrievalValidator

/-! ## Anchored Python regex engine

The filler patterns of `QueryProcessing` use only ordered alternation,
concatenation, greedy option, and the greedy whitespace quantifiers, all
anchored at the start (`^`).  `mlens` enumerates candidate match lengths in
the exact backtracking preference order of the Python engine (alternatives
left to right, greedy quantifiers longest first); `re.sub(pattern, "", s)`
for a `^`-anchored pattern with a mandatory first token removes the first
preferred match at position 0 when one exists. -/

/-- Python `\s` on ASCII input. -/
def isSpaceChar (c : Char) : Bool :=
  c = ' ' || c = '\t' || c = '\n' || c = '\r' || c = '\x0b' || c = '\x0c'

inductive Rx where
  | lit (s : String)
  | cat (a b : Rx)
  | alt (a b : Rx)
  | opt (a : Rx)
  | wsPlus
  | wsStar

namespace Rx

def litMatch (s : String) (cs : List Char) : Bool :=
  (cs.take s.length).map Char.toLower = s.toList.map Char.toLower

def wsCount (cs : List Char) : Nat := (cs.takeWhile isSpaceChar).length

/-- Candidate match lengths at the start of `cs`, in backtracking
preference order. -/
def mlens : Rx → List Char → List Nat
  | .lit s, cs => if litMatch s cs then [s.length] else []
  | .cat a b, cs => (mlens a cs).flatMap (fun n => (mlens b (cs.drop n)).map (n + ·))
  | .alt a b, cs => mlens a cs ++ mlens b cs
  | .opt a, cs => mlens a cs ++ [0]
  | .wsPlus, cs => let k := wsCount cs; (List.range k).map (fun i => k - i)
  | .wsStar, cs => let k := wsCount cs; (List.range (k + 1)).map (fun i => k - i)

/-- `re.sub(p, "", s, flags=re.IGNORECASE)` for a `^`-anchored pattern. -/
def subAnchored (r : Rx) (s : String) : String :=
  match (mlens r s.toList).head? with
  | some n => (s.toList.drop n).asString
  | none => s

def alts : List Rx → Rx
  | [] => .lit ""
  | [r] => r
  | r :: rest => .alt r (alts rest)

def cats : List Rx → Rx
  | [] => .lit ""
  | [r] => r
  | r :: rest => .cat r (cats rest)

/-- A space-separated word sequence, `\s+` between words. -/
def phrase : List String → Rx
  | [] => .lit ""
  | [w] => .lit w
  | w :: rest => .cat (.lit w) (.cat .wsPlus (phrase rest))

end Rx

/-! ## String helpers shared by router and preprocessor -/

/-- Python `str.strip()`. -/
def pyStrip (s : String) : String :=
  ((s.toList.dropWhile isSpaceChar).reverse.dropWhile isSpaceChar).reverse.asString

def lowerString (s : String) : String := (s.toList.map Char.toLower).asString

def isPrefixList : List Char → List Char → Bool
  | [], _ => true
  | _ :: _, [] => false
  | a :: as, b :: bs => a = b && isPrefixList as bs

/-- Python `needle in hay` on strings. -/
def hasSubList (needle : List Char) : List Char → Bool
  | [] => needle.isEmpty
  | c :: rest => isPrefixList needle (c :: rest) || hasSubList needle rest

def containsSub (hay needle : String) : Bool := hasSubList needle.toList hay.toList

/-- `re.sub(r"\s+", " ", q)`: each maximal whitespace run becomes one space. -/
def collapseGo : Bool → List Char → List Char
  | _, [] => []
  | prevSpace, c :: cs =>
      if isSpaceChar c then
        if prevSpace then collapseGo true cs else ' ' :: collapseGo true cs
      else c :: collapseGo false cs

def collapseWs (s : String) : String := (collapseGo false s.toList).asString

/-- Python `str.split()` (maximal non-whitespace runs). -/
def pyWordsGo : List Char → List Char → List (List Char)
  | acc, [] => if acc.isEmpty then [] else [acc.reverse]
  | acc, c :: cs =>
      if isSpaceChar c then
        (if acc.isEmpty then [] else [acc.reverse]) ++ pyWordsGo [] cs
      else pyWordsGo (c :: acc) cs

def pyWords (s : String) : List String := (pyWordsGo [] s.toList).map List.asString

def joinSep (sep : String) : List String → String
  | [] => ""
  | [x] => x
  | x :: rest => x ++ sep ++ joinSep sep rest

def listMaxQ : List ℚ → ℚ
  | [] => 0
  | x :: xs => xs.foldl max x

/-! ## QueryRouter (src/backend/retrieval_layer/retrieval_engine.py) -/

namespace QueryRouter

def inferModality (query : String) : String :=
  let q := lowerString query
  if ["image", "screenshot", "photo", "picture"].any (fun w => containsSub q w) then "image"
  else if ["audio", "voice", "recording", "speech"].any (fun w => containsSub q w) then "audio"
  else if ["pdf", "document", "doc", "book", "report"].any (fun w => containsSub q w) then "text"
  else "any"

def inferTopicLabel (query : String) : String :=
  collapseWs (pyStrip (lowerString query))

def buildTopicKey (query : String) : TopicKey :=
  { topic_label := inferTopicLabel query, modality_filter := inferModality query,
    retrieval_policy := "default" }

end QueryRouter

/-! ## QueryProcessing (src/backend/retrieval_layer/retrieval_engine.py) -/

namespace QueryProcessing

/-- `FILLER_PATTERNS[0]`. -/
def fillerP1 : Rx :=
  Rx.cats
    [Rx.alts [Rx.phrase ["i", "want"], Rx.phrase ["i", "need"],
              Rx.phrase ["can", "you"], Rx.lit "please"],
     Rx.wsPlus,
     Rx.alts [Rx.lit "find", Rx.lit "get", Rx.lit "give", Rx.lit "show",
              Rx.lit "search", Rx.phrase ["look", "for"], Rx.lit "retrieve"],
     Rx.wsPlus,
     Rx.opt (Rx.cat (Rx.lit "me") Rx.wsPlus),
     Rx.wsStar,
     Rx.opt (Rx.alts [Rx.cat (Rx.lit "a") Rx.wsPlus, Rx.cat (Rx.lit "the") Rx.wsPlus,
                      Rx.cat (Rx.lit "some") Rx.wsPlus]),
     Rx.alts [Rx.lit "file", Rx.lit "document", Rx.lit "info", Rx.lit "information",
              Rx.lit "data", Rx.lit "content", Rx.lit "text", Rx.lit "article"],
     Rx.opt (Rx.lit "s"),
     Rx.wsStar,
     Rx.opt (Rx.alts [Rx.lit "which", Rx.lit "that", Rx.lit "about", Rx.lit "on",
                      Rx.lit "regarding", Rx.phrase ["related", "to"],
                      Rx.cats [Rx.lit "with", Rx.wsPlus, Rx.lit "information", Rx.wsPlus,
                               Rx.alts [Rx.lit "about", Rx.lit "on"]]]),
     Rx.wsStar]

/-- `FILLER_PATTERNS[1]`. -/
def fillerP2 : Rx :=
  Rx.cats
    [Rx.alts [Rx.lit "find", Rx.lit "get", Rx.lit "give", Rx.lit "show",
              Rx.lit "search", Rx.phrase ["look", "for"], Rx.lit "retrieve"],
     Rx.wsPlus,
     Rx.opt (Rx.cat (Rx.lit "me") Rx.wsPlus),
     Rx.wsStar,
     Rx.opt (Rx.alts [Rx.cat (Rx.lit "a") Rx.wsPlus, Rx.cat (Rx.lit "the") Rx.wsPlus,
                      Rx.cat (Rx.lit "some") Rx.wsPlus]),
     Rx.alts [Rx.lit "file", Rx.lit "document", Rx.lit "info", Rx.lit "information",
              Rx.lit "data", Rx.lit "content", Rx.lit "text", Rx.lit "article"],
     Rx.opt (Rx.lit "s"),
     Rx.wsStar,
     Rx.opt (Rx.alts [Rx.lit "which", Rx.lit "that", Rx.lit "about", Rx.lit "on",
                      Rx.lit "regarding", Rx.phrase ["related", "to"],
                      Rx.cats [Rx.lit "with", Rx.wsPlus, Rx.lit "information", Rx.wsPlus,
                               Rx.alts [Rx.lit "about", Rx.lit "on"]]]),
     Rx.wsStar]

/-- `FILLER_PATTERNS[2]`. -/
def fillerP3 : Rx :=
  Rx.cats
    [Rx.alts [Rx.phrase ["tell", "me"], Rx.phrase ["what", "is"],
              Rx.phrase ["what", "are"], Rx.lit "explain"],
     Rx.wsPlus,
     Rx.opt (Rx.alts [Rx.lit "about", Rx.lit "regarding"]),
     Rx.wsStar]

def fillerPatterns : List Rx := [fillerP1, fillerP2, fillerP3]

/-- `QueryProcessing._extract_query_intent`: strip each filler pattern in
turn; if the result has fewer than 3 characters, return the original query. -/
def extractQueryIntent (query : String) : String :=
  let cleaned := fillerPatterns.foldl (fun acc p => pyStrip (Rx.subAnchored p acc))
    (pyStrip query)
  if cleaned.length < 3 then query else cleaned

/-- `QueryProcessing._cosine_sim` (exact on rational-norm vectors). -/
def cosineSim (a b : List ℚ) : ℚ :=
  let na := normQ a
  let nb := normQ b
  if na = 0 ∨ nb = 0 then 0 else dotQ a b / (na * nb)

def followupMarkers : List String :=
  ["more", "also", "else", "that", "this", "it", "they", "same"]

/-- The preprocessor's collaborators: the conversation-memory method
`get_recent_queries(session_id, max_queries)` and the optional embedding
model. -/
structure PreprocCfg where
  conversation_memory : Option (String → Nat → List String)
  embedding_model : Option (String → List ℚ)

/-- `QueryProcessing._expand_with_context`. -/
def expandWithContext (P : PreprocCfg) (query session_id : String) : String :=
  if session_id = "" then query
  else
    match P.conversation_memory with
    | none => query
    | some getRecent =>
        let recent := getRecent session_id 3
        if recent.length ≤ 1 then query
        else
          let prior := recent.dropLast
          let is_followup :=
            followupMarkers.any (fun w => containsSub (lowerString query) w)
          let gateSkip : Bool :=
            match P.embedding_model with
            | none => false
            | some enc =>
                let q_emb := enc query
                let best_sim := listMaxQ (prior.map (fun p => cosineSim q_emb (enc p)))
                decide (best_sim < (0.45 : ℚ)) && !is_followup
          if gateSkip then query
          else
            let short_words := decide ((pyWords query).length ≤ 4)
            if short_words || is_followup then
              joinSep " | " (prior.drop (prior.length - 2)) ++ " " ++ query
            else query

/-- `QueryProcessing.preprocess_query`: contextual expansion then intent
extraction. -/
def preprocessQuery (P : PreprocCfg) (query : String) (session_id : String := "") :
    String :=
  extractQueryIntent (expandWithContext P query session_id)

end QueryProcessing

/-! ## Retrieval engine (src/backend/retrieval_layer/retrieval_engine.py) -/

/-- `RetrievalResult` dataclass. -/
structure RetrievalResult where
  query : String
  chunk_ids : List String
  chunks_with_metadata : List ChunkD
  source : String
  reranked : Bool
  validated : Bool
  validation_retries : Nat
deriving DecidableEq

/-- A citation produced by the generator, and the shape of the citation
dicts of `RAGResponse` (the orchestrator copies the fields one-to-one). -/
structure Citation where
  citation_id : Nat
  chunk_id : String
  source_path : String
  chunk_text : String
  start_offset : Int
  end_offset : Int
deriving DecidableEq

/-- `GenerationResult` surface consumed by the orchestrator. -/
structure GenResult where
  answer : String
  citations : List Citation
  success : Bool
  error : Option String
deriving DecidableEq

/-- One conversation turn handed to the generator. -/
structure ConvTurn where
  role : String
  content : String
deriving DecidableEq

/-- `RAGResponse` dataclass. -/
structure RAGResponse where
  query : String
  answer : String
  citations : List Citation
  retrieval_source : String
  chunks_used : Nat
  success : Bool
  error : Option String
  expanded_query : Option String
deriving DecidableEq

/-- The engine's collaborators and configuration, injected in
`RetrievalEngine.__init__` (the lazily initialised reranker, validator and
generator are modelled as constructor-time values; the reranker and
generator may be absent, matching their failure-to-initialise paths). -/
structure EngineCfg where
  encode : String → List ℚ
  annSearch : List ℚ → Nat → List String
  ann_top_k : Nat
  history_enabled : Bool
  metadata_store : Option (List String → List ChunkD)
  crossReranker : Option (String → List ChunkD → List ChunkD)
  lightRerank : List ℚ → List ChunkD → List ChunkD
  validator : RetrievalValidator.ValidatorCfg
  conversation_memory : Option (String → Nat → List String)
  get_context : String → Nat → List ConvTurn
  generatorFn : Option (String → List ChunkD → List ConvTurn → GenResult)
  cacheCfg : CacheCfg

/-- The mutable collaborator state owned by one engine: the topic cache and
the session history. -/
structure EngineState where
  cache : CacheState
  history : HistoryState
deriving DecidableEq

namespace RetrievalEngine

/-- `RetrievalEngine._embed_query` (the encoder output is already the
float32 unit-norm vector). -/
def embedQuery (E : EngineCfg) (query : String) : List ℚ := E.encode query

/-- `RetrievalEngine._ann_search`. -/
def annSearch (E : EngineCfg) (v : List ℚ) (k : Nat) : List String :=
  E.annSearch v (if k = 0 then E.ann_top_k else k)

/-- `RetrievalEngine._get_chunks_with_text`: without a metadata store,
id-only chunks; otherwise fetch records and keep exactly those whose
`chunk_text` is non-blank after stripping (blank ones are logged and
dropped). -/
def getChunksWithText (E : EngineCfg) (chunk_ids : List String) : List ChunkD :=
  match E.metadata_store with
  | none => chunk_ids.map (fun cid =>
      { chunk_id := cid, chunk_text := "", source_path := "", validation_score := none })
  | some getByIds =>
      (getByIds chunk_ids).filter (fun m => pyStrip m.chunk_text ≠ "")

/-- `RetrievalEngine._retrieve_fresh`. -/
def retrieveFresh (E : EngineCfg) (query : String) : List ChunkD :=
  getChunksWithText E (E.annSearch (embedQuery E query) (E.ann_top_k * 2))

/-- `RetrievalEngine._expand_with_context` (the override used by
`retrieve_and_generate`; the gate dots the already-normalized embeddings). -/
def expandWithContext (E : EngineCfg) (query session_id : String) : String :=
  if session_id = "" then query
  else
    match E.conversation_memory with
    | none => query
    | some getRecent =>
        let recent := getRecent session_id 3
        if recent.length ≤ 1 then query
        else
          let prior := recent.dropLast
          let is_followup :=
            QueryProcessing.followupMarkers.any
              (fun w => containsSub (lowerString query) w)
          let q_emb := embedQuery E query
          let best_sim :=
            listMaxQ (prior.map (fun p => dotQ q_emb (embedQuery E p)))
          if decide (best_sim < (0.45 : ℚ)) && !is_followup then query
          else
            let short_words := decide ((pyWords query).length ≤ 4)
            if short_words || is_followup then
              joinSep " | " (prior.drop (prior.length - 2)) ++ " " ++ query
            else query

/-- `RetrievalEngine._get_conversation_context`. -/
def getConversationContext (E : EngineCfg) (session_id : String) : List ConvTurn :=
  if session_id = "" then []
  else
    match E.conversation_memory with
    | none => []
    | some _ => E.get_context session_id 4

/-- `RetrievalEngine.retrieve_enhanced`: cache → history → ANN source
selection, text attachment, reranking (cross-encoder only for the ANN
source when available, else lightweight), validation with retry, and the
persistence of a non-empty final id list into cache and history. -/
def retrieveEnhanced (E : EngineCfg) (now : ℚ) (st : EngineState) (query : String) :
    RetrievalResult × EngineState :=
  let key := QueryRouter.buildTopicKey query
  let query_vec := embedQuery E query
  let (hit, cache1) := TopicCacheManager.lookup E.cacheCfg now st.cache key
  let (source, chunk_ids) :=
    match hit with
    | some state => ("cache", state.cached_chunk_ids)
    | none =>
        if E.history_enabled then
          match ConversationHistory.findSimilar st.history query_vec with
          | some reused => ("history", reused)
          | none => ("ann", E.annSearch query_vec (E.ann_top_k * 2))
        else ("ann", E.annSearch query_vec (E.ann_top_k * 2))
  let chunks_with_text := getChunksWithText E chunk_ids
  let (chunks_with_text, chunk_ids, reranked) :=
    if chunks_with_text.isEmpty then (chunks_with_text, chunk_ids, false)
    else
      let reranked_chunks :=
        match source == "ann", E.crossReranker with
        | true, some rerank => rerank query chunks_with_text
        | _, _ => E.lightRerank query_vec chunks_with_text
      (reranked_chunks, reranked_chunks.map (fun c => c.chunk_id), true)
  let (chunks_with_text, chunk_ids, validated, validation_retries) :=
    if chunks_with_text.isEmpty then (chunks_with_text, chunk_ids, false, 0)
    else
      let (result, retries) :=
        RetrievalValidator.validateWithRetry E.validator (retrieveFresh E) query
          (some chunks_with_text) (some query_vec)
      (result.validated_chunks, result.validated_chunks.map (fun c => c.chunk_id),
       true, retries)
  let st' :=
    if chunk_ids.isEmpty then { st with cache := cache1 }
    else
      { cache := (TopicCacheManager.insertNew E.cacheCfg now cache1 key chunk_ids).2
        history := ConversationHistory.addOrUpdate now st.history key query_vec chunk_ids }
  ({ query := query, chunk_ids := chunk_ids, chunks_with_metadata := chunks_with_text,
     source := source, reranked := reranked, validated := validated,
     validation_retries := validation_retries }, st')

/-- The fallback summary text of `retrieve_and_generate` when no generator
is available. -/
def fallbackChunksText (chunks : List ChunkD) : String :=
  joinSep "\n\n---\n\n"
    ((chunks.take 5).enum.map (fun ci =>
      "[" ++ toString (ci.1 + 1) ++ "] " ++ (ci.2.chunk_text.toList.take 200).asString ++ "..."))

/-- `RetrievalEngine.retrieve_and_generate`. -/
def retrieveAndGenerate (E : EngineCfg) (now : ℚ) (st : EngineState)
    (query intent_query session_id : String) : RAGResponse × EngineState :=
  let (rr, st') := retrieveEnhanced E now st intent_query
  if rr.chunks_with_metadata.isEmpty then
    ({ query := query,
       answer := "I couldn't find any relevant information to answer your question.",
       citations := [], retrieval_source := rr.source, chunks_used := 0,
       success := false, error := some "No chunks retrieved",
       expanded_query := if intent_query ≠ query then some intent_query else none }, st')
  else
    match E.generatorFn with
    | none =>
        ({ query := query,
           answer := "Found " ++ toString rr.chunks_with_metadata.length ++
             " relevant chunks:\n\n" ++ fallbackChunksText rr.chunks_with_metadata,
           citations := [], retrieval_source := rr.source,
           chunks_used := rr.chunks_with_metadata.length, success := true,
           error := none, expanded_query := none }, st')
    | some gen =>
        let effective_query := expandWithContext E query session_id
        let gen_result :=
          gen effective_query rr.chunks_with_metadata (getConversationContext E session_id)
        ({ query := query, answer := gen_result.answer,
           citations := gen_result.citations, retrieval_source := rr.source,
           chunks_used := rr.chunks_with_metadata.length,
           success := gen_result.success, error := gen_result.error,
           expanded_query := if intent_query ≠ query then some intent_query else none }, st')

end RetrievalEngine

/-! ## Invariants and shared concrete inputs used by the claim theorems -/

def keysOf {κ α : Type} (l : List (κ × α)) : List κ := l.map Prod.fst

def keysNodup {κ α : Type} (l : List (κ × α)) : Prop := (keysOf l).Nodup

/-- Per-node score shape: either the `_on_access` form
`score = access_count + 0.1`, or the freshly inserted, never re-accessed
form `access_count = 1, score = 1.0`. -/
def scoreOk (n : CacheNodeM) : Prop :=
  n.score = (n.access_count : ℚ) + (0.1 : ℚ) ∨ (n.access_count = 1 ∧ n.score = 1)

/-- The score/access-count relationship over all reachable nodes. -/
def ScoreInv (s : CacheState) : Prop := ∀ p ∈ s.directory, scoreOk p.2

/-- Structural consistency of the three tiers and the directory
(spec §4.1 invariants, minus the capacity bounds). -/
structure CacheCons (s : CacheState) : Prop where
  n1 : s.L1.Nodup
  n2 : s.L2.Nodup
  n3 : s.L3.Nodup
  d12 : s.L1.Disjoint s.L2
  d13 : s.L1.Disjoint s.L3
  d23 : s.L2.Disjoint s.L3
  dirn : keysNodup s.directory
  mem1 : ∀ k ∈ s.L1, ∃ n, alookup s.directory k = some n ∧ n.level = 1
  mem2 : ∀ k ∈ s.L2, ∃ n, alookup s.directory k = some n ∧ n.level = 2
  mem3 : ∀ k ∈ s.L3, ∃ n, alookup s.directory k = some n ∧ n.level = 3
  dirmem : ∀ k n, alookup s.directory k = some n →
    (n.level = 1 ∧ k ∈ s.L1) ∨ (n.level = 2 ∧ k ∈ s.L2) ∨ (n.level = 3 ∧ k ∈ s.L3)

/-- Full TopicCache invariant: consistency plus the capacity bounds. -/
structure CacheInv (cfg : CacheCfg) (s : CacheState) : Prop where
  cons : CacheCons s
  cap1 : s.L1.length ≤ cfg.cap_l1
  cap2 : s.L2.length ≤ cfg.cap_l2
  cap3 : s.L3.length ≤ cfg.cap_l3

/-- `s'` keeps, at key `k`, the access statistics (count and score) it had
in `s` — tier moves and level rewrites never touch them. -/
def statsPreservedAt (k : TopicKey) (s s' : CacheState) : Prop :=
  ∀ n', alookup s'.directory k = some n' →
    ∃ n0, alookup s.directory k = some n0 ∧
      n'.access_count = n0.access_count ∧ n'.score = n0.score

/-- Concrete topic keys for the scenario theorems. -/
def keyA : TopicKey := ⟨"a", "any", "default"⟩

def keyB : TopicKey := ⟨"b", "any", "default"⟩

def keyC : TopicKey := ⟨"c", "any", "default"⟩

/-- Written from the spec's words for claim C5 (refinement comparison, not
from the source): combined score with query-length-dependent weights —
`(w_k, w_e) = (0.6, 0.4)` when the query has at most 2 keywords and
`(0.4, 0.6)` otherwise. -/
def specCombinedScore (keywordCount : Nat) (keyword_score embedding_score : ℚ) : ℚ :=
  if keywordCount ≤ 2 then (0.6 : ℚ) * keyword_score + (0.4 : ℚ) * embedding_score
  else (0.4 : ℚ) * keyword_score + (0.6 : ℚ) * embedding_score

/-- Concrete embedding-model oracle: `"linux"` embeds to `[1,0]`, everything
else to `[0,1]`. -/
def encTwo (s : String) : List ℚ := if s = "linux" then [(1 : ℚ), 0] else [0, 1]

/-- A validator wired to `encTwo` with the default
`MIN_RELEVANCE_SCORE = 0.15` and `MAX_RETRIES = 2`. -/
def vLinux : RetrievalValidator.ValidatorCfg :=
  { encode := encTwo, min_similarity := RetrievalValidator.defaultMinSimilarity,
    max_retries := RetrievalValidator.defaultMaxRetries }

/-- A preprocessor with no conversation memory and no embedding model. -/
def emptyPreproc : QueryProcessing.PreprocCfg := ⟨none, none⟩

/-- A concrete chunk whose text shares the keyword `linux` with the query
`"linux"` but embeds orthogonally under `encTwo`. -/
def chunkLK : ChunkD := ⟨"c1", "linux kernel", "p", none⟩

/-- Conversation-memory oracle: three recent queries for every session. -/
def ctxRecent : String → Nat → List String := fun _ _ => ["alpha", "beta", "gamma"]

/-- Embedding oracle: the follow-up query embeds orthogonally to every
prior query (cosine similarity 0 < 0.45). -/
def encCtx (s : String) : List ℚ := if s = "tell me more" then [(1 : ℚ), 0] else [0, 1]

/-- A preprocessor wired to the concrete conversation memory and embedding
oracles. -/
def ctxPreproc : QueryProcessing.PreprocCfg := ⟨some ctxRecent, some encCtx⟩

/-- Embedding oracle for the exhausted-validation scenario: every text embeds
to the empty vector, so every embedding similarity is 0. -/
def encNull : String → List ℚ := fun _ => []

/-- The chunk the metadata-less engine attaches to id `"c9"`: empty text, so
its keyword set is empty and every combined score is 0 < 0.15. -/
def chunkE : ChunkD := ⟨"c9", "", "", none⟩

/-- A validator wired to `encNull` with the default thresholds. -/
def vNull : RetrievalValidator.ValidatorCfg :=
  ⟨encNull, RetrievalValidator.defaultMinSimilarity, RetrievalValidator.defaultMaxRetries⟩

/-- An arbitrary session-history state (never consulted: history is disabled
in `engE`). -/
def hist0 : HistoryState := ⟨50, (0.9 : ℚ), "s", [], []⟩

/-- An engine whose ANN always returns chunk `"c9"`, with no metadata store,
no reranker, no generator, history disabled, and the `vNull` validator: every
validation attempt scores 0, so the retry budget is always exhausted. -/
def engE : EngineCfg :=
  { encode := encNull
    annSearch := fun _ _ => ["c9"]
    ann_top_k := 3
    history_enabled := false
    metadata_store := none
    crossReranker := none
    lightRerank := fun _ cs => cs
    validator := vNull
    conversation_memory := none
    get_context := fun _ _ => []
    generatorFn := none
    cacheCfg := defaultCacheCfg }

/-- Engine state with an empty cache and the dummy history. -/
def st0 : EngineState := ⟨emptyCacheState, hist0⟩

/-! ## Association-list lemmas -/

section AssocLemmas

variable {κ α : Type} [DecidableEq κ]

theorem alookup_aupdate_self (l : List (κ × α)) (k : κ) (v : α) :
    alookup (aupdate l k v) k = some v := by
  induction l with
  | nil => simp [aupdate, alookup]
  | cons p rest ih =>
      by_cases h : p.1 = k
      · simp [aupdate, h, alookup]
      · simp [aupdate, h, alookup, ih]

theorem alookup_aupdate_ne (l : List (κ × α)) {k q : κ} (v : α) (h : q ≠ k) :
    alookup (aupdate l k v) q = alookup l q := by
  have hkq : ¬ k = q := fun hh => h hh.symm
  induction l with
  | nil => simp [aupdate, alookup, hkq]
  | cons p rest ih =>
      obtain ⟨a, b⟩ := p
      by_cases h1 : a = k
      · have haq : ¬ a = q := fun hh => hkq (h1 ▸ hh)
        simp [aupdate, h1, alookup, hkq, haq]
      · simp only [aupdate, if_neg h1, alookup]
        by_cases h2 : a = q
        · simp [h2]
        · simp [h2, ih]

theorem mem_aupdate {l : List (κ × α)} {k : κ} {v : α} {p : κ × α}
    (h : p ∈ aupdate l k v) : p = (k, v) ∨ p ∈ l := by
  induction l with
  | nil => simpa [aupdate] using h
  | cons q rest ih =>
      obtain ⟨a, b⟩ := q
      by_cases h1 : a = k
      · simp only [aupdate, if_pos h1, List.mem_cons] at h
        rcases h with h | h
        · exact Or.inl h
        · exact Or.inr (List.mem_cons_of_mem _ h)
      · simp only [aupdate, if_neg h1, List.mem_cons] at h
        rcases h with h | h
        · exact Or.inr (h ▸ List.mem_cons_self _ _)
        · rcases ih h with h' | h'
          · exact Or.inl h'
          · exact Or.inr (List.mem_cons_of_mem _ h')

theorem mem_aremove {l : List (κ × α)} {k : κ} {p : κ × α}
    (h : p ∈ aremove l k) : p ∈ l := by
  induction l with
  | nil => simp [aremove] at h
  | cons q rest ih =>
      obtain ⟨a, b⟩ := q
      by_cases h1 : a = k
      · simp only [aremove, if_pos h1] at h
        exact List.mem_cons_of_mem _ h
      · simp only [aremove, if_neg h1, List.mem_cons] at h
        rcases h with h | h
        · exact h ▸ List.mem_cons_self _ _
        · exact List.mem_cons_of_mem _ (ih h)

theorem alookup_aremove_ne (l : List (κ × α)) {k q : κ} (h : q ≠ k) :
    alookup (aremove l k) q = alookup l q := by
  have hkq : ¬ k = q := fun hh => h hh.symm
  have hqk : ¬ q = k := h
  induction l with
  | nil => simp [aremove]
  | cons p rest ih =>
      obtain ⟨a, b⟩ := p
      by_cases h1 : a = k
      · have haq : ¬ a = q := fun hh => h (hh ▸ h1)
        simp [aremove, h1, alookup, haq, hkq]
      · by_cases h2 : a = q
        · simp [aremove, h1, alookup, h2, hqk]
        · simp [aremove, h1, alookup, h2, ih]

theorem alookup_mem {l : List (κ × α)} {q : κ} {v : α}
    (h : alookup l q = some v) : (q, v) ∈ l := by
  induction l with
  | nil => simp [alookup] at h
  | cons p rest ih =>
      obtain ⟨a, b⟩ := p
      by_cases h1 : a = q
      · simp only [alookup, if_pos h1] at h
        cases h
        exact h1 ▸ List.mem_cons_self _ _
      · simp only [alookup, if_neg h1] at h
        exact List.mem_cons_of_mem _ (ih h)

theorem alookup_eq_none (l : List (κ × α)) (q : κ) :
    alookup l q = none ↔ q ∉ keysOf l := by
  induction l with
  | nil => simp [alookup, keysOf]
  | cons p rest ih =>
      obtain ⟨a, b⟩ := p
      by_cases h1 : a = q
      · constructor
        · intro h
          rw [alookup, if_pos h1] at h
          cases h
        · intro h
          exfalso
          apply h
          rw [← h1]
          exact List.mem_map_of_mem Prod.fst (List.mem_cons_self _ _)
      · rw [alookup, if_neg h1, keysOf, List.map_cons, List.mem_cons]
        constructor
        · intro h hmem
          rcases hmem with he | hm
          · exact h1 he.symm
          · exact (ih.mp h) hm
        · intro h
          exact ih.mpr (fun hm => h (Or.inr hm))

theorem alookup_aremove_self {l : List (κ × α)} (hn : keysNodup l) (k : κ) :
    alookup (aremove l k) k = none := by
  induction l with
  | nil => simp [aremove, alookup]
  | cons p rest ih =>
      obtain ⟨a, b⟩ := p
      rw [keysNodup, keysOf, List.map_cons, List.nodup_cons] at hn
      by_cases h1 : a = k
      · rw [aremove, if_pos h1, alookup_eq_none]
        exact h1 ▸ hn.1
      · rw [aremove, if_neg h1, alookup, if_neg h1]
        exact ih hn.2

theorem keysNodup_aupdate {l : List (κ × α)} (hn : keysNodup l) (k : κ) (v : α) :
    keysNodup (aupdate l k v) := by
  induction l with
  | nil => simp [aupdate, keysNodup, keysOf]
  | cons p rest ih =>
      obtain ⟨a, b⟩ := p
      rw [keysNodup, keysOf, List.map_cons, List.nodup_cons] at hn
      by_cases h1 : a = k
      · rw [aupdate, if_pos h1, keysNodup, keysOf, List.map_cons, List.nodup_cons]
        exact ⟨h1 ▸ hn.1, hn.2⟩
      · rw [aupdate, if_neg h1, keysNodup, keysOf, List.map_cons, List.nodup_cons]
        constructor
        · intro hmem
          rcases List.mem_map.mp hmem with ⟨q, hq, he⟩
          obtain ⟨qa, qb⟩ := q
          have he' : qa = a := he
          rcases mem_aupdate hq with h' | h'
          · have hqk : qa = k := congrArg Prod.fst h'
            exact h1 (he'.symm.trans hqk)
          · have hmem2 : qa ∈ List.map Prod.fst rest :=
              List.mem_map_of_mem Prod.fst h'
            rw [he'] at hmem2
            exact hn.1 hmem2
        · exact ih hn.2

theorem keysNodup_aremove {l : List (κ × α)} (hn : keysNodup l) (k : κ) :
    keysNodup (aremove l k) := by
  induction l with
  | nil => simp [aremove, keysNodup, keysOf]
  | cons p rest ih =>
      obtain ⟨a, b⟩ := p
      rw [keysNodup, keysOf, List.map_cons, List.nodup_cons] at hn
      by_cases h1 : a = k
      · rw [aremove, if_pos h1]
        exact hn.2
      · rw [aremove, if_neg h1, keysNodup, keysOf, List.map_cons, List.nodup_cons]
        constructor
        · intro hmem
          rcases List.mem_map.mp hmem with ⟨q, hq, he⟩
          obtain ⟨qa, qb⟩ := q
          have he' : qa = a := he
          have hmem2 : qa ∈ List.map Prod.fst rest :=
            List.mem_map_of_mem Prod.fst (mem_aremove hq)
          rw [he'] at hmem2
          exact hn.1 hmem2
        · exact ih hn.2

theorem mem_keys_aupdate {l : List (κ × α)} {k q : κ} {v : α} :
    q ∈ keysOf (aupdate l k v) ↔ q ∈ keysOf l ∨ q = k := by
  induction l with
  | nil => simp [aupdate, keysOf]
  | cons p rest ih =>
      obtain ⟨a, b⟩ := p
      by_cases h1 : a = k
      · subst h1
        rw [aupdate, if_pos rfl]
        simp only [keysOf, List.map_cons, List.mem_cons]
        tauto
      · rw [aupdate, if_neg h1]
        simp only [keysOf, List.map_cons, List.mem_cons] at ih ⊢
        tauto

end AssocLemmas

/-! ## Cache: score bookkeeping (claim C4) -/

namespace TopicCacheManager

theorem scoreOk_setLevel {n : CacheNodeM} (lvl : Nat) (h : scoreOk n) :
    scoreOk { n with level := lvl } := h

theorem scoreInv_save {s : CacheState} (k : TopicKey) (n : CacheNodeM)
    (h : ScoreInv s) : ScoreInv (saveCacheEntry s k n) := h

theorem scoreInv_evict {s : CacheState} (h : ScoreInv s) :
    ScoreInv (evictFromL3 s) := by
  rcases hL3 : s.L3 with _ | ⟨k, rest⟩
  · simpa [evictFromL3, hL3] using h
  · simp only [evictFromL3, hL3, deleteCacheEntry]
    intro p hp
    exact h p (mem_aremove hp)

theorem scoreInv_setLevel {s : CacheState} {k : TopicKey} {n : CacheNodeM}
    (lvl : Nat) (h : ScoreInv s) (hk : alookup s.directory k = some n) :
    ∀ p ∈ aupdate s.directory k { n with level := lvl }, scoreOk p.2 := by
  intro p hp
  rcases mem_aupdate hp with h' | h'
  · rw [h']
    exact scoreOk_setLevel lvl (h _ (alookup_mem hk))
  · exact h p h'

theorem scoreInv_demote23 (cfg : CacheCfg) {s : CacheState} (h : ScoreInv s) :
    ScoreInv (demoteL2toL3 cfg s) := by
  rcases hL2 : s.L2 with _ | ⟨k, rest⟩
  · simpa [demoteL2toL3, hL2] using h
  · rcases hdk : alookup s.directory k with _ | n
    · simpa [demoteL2toL3, hL2, hdk] using h
    · simp only [demoteL2toL3, hL2, hdk]
      apply scoreInv_save
      have h1 : ScoreInv { s with
          L2 := rest
          L3 := s.L3 ++ [k]
          directory := aupdate s.directory k { n with level := 3 } } :=
        scoreInv_setLevel 3 h hdk
      split
      · exact scoreInv_evict h1
      · exact h1

theorem scoreInv_demote12 (cfg : CacheCfg) {s : CacheState} (h : ScoreInv s) :
    ScoreInv (demoteL1toL2 cfg s) := by
  rcases hL1 : s.L1 with _ | ⟨k, rest⟩
  · simpa [demoteL1toL2, hL1] using h
  · rcases hdk : alookup s.directory k with _ | n
    · simpa [demoteL1toL2, hL1, hdk] using h
    · simp only [demoteL1toL2, hL1, hdk]
      apply scoreInv_save
      have h1 : ScoreInv { s with
          L1 := rest
          L2 := s.L2 ++ [k]
          directory := aupdate s.directory k { n with level := 2 } } :=
        scoreInv_setLevel 2 h hdk
      split
      · exact scoreInv_demote23 cfg h1
      · exact h1

theorem scoreInv_promote32 (cfg : CacheCfg) {s : CacheState} (k : TopicKey)
    (h : ScoreInv s) : ScoreInv (promoteL3toL2 cfg s k) := by
  rcases hdk : alookup s.directory k with _ | n
  · simpa [promoteL3toL2, hdk] using h
  · simp only [promoteL3toL2, hdk]
    apply scoreInv_save
    have h1 : ScoreInv { s with
        L3 := s.L3.erase k
        L2 := s.L2 ++ [k]
        directory := aupdate s.directory k { n with level := 2 } } :=
      scoreInv_setLevel 2 h hdk
    split
    · exact scoreInv_demote23 cfg h1
    · exact h1

theorem scoreInv_promote21 (cfg : CacheCfg) {s : CacheState} (k : TopicKey)
    (h : ScoreInv s) : ScoreInv (promoteL2toL1 cfg s k) := by
  rcases hdk : alookup s.directory k with _ | n
  · simpa [promoteL2toL1, hdk] using h
  · simp only [promoteL2toL1, hdk]
    apply scoreInv_save
    have h1 : ScoreInv { s with
        L2 := s.L2.erase k
        L1 := s.L1 ++ [k]
        directory := aupdate s.directory k { n with level := 1 } } :=
      scoreInv_setLevel 1 h hdk
    split
    · exact scoreInv_demote12 cfg h1
    · exact h1

theorem scoreInv_maybePromote (cfg : CacheCfg) {s : CacheState} (k : TopicKey)
    (h : ScoreInv s) : ScoreInv (maybePromote cfg s k) := by
  rcases hdk : alookup s.directory k with _ | n
  · simpa [maybePromote, hdk] using h
  · simp only [maybePromote, hdk]
    split
    · exact scoreInv_promote32 cfg k h
    · split
      · exact scoreInv_promote21 cfg k h
      · exact h

theorem scoreInv_onAccess (now : ℚ) {s : CacheState} (k : TopicKey)
    (h : ScoreInv s) : ScoreInv (onAccess now s k) := by
  rcases hdk : alookup s.directory k with _ | n
  · simpa [onAccess, hdk] using h
  · simp only [onAccess, hdk]
    apply scoreInv_save
    have hbase : ∀ p ∈ aupdate s.directory k
        { n with
          access_count := n.access_count + 1
          last_access_ts := now
          score := ((n.access_count + 1 : Nat) : ℚ) + (0.1 : ℚ) }, scoreOk p.2 := by
      intro p hp
      rcases mem_aupdate hp with h' | h'
      · rw [h']
        left
        push_cast
        ring
      · exact h p h'
    split
    · exact hbase
    · split
      · exact hbase
      · split
        · exact hbase
        · exact hbase

theorem scoreInv_insertNew (cfg : CacheCfg) (now : ℚ) {s : CacheState}
    (k : TopicKey) (ids : List String) (h : ScoreInv s) :
    ScoreInv (insertNew cfg now s k ids).2 := by
  rcases hdk : alookup s.directory k with _ | n
  · simp only [insertNew, hdk]
    apply scoreInv_save
    intro p hp
    rcases mem_aupdate hp with h' | h'
    · rw [h']
      right
      refine ⟨rfl, ?_⟩
      norm_num
    · have h1 : ScoreInv { s with L3 := s.L3 ++ [k] } := h
      revert h'
      split
      · intro h'
        exact scoreInv_evict h1 p h'
      · intro h'
        exact h1 p h'
  · simpa [insertNew, hdk] using h

theorem scoreInv_lookup (cfg : CacheCfg) (now : ℚ) {s : CacheState}
    (k : TopicKey) (h : ScoreInv s) : ScoreInv (lookup cfg now s k).2 := by
  rcases hdk : alookup s.directory k with _ | n
  · simpa [lookup, hdk] using h
  · simp only [lookup, hdk]
    exact scoreInv_maybePromote cfg k (scoreInv_onAccess now k h)

/-! Nodup of directory keys is preserved by every cache operation. -/

theorem dirNodup_save {s : CacheState} (k : TopicKey) (n : CacheNodeM)
    (hn : keysNodup s.directory) : keysNodup (saveCacheEntry s k n).directory := hn

theorem dirNodup_evict {s : CacheState} (hn : keysNodup s.directory) :
    keysNodup (evictFromL3 s).directory := by
  rcases hL3 : s.L3 with _ | ⟨k, rest⟩
  · simpa [evictFromL3, hL3] using hn
  · simp only [evictFromL3, hL3, deleteCacheEntry]
    exact keysNodup_aremove hn k

theorem dirNodup_demote23 (cfg : CacheCfg) {s : CacheState}
    (hn : keysNodup s.directory) : keysNodup (demoteL2toL3 cfg s).directory := by
  rcases hL2 : s.L2 with _ | ⟨k, rest⟩
  · simpa [demoteL2toL3, hL2] using hn
  · rcases hdk : alookup s.directory k with _ | n
    · simpa [demoteL2toL3, hL2, hdk] using hn
    · simp only [demoteL2toL3, hL2, hdk]
      apply dirNodup_save
      have h1 := keysNodup_aupdate hn k { n with level := 3 }
      split
      · exact dirNodup_evict h1
      · exact h1

theorem dirNodup_demote12 (cfg : CacheCfg) {s : CacheState}
    (hn : keysNodup s.directory) : keysNodup (demoteL1toL2 cfg s).directory := by
  rcases hL1 : s.L1 with _ | ⟨k, rest⟩
  · simpa [demoteL1toL2, hL1] using hn
  · rcases hdk : alookup s.directory k with _ | n
    · simpa [demoteL1toL2, hL1, hdk] using hn
    · simp only [demoteL1toL2, hL1, hdk]
      apply dirNodup_save
      have h1 := keysNodup_aupdate hn k { n with level := 2 }
      split
      · exact dirNodup_demote23 cfg h1
      · exact h1

theorem dirNodup_promote32 (cfg : CacheCfg) {s : CacheState} (k : TopicKey)
    (hn : keysNodup s.directory) : keysNodup (promoteL3toL2 cfg s k).directory := by
  rcases hdk : alookup s.directory k with _ | n
  · simpa [promoteL3toL2, hdk] using hn
  · simp only [promoteL3toL2, hdk]
    apply dirNodup_save
    have h1 := keysNodup_aupdate hn k { n with level := 2 }
    split
    · exact dirNodup_demote23 cfg h1
    · exact h1

theorem dirNodup_promote21 (cfg : CacheCfg) {s : CacheState} (k : TopicKey)
    (hn : keysNodup s.directory) : keysNodup (promoteL2toL1 cfg s k).directory := by
  rcases hdk : alookup s.directory k with _ | n
  · simpa [promoteL2toL1, hdk] using hn
  · simp only [promoteL2toL1, hdk]
    apply dirNodup_save
    have h1 := keysNodup_aupdate hn k { n with level := 1 }
    split
    · exact dirNodup_demote12 cfg h1
    · exact h1

theorem dirNodup_maybePromote (cfg : CacheCfg) {s : CacheState} (k : TopicKey)
    (hn : keysNodup s.directory) : keysNodup (maybePromote cfg s k).directory := by
  rcases hdk : alookup s.directory k with _ | n
  · simpa [maybePromote, hdk] using hn
  · simp only [maybePromote, hdk]
    split
    · exact dirNodup_promote32 cfg k hn
    · split
      · exact dirNodup_promote21 cfg k hn
      · exact hn

theorem dirNodup_onAccess (now : ℚ) {s : CacheState} (k : TopicKey)
    (hn : keysNodup s.directory) : keysNodup (onAccess now s k).directory := by
  rcases hdk : alookup s.directory k with _ | n
  · simpa [onAccess, hdk] using hn
  · simp only [onAccess, hdk]
    have h1 := keysNodup_aupdate hn k
      { n with
        access_count := n.access_count + 1
        last_access_ts := now
        score := ((n.access_count + 1 : Nat) : ℚ) + (0.1 : ℚ) }
    split
    · exact h1
    · split
      · exact h1
      · split
        · exact h1
        · exact h1

/-! Tier moves preserve the access statistics stored at every key. -/

theorem statsAt_refl (k : TopicKey) (s : CacheState) : statsPreservedAt k s s :=
  fun n' h => ⟨n', h, rfl, rfl⟩

theorem statsAt_trans {k : TopicKey} {s t u : CacheState}
    (h1 : statsPreservedAt k s t) (h2 : statsPreservedAt k t u) :
    statsPreservedAt k s u := by
  intro n' hu
  rcases h2 n' hu with ⟨n1, ht, hc1, hs1⟩
  rcases h1 n1 ht with ⟨n0, hs, hc0, hs0⟩
  exact ⟨n0, hs, hc1.trans hc0, hs1.trans hs0⟩

theorem statsAt_evict {s : CacheState} (k : TopicKey) (hn : keysNodup s.directory) :
    statsPreservedAt k s (evictFromL3 s) := by
  rcases hL3 : s.L3 with _ | ⟨k0, rest⟩
  · simpa [evictFromL3, hL3] using statsAt_refl k s
  · intro n' h'
    simp only [evictFromL3, hL3, deleteCacheEntry] at h'
    by_cases hk : k = k0
    · rw [hk, alookup_aremove_self hn] at h'
      cases h'
    · rw [alookup_aremove_ne _ hk] at h'
      exact ⟨n', h', rfl, rfl⟩

theorem statsAt_aupdate_setLevel {s : CacheState} (k k0 : TopicKey)
    {n : CacheNodeM} (lvl : Nat) (hdk : alookup s.directory k0 = some n)
    {L1 L2 L3 : List TopicKey} {db : List (TopicKey × CacheNodeM)} :
    statsPreservedAt k s
      ⟨L1, L2, L3, aupdate s.directory k0 { n with level := lvl }, db⟩ := by
  intro n' h'
  by_cases hk : k = k0
  · subst hk
    rw [alookup_aupdate_self] at h'
    cases h'
    exact ⟨n, hdk, rfl, rfl⟩
  · rw [alookup_aupdate_ne _ _ hk] at h'
    exact ⟨n', h', rfl, rfl⟩

theorem statsAt_demote23 (cfg : CacheCfg) {s : CacheState} (k : TopicKey)
    (hn : keysNodup s.directory) : statsPreservedAt k s (demoteL2toL3 cfg s) := by
  rcases hL2 : s.L2 with _ | ⟨k0, rest⟩
  · simpa [demoteL2toL3, hL2] using statsAt_refl k s
  · rcases hdk : alookup s.directory k0 with _ | n
    · simpa [demoteL2toL3, hL2, hdk] using statsAt_refl k s
    · simp only [demoteL2toL3, hL2, hdk, saveCacheEntry]
      have hstep : statsPreservedAt k s { s with
          L2 := rest
          L3 := s.L3 ++ [k0]
          directory := aupdate s.directory k0 { n with level := 3 } } :=
        statsAt_aupdate_setLevel k k0 3 hdk
      have hn1 : keysNodup (aupdate s.directory k0 { n with level := 3 }) :=
        keysNodup_aupdate hn k0 _
      split
      · intro n' h'
        exact (statsAt_trans hstep (statsAt_evict k hn1)) n' h'
      · intro n' h'
        exact hstep n' h'

theorem statsAt_demote12 (cfg : CacheCfg) {s : CacheState} (k : TopicKey)
    (hn : keysNodup s.directory) : statsPreservedAt k s (demoteL1toL2 cfg s) := by
  rcases hL1 : s.L1 with _ | ⟨k0, rest⟩
  · simpa [demoteL1toL2, hL1] using statsAt_refl k s
  · rcases hdk : alookup s.directory k0 with _ | n
    · simpa [demoteL1toL2, hL1, hdk] using statsAt_refl k s
    · simp only [demoteL1toL2, hL1, hdk, saveCacheEntry]
      have hstep : statsPreservedAt k s { s with
          L1 := rest
          L2 := s.L2 ++ [k0]
          directory := aupdate s.directory k0 { n with level := 2 } } :=
        statsAt_aupdate_setLevel k k0 2 hdk
      have hn1 : keysNodup (aupdate s.directory k0 { n with level := 2 }) :=
        keysNodup_aupdate hn k0 _
      split
      · intro n' h'
        exact (statsAt_trans hstep (statsAt_demote23 cfg k hn1)) n' h'
      · intro n' h'
        exact hstep n' h'

theorem statsAt_promote32 (cfg : CacheCfg) {s : CacheState} (k k2 : TopicKey)
    (hn : keysNodup s.directory) : statsPreservedAt k s (promoteL3toL2 cfg s k2) := by
  rcases hdk : alookup s.directory k2 with _ | n
  · simpa [promoteL3toL2, hdk] using statsAt_refl k s
  · simp only [promoteL3toL2, hdk, saveCacheEntry]
    have hstep : statsPreservedAt k s { s with
        L3 := s.L3.erase k2
        L2 := s.L2 ++ [k2]
        directory := aupdate s.directory k2 { n with level := 2 } } :=
      statsAt_aupdate_setLevel k k2 2 hdk
    have hn1 : keysNodup (aupdate s.directory k2 { n with level := 2 }) :=
      keysNodup_aupdate hn k2 _
    split
    · intro n' h'
      exact (statsAt_trans hstep (statsAt_demote23 cfg k hn1)) n' h'
    · intro n' h'
      exact hstep n' h'

theorem statsAt_promote21 (cfg : CacheCfg) {s : CacheState} (k k2 : TopicKey)
    (hn : keysNodup s.directory) : statsPreservedAt k s (promoteL2toL1 cfg s k2) := by
  rcases hdk : alookup s.directory k2 with _ | n
  · simpa [promoteL2toL1, hdk] using statsAt_refl k s
  · simp only [promoteL2toL1, hdk, saveCacheEntry]
    have hstep : statsPreservedAt k s { s with
        L2 := s.L2.erase k2
        L1 := s.L1 ++ [k2]
        directory := aupdate s.directory k2 { n with level := 1 } } :=
      statsAt_aupdate_setLevel k k2 1 hdk
    have hn1 : keysNodup (aupdate s.directory k2 { n with level := 1 }) :=
      keysNodup_aupdate hn k2 _
    split
    · intro n' h'
      exact (statsAt_trans hstep (statsAt_demote12 cfg k hn1)) n' h'
    · intro n' h'
      exact hstep n' h'

theorem statsAt_maybePromote (cfg : CacheCfg) {s : CacheState} (k k2 : TopicKey)
    (hn : keysNodup s.directory) : statsPreservedAt k s (maybePromote cfg s k2) := by
  rcases hdk : alookup s.directory k2 with _ | n
  · simpa [maybePromote, hdk] using statsAt_refl k s
  · simp only [maybePromote, hdk]
    split
    · exact statsAt_promote32 cfg k k2 hn
    · split
      · exact statsAt_promote21 cfg k k2 hn
      · exact statsAt_refl k s

/-- After `_on_access`, the node stored at the accessed key has its count
bumped and its score re-derived as `access_count + 0.1`. -/
theorem onAccess_lookup_self (now : ℚ) {s : CacheState} {k : TopicKey}
    {n : CacheNodeM} (hdk : alookup s.directory k = some n) :
    alookup (onAccess now s k).directory k =
      some { n with
             access_count := n.access_count + 1
             last_access_ts := now
             score := ((n.access_count + 1 : Nat) : ℚ) + (0.1 : ℚ) } := by
  simp only [onAccess, hdk]
  split
  · exact alookup_aupdate_self _ _ _
  · split
    · exact alookup_aupdate_self _ _ _
    · split
      · exact alookup_aupdate_self _ _ _
      · exact alookup_aupdate_self _ _ _

end TopicCacheManager

/-- Claim C4 (counterexample): `insert_new` builds the fresh state with
`score=1.0`, not `access_count + 0.1 = 1.1`; at the concrete key `a` on the
empty cache the returned state has `access_count = 1` and a score different
from 1.1, refuting "state.score equals state.access_count + 0.1 at all
times: insert_new returns a fresh state with ... score = 1.1". -/
theorem C4_counterexample :
    (TopicCacheManager.insertNew defaultCacheCfg 0 emptyCacheState keyA ["c1"]).1.access_count
        = 1 ∧
    (TopicCacheManager.insertNew defaultCacheCfg 0 emptyCacheState keyA ["c1"]).1.score
        ≠ (1.1 : ℚ) := by
  refine ⟨rfl, ?_⟩
  show (1.0 : ℚ) ≠ (1.1 : ℚ)
  norm_num

/-- Claim C4 (amended): `insert_new` returns a fresh state with
`access_count = 1` and `score = 1.0`; every lookup hit returns a state with
`score = access_count + 0.1`; and both operations preserve the invariant
that every directory node's score is either `access_count + 0.1` or the
fresh-insert shape `access_count = 1, score = 1.0`. -/
theorem C4_amended (cfg : CacheCfg) (now : ℚ) (s : CacheState) (k : TopicKey)
    (ids : List String) (hn : keysNodup s.directory) (hinv : ScoreInv s) :
    ScoreInv (TopicCacheManager.insertNew cfg now s k ids).2 ∧
    ScoreInv (TopicCacheManager.lookup cfg now s k).2 ∧
    (alookup s.directory k = none →
      (TopicCacheManager.insertNew cfg now s k ids).1.access_count = 1 ∧
      (TopicCacheManager.insertNew cfg now s k ids).1.score = 1) ∧
    (∀ n', (TopicCacheManager.lookup cfg now s k).1 = some n' →
      n'.score = (n'.access_count : ℚ) + (0.1 : ℚ)) := by
  refine ⟨TopicCacheManager.scoreInv_insertNew cfg now k ids hinv,
    TopicCacheManager.scoreInv_lookup cfg now k hinv, ?_, ?_⟩
  · intro hmiss
    refine ⟨?_, ?_⟩
    · simp [TopicCacheManager.insertNew, hmiss]
    · show (TopicCacheManager.insertNew cfg now s k ids).1.score = 1
      simp only [TopicCacheManager.insertNew, hmiss]
      norm_num
  · intro n' hret
    rcases hdk : alookup s.directory k with _ | n
    · simp [TopicCacheManager.lookup, hdk] at hret
    · simp only [TopicCacheManager.lookup, hdk] at hret
      have hn1 : keysNodup (TopicCacheManager.onAccess now s k).directory :=
        TopicCacheManager.dirNodup_onAccess now k hn
      have hstats := TopicCacheManager.statsAt_maybePromote cfg k k hn1 n' hret
      rcases hstats with ⟨n0, h0, hc, hs⟩
      rw [TopicCacheManager.onAccess_lookup_self now hdk] at h0
      cases h0
      rw [hs, hc]

/-- Witness for C4 (amended) at the empty cache and key `a`. -/
theorem C4_amended_witness :
    ScoreInv (TopicCacheManager.insertNew defaultCacheCfg 0 emptyCacheState keyA ["x"]).2 ∧
    ScoreInv (TopicCacheManager.lookup defaultCacheCfg 0 emptyCacheState keyA).2 ∧
    (alookup emptyCacheState.directory keyA = none →
      (TopicCacheManager.insertNew defaultCacheCfg 0 emptyCacheState keyA ["x"]).1.access_count
          = 1 ∧
      (TopicCacheManager.insertNew defaultCacheCfg 0 emptyCacheState keyA ["x"]).1.score = 1) ∧
    (∀ n', (TopicCacheManager.lookup defaultCacheCfg 0 emptyCacheState keyA).1 = some n' →
      n'.score = (n'.access_count : ℚ) + (0.1 : ℚ)) :=
  C4_amended defaultCacheCfg 0 emptyCacheState keyA ["x"]
    (by simp [keysNodup, keysOf, emptyCacheState])
    (by intro p hp; simp [emptyCacheState] at hp)

/-- Claim C9: starting from the empty cache with default thresholds, keys
`a`, `b`, `c` accessed once each land in L3; two further lookups of `a`
promote it to L2 on its third access and five further lookups promote it to
L1 on its eighth; the final tier dump is `L1=[a], L2=[], L3=[b, c]`. -/
theorem C9_promotion_ladder :
    TopicCacheManager.debugDumpLevels
      (TopicCacheManager.access defaultCacheCfg 10
        (TopicCacheManager.access defaultCacheCfg 9
          (TopicCacheManager.access defaultCacheCfg 8
            (TopicCacheManager.access defaultCacheCfg 7
              (TopicCacheManager.access defaultCacheCfg 6
                (TopicCacheManager.access defaultCacheCfg 5
                  (TopicCacheManager.access defaultCacheCfg 4
                    (TopicCacheManager.access defaultCacheCfg 3
                      (TopicCacheManager.access defaultCacheCfg 2
                        (TopicCacheManager.access defaultCacheCfg 1
                          emptyCacheState keyA ["a1"])
                        keyB ["b1"])
                      keyC ["c1"])
                    keyA ["a1"])
                  keyA ["a1"])
                keyA ["a1"])
              keyA ["a1"])
            keyA ["a1"])
          keyA ["a1"])
        keyA ["a1"])
      = ([keyA], [], [keyB, keyC]) := by decide

/-! ## Cache loader ordering (claim C3) -/

/-- Folding `loadStep` over rows with pairwise-distinct keys, none of which
is already in a tier, appends each row's key to its recorded tier in row
order and registers exactly the level-1/2/3 keys in the directory. -/
theorem loadSteps_spec :
    ∀ (rs : List CacheRow) (acc : CacheState),
      (∀ r ∈ rs, r.key ∉ acc.L1 ∧ r.key ∉ acc.L2 ∧ r.key ∉ acc.L3) →
      (rs.map CacheRow.key).Nodup →
      (rs.foldl CacheLoader.loadStep acc).L1
          = acc.L1 ++ (rs.filter (fun r => r.level = 1)).map CacheRow.key ∧
      (rs.foldl CacheLoader.loadStep acc).L2
          = acc.L2 ++ (rs.filter (fun r => r.level = 2)).map CacheRow.key ∧
      (rs.foldl CacheLoader.loadStep acc).L3
          = acc.L3 ++ (rs.filter (fun r => r.level = 3)).map CacheRow.key ∧
      (∀ k, k ∈ keysOf (rs.foldl CacheLoader.loadStep acc).directory ↔
          k ∈ keysOf acc.directory ∨
          k ∈ (rs.filter (fun r =>
                r.level = 1 ∨ r.level = 2 ∨ r.level = 3)).map CacheRow.key)
  | [], acc, _, _ => by simp
  | r :: rs', acc, hfresh, hnd => by
      have hr := hfresh r (List.mem_cons_self _ _)
      have hndtail : (rs'.map CacheRow.key).Nodup := (List.nodup_cons.mp hnd).2
      have hrnew : r.key ∉ rs'.map CacheRow.key := (List.nodup_cons.mp hnd).1
      by_cases lv1 : r.level = 1
      · have hacc' : CacheLoader.loadStep acc r = { acc with
            L1 := acc.L1 ++ [r.key]
            directory := aupdate acc.directory r.key (CacheLoader.rowNode r) } := by
          simp [CacheLoader.loadStep, lv1, CacheLoader.odIns, hr.1]
        have hfresh' : ∀ r' ∈ rs', r'.key ∉ acc.L1 ++ [r.key] ∧
            r'.key ∉ acc.L2 ∧ r'.key ∉ acc.L3 := by
          intro r' hr'
          have h3 := hfresh r' (List.mem_cons_of_mem _ hr')
          have hne : r'.key ≠ r.key := by
            intro he
            exact hrnew (he ▸ List.mem_map_of_mem CacheRow.key hr')
          refine ⟨?_, h3.2.1, h3.2.2⟩
          simp [List.mem_append, h3.1, hne]
        have ih := loadSteps_spec rs'
          { acc with
            L1 := acc.L1 ++ [r.key]
            directory := aupdate acc.directory r.key (CacheLoader.rowNode r) }
          hfresh' hndtail
        rcases ih with ⟨ih1, ih2, ih3, ihd⟩
        refine ⟨?_, ?_, ?_, ?_⟩
        · rw [List.foldl_cons, hacc', ih1]
          simp [lv1]
        · rw [List.foldl_cons, hacc', ih2]
          simp [lv1]
        · rw [List.foldl_cons, hacc', ih3]
          simp [lv1]
        · intro k
          rw [List.foldl_cons, hacc', ihd k]
          rw [show ({ acc with
              L1 := acc.L1 ++ [r.key]
              directory := aupdate acc.directory r.key (CacheLoader.rowNode r) } :
              CacheState).directory
            = aupdate acc.directory r.key (CacheLoader.rowNode r) from rfl]
          rw [mem_keys_aupdate]
          rw [List.filter_cons_of_pos (by simp [lv1])]
          simp only [List.map_cons, List.mem_cons]
          tauto
      · by_cases lv2 : r.level = 2
        · have hacc' : CacheLoader.loadStep acc r = { acc with
              L2 := acc.L2 ++ [r.key]
              directory := aupdate acc.directory r.key (CacheLoader.rowNode r) } := by
            simp [CacheLoader.loadStep, lv1, lv2, CacheLoader.odIns, hr.2.1]
          have hfresh' : ∀ r' ∈ rs', r'.key ∉ acc.L1 ∧
              r'.key ∉ acc.L2 ++ [r.key] ∧ r'.key ∉ acc.L3 := by
            intro r' hr'
            have h3 := hfresh r' (List.mem_cons_of_mem _ hr')
            have hne : r'.key ≠ r.key := by
              intro he
              exact hrnew (he ▸ List.mem_map_of_mem CacheRow.key hr')
            refine ⟨h3.1, ?_, h3.2.2⟩
            simp [List.mem_append, h3.2.1, hne]
          have ih := loadSteps_spec rs'
            { acc with
              L2 := acc.L2 ++ [r.key]
              directory := aupdate acc.directory r.key (CacheLoader.rowNode r) }
            hfresh' hndtail
          rcases ih with ⟨ih1, ih2, ih3, ihd⟩
          refine ⟨?_, ?_, ?_, ?_⟩
          · rw [List.foldl_cons, hacc', ih1]
            simp [lv1, lv2]
          · rw [List.foldl_cons, hacc', ih2]
            simp [lv1, lv2]
          · rw [List.foldl_cons, hacc', ih3]
            simp [lv1, lv2]
          · intro k
            rw [List.foldl_cons, hacc', ihd k]
            rw [show ({ acc with
                L2 := acc.L2 ++ [r.key]
                directory := aupdate acc.directory r.key (CacheLoader.rowNode r) } :
                CacheState).directory
              = aupdate acc.directory r.key (CacheLoader.rowNode r) from rfl]
            rw [mem_keys_aupdate]
            rw [List.filter_cons_of_pos (by simp [lv2])]
            simp only [List.map_cons, List.mem_cons]
            tauto
        · by_cases lv3 : r.level = 3
          · have hacc' : CacheLoader.loadStep acc r = { acc with
                L3 := acc.L3 ++ [r.key]
                directory := aupdate acc.directory r.key (CacheLoader.rowNode r) } := by
              simp [CacheLoader.loadStep, lv1, lv2, lv3, CacheLoader.odIns, hr.2.2]
            have hfresh' : ∀ r' ∈ rs', r'.key ∉ acc.L1 ∧
                r'.key ∉ acc.L2 ∧ r'.key ∉ acc.L3 ++ [r.key] := by
              intro r' hr'
              have h3 := hfresh r' (List.mem_cons_of_mem _ hr')
              have hne : r'.key ≠ r.key := by
                intro he
                exact hrnew (he ▸ List.mem_map_of_mem CacheRow.key hr')
              refine ⟨h3.1, h3.2.1, ?_⟩
              simp [List.mem_append, h3.2.2, hne]
            have ih := loadSteps_spec rs'
              { acc with
                L3 := acc.L3 ++ [r.key]
                directory := aupdate acc.directory r.key (CacheLoader.rowNode r) }
              hfresh' hndtail
            rcases ih with ⟨ih1, ih2, ih3, ihd⟩
            refine ⟨?_, ?_, ?_, ?_⟩
            · rw [List.foldl_cons, hacc', ih1]
              simp [lv1, lv2, lv3]
            · rw [List.foldl_cons, hacc', ih2]
              simp [lv1, lv2, lv3]
            · rw [List.foldl_cons, hacc', ih3]
              simp [lv1, lv2, lv3]
            · intro k
              rw [List.foldl_cons, hacc', ihd k]
              rw [show ({ acc with
                  L3 := acc.L3 ++ [r.key]
                  directory := aupdate acc.directory r.key (CacheLoader.rowNode r) } :
                  CacheState).directory
                = aupdate acc.directory r.key (CacheLoader.rowNode r) from rfl]
              rw [mem_keys_aupdate]
              rw [List.filter_cons_of_pos (by simp [lv3])]
              simp only [List.map_cons, List.mem_cons]
              tauto
          · have hacc' : CacheLoader.loadStep acc r = acc := by
              simp [CacheLoader.loadStep, lv1, lv2, lv3]
            have hfresh' : ∀ r' ∈ rs', r'.key ∉ acc.L1 ∧
                r'.key ∉ acc.L2 ∧ r'.key ∉ acc.L3 :=
              fun r' hr' => hfresh r' (List.mem_cons_of_mem _ hr')
            have ih := loadSteps_spec rs' acc hfresh' hndtail
            rcases ih with ⟨ih1, ih2, ih3, ihd⟩
            refine ⟨?_, ?_, ?_, ?_⟩
            · rw [List.foldl_cons, hacc', ih1]
              simp [lv1]
            · rw [List.foldl_cons, hacc', ih2]
              simp [lv2]
            · rw [List.foldl_cons, hacc', ih3]
              simp [lv3]
            · intro k
              rw [List.foldl_cons, hacc', ihd k]
              rw [List.filter_cons_of_neg (by simp [lv1, lv2, lv3])]

/-- Claim C3 (counterexample): with two level-3 rows of timestamps 1 and 2,
the loader puts the key with the larger (most recent) `last_access_ts` at
the FRONT of L3, refuting "ordered by last_access_ts ascending, so within
every tier the least-recently-accessed node sits at the front". -/
theorem C3_counterexample :
    (CacheLoader.loadCache
        [(⟨keyA, ["x"], 1, 1, 0, 1, 0, 3⟩ : CacheRow),
         (⟨keyB, ["y"], 1, 2, 0, 1, 0, 3⟩ : CacheRow)]).L3 = [keyB, keyA] ∧
    (CacheLoader.loadCache
        [(⟨keyA, ["x"], 1, 1, 0, 1, 0, 3⟩ : CacheRow),
         (⟨keyB, ["y"], 1, 2, 0, 1, 0, 3⟩ : CacheRow)]).L3 ≠ [keyA, keyB] := by
  constructor
  · decide
  · decide

/-- Claim C3 (amended): the loader populates each tier ordered by
`last_access_ts` DESCENDING (most-recently-accessed at the front,
least-recently-accessed at the back), and the rebuilt directory's key set
equals the union of the three tiers. -/
theorem C3_amended (rows : List CacheRow) (hk : (rows.map CacheRow.key).Nodup) :
    ((CacheLoader.loadCache rows).L1 =
        ((List.insertionSort CacheLoader.rowOrder rows).filter
          (fun r => r.level = 1)).map CacheRow.key ∧
     (CacheLoader.loadCache rows).L2 =
        ((List.insertionSort CacheLoader.rowOrder rows).filter
          (fun r => r.level = 2)).map CacheRow.key ∧
     (CacheLoader.loadCache rows).L3 =
        ((List.insertionSort CacheLoader.rowOrder rows).filter
          (fun r => r.level = 3)).map CacheRow.key) ∧
    (List.Pairwise (fun a b : CacheRow => b.last_access_ts ≤ a.last_access_ts)
        ((List.insertionSort CacheLoader.rowOrder rows).filter
          (fun r => r.level = 1)) ∧
     List.Pairwise (fun a b : CacheRow => b.last_access_ts ≤ a.last_access_ts)
        ((List.insertionSort CacheLoader.rowOrder rows).filter
          (fun r => r.level = 2)) ∧
     List.Pairwise (fun a b : CacheRow => b.last_access_ts ≤ a.last_access_ts)
        ((List.insertionSort CacheLoader.rowOrder rows).filter
          (fun r => r.level = 3))) ∧
    (∀ k, k ∈ keysOf (CacheLoader.loadCache rows).directory ↔
        k ∈ (CacheLoader.loadCache rows).L1 ∨ k ∈ (CacheLoader.loadCache rows).L2 ∨
        k ∈ (CacheLoader.loadCache rows).L3) := by
  have hperm : List.Perm ((List.insertionSort CacheLoader.rowOrder rows).map CacheRow.key)
      (rows.map CacheRow.key) :=
    (List.perm_insertionSort CacheLoader.rowOrder rows).map CacheRow.key
  have hk' : ((List.insertionSort CacheLoader.rowOrder rows).map CacheRow.key).Nodup :=
    hperm.nodup_iff.mpr hk
  have hinit : ∀ r ∈ List.insertionSort CacheLoader.rowOrder rows,
      r.key ∉ ({ emptyCacheState with
        db := rows.map (fun r => (r.key, CacheLoader.rowNode r)) } : CacheState).L1 ∧
      r.key ∉ ({ emptyCacheState with
        db := rows.map (fun r => (r.key, CacheLoader.rowNode r)) } : CacheState).L2 ∧
      r.key ∉ ({ emptyCacheState with
        db := rows.map (fun r => (r.key, CacheLoader.rowNode r)) } : CacheState).L3 := by
    intro r _
    simp [emptyCacheState]
  have hspec := loadSteps_spec (List.insertionSort CacheLoader.rowOrder rows)
    { emptyCacheState with
      db := rows.map (fun r => (r.key, CacheLoader.rowNode r)) } hinit hk'
  have hload : CacheLoader.loadCache rows =
      (List.insertionSort CacheLoader.rowOrder rows).foldl CacheLoader.loadStep
        { emptyCacheState with
          db := rows.map (fun r => (r.key, CacheLoader.rowNode r)) } := rfl
  rcases hspec with ⟨h1, h2, h3, hd⟩
  have hsorted : List.Pairwise CacheLoader.rowOrder
      (List.insertionSort CacheLoader.rowOrder rows) :=
    List.sorted_insertionSort CacheLoader.rowOrder rows
  have hpair : ∀ lvl : Nat, List.Pairwise
      (fun a b : CacheRow => b.last_access_ts ≤ a.last_access_ts)
      ((List.insertionSort CacheLoader.rowOrder rows).filter
        (fun r => r.level = lvl)) := by
    intro lvl
    have hsub : ((List.insertionSort CacheLoader.rowOrder rows).filter
        (fun r => r.level = lvl)).Sublist
        (List.insertionSort CacheLoader.rowOrder rows) :=
      List.filter_sublist _
    have hpw := List.Pairwise.sublist hsub hsorted
    refine hpw.imp_of_mem ?_
    intro a b ha hb hab
    have ha' : a.level = lvl := by
      have := List.of_mem_filter ha
      simpa using this
    have hb' : b.level = lvl := by
      have := List.of_mem_filter hb
      simpa using this
    rcases hab with h | h
    · exact absurd h (by rw [ha', hb']; exact lt_irrefl lvl)
    · exact h.2
  refine ⟨⟨?_, ?_, ?_⟩, ⟨hpair 1, hpair 2, hpair 3⟩, ?_⟩
  · rw [hload, h1]
    exact List.nil_append _
  · rw [hload, h2]
    exact List.nil_append _
  · rw [hload, h3]
    exact List.nil_append _
  · intro k
    rw [hload, hd k, h1, h2, h3]
    simp only [emptyCacheState, keysOf, List.map_nil, List.not_mem_nil, false_or,
      List.nil_append]
    simp only [List.mem_map, List.mem_filter, decide_eq_true_eq]
    constructor
    · rintro ⟨r, ⟨hm, hlv⟩, he⟩
      rcases hlv with h' | h' | h'
      · exact Or.inl ⟨r, ⟨hm, by simp [h']⟩, he⟩
      · exact Or.inr (Or.inl ⟨r, ⟨hm, by simp [h']⟩, he⟩)
      · exact Or.inr (Or.inr ⟨r, ⟨hm, by simp [h']⟩, he⟩)
    · rintro (⟨r, ⟨hm, hlv⟩, he⟩ | ⟨r, ⟨hm, hlv⟩, he⟩ | ⟨r, ⟨hm, hlv⟩, he⟩)
      · exact ⟨r, ⟨hm, Or.inl hlv⟩, he⟩
      · exact ⟨r, ⟨hm, Or.inr (Or.inl hlv)⟩, he⟩
      · exact ⟨r, ⟨hm, Or.inr (Or.inr hlv)⟩, he⟩

/-- Witness for C3 (amended) at a concrete two-row table. -/
theorem C3_amended_witness :
    (([(⟨keyA, ["x"], 1, 1, 0, 1, 0, 3⟩ : CacheRow),
       (⟨keyB, ["y"], 1, 2, 0, 1, 0, 3⟩ : CacheRow)].map CacheRow.key).Nodup) ∧
    (∀ k, k ∈ keysOf (CacheLoader.loadCache
        [(⟨keyA, ["x"], 1, 1, 0, 1, 0, 3⟩ : CacheRow),
         (⟨keyB, ["y"], 1, 2, 0, 1, 0, 3⟩ : CacheRow)]).directory ↔
        k ∈ (CacheLoader.loadCache
          [(⟨keyA, ["x"], 1, 1, 0, 1, 0, 3⟩ : CacheRow),
           (⟨keyB, ["y"], 1, 2, 0, 1, 0, 3⟩ : CacheRow)]).L1 ∨
        k ∈ (CacheLoader.loadCache
          [(⟨keyA, ["x"], 1, 1, 0, 1, 0, 3⟩ : CacheRow),
           (⟨keyB, ["y"], 1, 2, 0, 1, 0, 3⟩ : CacheRow)]).L2 ∨
        k ∈ (CacheLoader.loadCache
          [(⟨keyA, ["x"], 1, 1, 0, 1, 0, 3⟩ : CacheRow),
           (⟨keyB, ["y"], 1, 2, 0, 1, 0, 3⟩ : CacheRow)]).L3) :=
  ⟨by decide,
   (C3_amended
      [(⟨keyA, ["x"], 1, 1, 0, 1, 0, 3⟩ : CacheRow),
       (⟨keyB, ["y"], 1, 2, 0, 1, 0, 3⟩ : CacheRow)] (by decide)).2.2⟩

/-! ## History: no TTL eviction (claims C2, C10) -/

theorem ratSqrt_zero : ratSqrt 0 = 0 := by
  simp [ratSqrt]

theorem ratSqrt_one : ratSqrt 1 = 1 := by
  norm_num [ratSqrt, Rat.num_one, Rat.den_one, Nat.sqrt_one]

namespace ConversationHistory

theorem mem_removeFirstKey_of_ne {l : List HistoryEntry} {k : TopicKey}
    {e : HistoryEntry} (he : e ∈ l) (hk : e.topic_key ≠ k) :
    e ∈ removeFirstKey l k := by
  induction l with
  | nil => cases he
  | cons x rest ih =>
      by_cases hx : x.topic_key = k
      · rw [removeFirstKey, if_pos hx]
        rcases List.mem_cons.mp he with h | h
        · exact absurd (h ▸ hx) hk
        · exact h
      · rw [removeFirstKey, if_neg hx]
        rcases List.mem_cons.mp he with h | h
        · exact h ▸ List.mem_cons_self _ _
        · exact List.mem_cons_of_mem _ (ih h)

theorem length_removeFirstKey_le (l : List HistoryEntry) (k : TopicKey) :
    (removeFirstKey l k).length ≤ l.length := by
  induction l with
  | nil => simp [removeFirstKey]
  | cons x rest ih =>
      by_cases hx : x.topic_key = k
      · rw [removeFirstKey, if_pos hx]
        exact Nat.le_succ_of_le (Nat.le_refl _)
      · rw [removeFirstKey, if_neg hx]
        simpa using Nat.succ_le_succ ih

theorem boundedAppend_of_lt {m : Nat} {l : List HistoryEntry}
    (h : l.length < m) (e : HistoryEntry) : boundedAppend m l e = l ++ [e] := by
  simp only [boundedAppend]
  have h0 : (l ++ [e]).length - m = 0 := by
    simp only [List.length_append, List.length_singleton]
    omega
  rw [h0, List.drop_zero]

theorem boundedAppend_of_full {m : Nat} {l : List HistoryEntry}
    (hm : 0 < m) (h : l.length = m) (e : HistoryEntry) :
    boundedAppend m l e = l.tail ++ [e] := by
  simp only [boundedAppend]
  have h1 : (l ++ [e]).length - m = 1 := by
    simp only [List.length_append, List.length_singleton]
    omega
  rw [h1]
  rcases l with _ | ⟨x, xs⟩
  · simp at h
    omega
  · simp

/-- `scanSimilar` never looks at timestamps. -/
theorem scanSimilar_tsmap (t : ℚ) (qn : List ℚ) (f : ℚ → ℚ) :
    ∀ l : List HistoryEntry,
      scanSimilar t qn (l.map (fun e => { e with timestamp := f e.timestamp }))
        = scanSimilar t qn l
  | [] => rfl
  | e :: rest => by
      rw [List.map_cons, scanSimilar, scanSimilar]
      simp only
      rw [scanSimilar_tsmap t qn f rest]

end ConversationHistory

/-- Claim C2 (counterexample): a session history holding a single entry of
age 5000 s (timestamp 0, now 5000, far beyond the default `max_age` 3600):
`find_similar` still returns the expired entry's chunk ids, and
`add_or_update` of a fresh key retains the expired entry both in memory and
in the durable store — no TTL eviction happens on either operation. -/
theorem C2_counterexample :
    (5000 : ℚ) - 0 > 3600 ∧
    ConversationHistory.findSimilar
      { max_size := 32, sim_threshold := (8 / 10 : ℚ), session_id := "s1",
        entries := [⟨keyA, [1, 0], ["c1"], 0⟩],
        db := [(("s1", keyA), ⟨"s1", keyA, [1, 0], ["c1"], 0⟩)] } [1, 0]
      = some ["c1"] ∧
    (⟨keyA, [1, 0], ["c1"], 0⟩ : HistoryEntry) ∈
      (ConversationHistory.addOrUpdate 5000
        { max_size := 32, sim_threshold := (8 / 10 : ℚ), session_id := "s1",
          entries := [⟨keyA, [1, 0], ["c1"], 0⟩],
          db := [(("s1", keyA), ⟨"s1", keyA, [1, 0], ["c1"], 0⟩)] }
        keyB [0, 1] ["c2"]).entries ∧
    alookup (ConversationHistory.addOrUpdate 5000
        { max_size := 32, sim_threshold := (8 / 10 : ℚ), session_id := "s1",
          entries := [⟨keyA, [1, 0], ["c1"], 0⟩],
          db := [(("s1", keyA), ⟨"s1", keyA, [1, 0], ["c1"], 0⟩)] }
        keyB [0, 1] ["c2"]).db ("s1", keyA)
      = some ⟨"s1", keyA, [1, 0], ["c1"], 0⟩ := by
  refine ⟨by norm_num, ?_, ?_, ?_⟩
  · have hdot : dotQ [(1 : ℚ), 0] [(1 : ℚ), 0] = 1 := by norm_num [dotQ]
    have hnrm : vnormalize [(1 : ℚ), 0] = [1, 0] := by
      simp [vnormalize, normQ, hdot, ratSqrt_one]
    rw [ConversationHistory.findSimilar]
    simp only [ConversationHistory.scanSimilar, hnrm, List.reverse_singleton]
    norm_num [dotQ]
  · rw [ConversationHistory.addOrUpdate]
    simp [keyA, keyB, ConversationHistory.boundedAppend, ConversationHistory.saveEntry]
  · rw [ConversationHistory.addOrUpdate]
    simp only [List.any_cons, List.any_nil, ConversationHistory.saveEntry]
    rw [if_neg (by decide)]
    rw [alookup_aupdate_ne _ _ (by decide)]
    simp [alookup]

/-- Claim C2 (amended): neither `find_similar` nor `add_or_update` performs
any TTL eviction — entry ages are never inspected.  Concretely: (i) an
insert retains every entry with a different topic key whenever the deque is
below capacity, regardless of how old the entry is; (ii) an insert touches
no durable row other than its own key's; (iii) the result of `find_similar`
is invariant under arbitrary rewriting of all entry timestamps. -/
theorem C2_amended (now : ℚ) (h : HistoryState) (k : TopicKey) (q : List ℚ)
    (ids : List String) (f : ℚ → ℚ) :
    (∀ e ∈ h.entries, e.topic_key ≠ k → h.entries.length < h.max_size →
      e ∈ (ConversationHistory.addOrUpdate now h k q ids).entries) ∧
    (∀ key', key' ≠ (h.session_id, k) →
      alookup (ConversationHistory.addOrUpdate now h k q ids).db key'
        = alookup h.db key') ∧
    ConversationHistory.findSimilar
      { h with entries := h.entries.map (fun e => { e with timestamp := f e.timestamp }) } q
      = ConversationHistory.findSimilar h q := by
  refine ⟨?_, ?_, ?_⟩
  · intro e he hk hlen
    rw [ConversationHistory.addOrUpdate]
    split
    · rw [show ∀ hh : HistoryState, (ConversationHistory.saveEntry hh _).entries
          = hh.entries from fun _ => rfl]
      rw [ConversationHistory.boundedAppend_of_lt
        (lt_of_le_of_lt (ConversationHistory.length_removeFirstKey_le h.entries k) hlen)]
      exact List.mem_append_left _ (ConversationHistory.mem_removeFirstKey_of_ne he hk)
    · rw [show ∀ hh : HistoryState, (ConversationHistory.saveEntry hh _).entries
          = hh.entries from fun _ => rfl]
      rw [ConversationHistory.boundedAppend_of_lt hlen]
      exact List.mem_append_left _ he
  · intro key' hne
    rw [ConversationHistory.addOrUpdate]
    split
    · exact alookup_aupdate_ne _ _ hne
    · exact alookup_aupdate_ne _ _ hne
  · rw [ConversationHistory.findSimilar, ConversationHistory.findSimilar]
    rcases hE : h.entries with _ | ⟨e, rest⟩
    · simp
    · have hne : (e :: rest).map (fun e => { e with timestamp := f e.timestamp }) ≠ [] := by
        simp
      rw [if_neg hne, if_neg (by simp)]
      rw [← List.map_reverse]
      exact ConversationHistory.scanSimilar_tsmap h.sim_threshold (vnormalize q) f
        (e :: rest).reverse

/-- Witness for C2 (amended) at a concrete one-entry, in-capacity history:
the 5000-seconds-old entry under key `a` is retained by an insert of key
`b`, and the insert leaves the durable row of key `a` unchanged. -/
theorem C2_amended_witness :
    (⟨keyA, [1, 0], ["c1"], 0⟩ : HistoryEntry) ∈
      (ConversationHistory.addOrUpdate 5000
        { max_size := 32, sim_threshold := (8 / 10 : ℚ), session_id := "s1",
          entries := [⟨keyA, [1, 0], ["c1"], 0⟩],
          db := [(("s1", keyA), ⟨"s1", keyA, [1, 0], ["c1"], 0⟩)] }
        keyB [0, 1] ["c2"]).entries ∧
    alookup (ConversationHistory.addOrUpdate 5000
        { max_size := 32, sim_threshold := (8 / 10 : ℚ), session_id := "s1",
          entries := [⟨keyA, [1, 0], ["c1"], 0⟩],
          db := [(("s1", keyA), ⟨"s1", keyA, [1, 0], ["c1"], 0⟩)] }
        keyB [0, 1] ["c2"]).db ("s1", keyA)
      = alookup [(("s1", keyA), (⟨"s1", keyA, [1, 0], ["c1"], 0⟩ : HistoryRow))]
          ("s1", keyA) :=
  ⟨(C2_amended 5000
      { max_size := 32, sim_threshold := (8 / 10 : ℚ), session_id := "s1",
        entries := [⟨keyA, [1, 0], ["c1"], 0⟩],
        db := [(("s1", keyA), ⟨"s1", keyA, [1, 0], ["c1"], 0⟩)] }
      keyB [0, 1] ["c2"] id).1
        ⟨keyA, [1, 0], ["c1"], 0⟩ (List.mem_cons_self _ _) (by decide) (by decide),
   (C2_amended 5000
      { max_size := 32, sim_threshold := (8 / 10 : ℚ), session_id := "s1",
        entries := [⟨keyA, [1, 0], ["c1"], 0⟩],
        db := [(("s1", keyA), ⟨"s1", keyA, [1, 0], ["c1"], 0⟩)] }
      keyB [0, 1] ["c2"] id).2.1 ("s1", keyA) (by decide)⟩

/-- Claim C10: calling `add_or_update` on a full history with a fresh topic
key silently drops the oldest in-memory entry (bounded deque), leaves every
other durable row untouched (in particular the dropped entry's row is not
deleted), and a later `_load_from_db` reconstruction of the same session
with a large enough `max_size` reloads the dropped entry. -/
theorem C10_overflow_frame (now : ℚ) (h : HistoryState) (k : TopicKey)
    (q : List ℚ) (ids : List String) (e0 : HistoryEntry) (rest : List HistoryEntry)
    (hm : 0 < h.max_size)
    (hfull : h.entries.length = h.max_size)
    (hE : h.entries = e0 :: rest)
    (hfresh : ∀ x ∈ h.entries, x.topic_key ≠ k)
    (hrow : alookup h.db (h.session_id, e0.topic_key)
      = some (ConversationHistory.entryRow h.session_id e0)) :
    (ConversationHistory.addOrUpdate now h k q ids).entries
        = rest ++ [⟨k, vnormalize q, ids, now⟩] ∧
    (∀ key', key' ≠ (h.session_id, k) →
      alookup (ConversationHistory.addOrUpdate now h k q ids).db key'
        = alookup h.db key') ∧
    ∃ m', e0 ∈ ConversationHistory.loadFromDb h.session_id m'
        (ConversationHistory.addOrUpdate now h k q ids).db := by
  have hkey : e0.topic_key ≠ k := hfresh e0 (hE ▸ List.mem_cons_self _ _)
  have hany : h.entries.any (fun x => x.topic_key = k) = false := by
    rw [List.any_eq_false]
    intro x hx
    simpa using hfresh x hx
  have hent : (ConversationHistory.addOrUpdate now h k q ids).entries
      = rest ++ [⟨k, vnormalize q, ids, now⟩] := by
    rw [ConversationHistory.addOrUpdate]
    rw [if_neg (by rw [hany]; exact Bool.false_ne_true)]
    rw [show ∀ hh : HistoryState, (ConversationHistory.saveEntry hh _).entries
        = hh.entries from fun _ => rfl]
    rw [ConversationHistory.boundedAppend_of_full hm hfull]
    rw [hE]
    rfl
  have hdb : ∀ key', key' ≠ (h.session_id, k) →
      alookup (ConversationHistory.addOrUpdate now h k q ids).db key'
        = alookup h.db key' := by
    intro key' hne
    rw [ConversationHistory.addOrUpdate]
    split
    · exact alookup_aupdate_ne _ _ hne
    · exact alookup_aupdate_ne _ _ hne
  refine ⟨hent, hdb, ?_⟩
  have hne : ((h.session_id, e0.topic_key) : String × TopicKey) ≠ (h.session_id, k) := by
    intro he
    exact hkey (congrArg Prod.snd he)
  have hrow' : alookup (ConversationHistory.addOrUpdate now h k q ids).db
      (h.session_id, e0.topic_key)
      = some (ConversationHistory.entryRow h.session_id e0) := by
    rw [hdb _ hne, hrow]
  set db' := (ConversationHistory.addOrUpdate now h k q ids).db
  have hmemrow : ConversationHistory.entryRow h.session_id e0 ∈ db'.map Prod.snd :=
    List.mem_map_of_mem Prod.snd (alookup_mem hrow')
  have hmemfil : ConversationHistory.entryRow h.session_id e0 ∈
      (db'.map Prod.snd).filter (fun r => r.session_id = h.session_id) :=
    List.mem_filter.mpr ⟨hmemrow, by simp [ConversationHistory.entryRow]⟩
  refine ⟨(List.insertionSort ConversationHistory.tsDesc
      ((db'.map Prod.snd).filter (fun r => r.session_id = h.session_id))).length, ?_⟩
  have hmemsort : ConversationHistory.entryRow h.session_id e0 ∈
      List.insertionSort ConversationHistory.tsDesc
        ((db'.map Prod.snd).filter (fun r => r.session_id = h.session_id)) :=
    (List.perm_insertionSort _ _).mem_iff.mpr hmemfil
  have hmape : e0 ∈ (List.insertionSort ConversationHistory.tsDesc
      ((db'.map Prod.snd).filter (fun r => r.session_id = h.session_id))).map
        ConversationHistory.rowEntry := by
    have h2 := List.mem_map_of_mem ConversationHistory.rowEntry hmemsort
    have hre : ConversationHistory.rowEntry
        (ConversationHistory.entryRow h.session_id e0) = e0 := rfl
    rw [hre] at h2
    exact h2
  simp only [ConversationHistory.loadFromDb, List.take_length]
  rw [List.map_reverse]
  exact List.mem_reverse.mpr hmape

/-- Witness for C10 at a full (capacity 1) one-entry history: inserting a
fresh key drops the old entry from memory while a reconstruction with a
large enough `max_size` reloads it from the untouched durable row. -/
theorem C10_overflow_frame_witness :
    (ConversationHistory.addOrUpdate 5000
        { max_size := 1, sim_threshold := (8 / 10 : ℚ), session_id := "s1",
          entries := [⟨keyA, [1, 0], ["c1"], 0⟩],
          db := [(("s1", keyA), ⟨"s1", keyA, [1, 0], ["c1"], 0⟩)] }
        keyB [0, 1] ["c2"]).entries
      = [] ++ [⟨keyB, vnormalize [0, 1], ["c2"], 5000⟩] ∧
    ∃ m', (⟨keyA, [1, 0], ["c1"], 0⟩ : HistoryEntry) ∈
      ConversationHistory.loadFromDb "s1" m'
        (ConversationHistory.addOrUpdate 5000
          { max_size := 1, sim_threshold := (8 / 10 : ℚ), session_id := "s1",
            entries := [⟨keyA, [1, 0], ["c1"], 0⟩],
            db := [(("s1", keyA), ⟨"s1", keyA, [1, 0], ["c1"], 0⟩)] }
          keyB [0, 1] ["c2"]).db :=
  ⟨(C10_overflow_frame 5000
      { max_size := 1, sim_threshold := (8 / 10 : ℚ), session_id := "s1",
        entries := [⟨keyA, [1, 0], ["c1"], 0⟩],
        db := [(("s1", keyA), ⟨"s1", keyA, [1, 0], ["c1"], 0⟩)] }
      keyB [0, 1] ["c2"] ⟨keyA, [1, 0], ["c1"], 0⟩ []
      (by decide) (by decide) rfl (by decide) (by decide)).1,
   (C10_overflow_frame 5000
      { max_size := 1, sim_threshold := (8 / 10 : ℚ), session_id := "s1",
        entries := [⟨keyA, [1, 0], ["c1"], 0⟩],
        db := [(("s1", keyA), ⟨"s1", keyA, [1, 0], ["c1"], 0⟩)] }
      keyB [0, 1] ["c2"] ⟨keyA, [1, 0], ["c1"], 0⟩ []
      (by decide) (by decide) rfl (by decide) (by decide)).2.2⟩

/-! ## Validator scoring (claim C5) -/

/-- Claim C5 (counterexample): for the one-keyword query `"linux"` (≤ 2
keywords, so the claim prescribes weights (0.6, 0.4)) and a chunk with
keyword overlap 1 and embedding similarity 0, the validator attaches the
combined score `0.4·1 + 0.6·0 = 2/5`, while the claimed length-dependent
formula yields `0.6·1 + 0.4·0 = 3/5`. -/
theorem C5_counterexample :
    (RetrievalValidator.validate vLinux "linux" [chunkLK]
        (some [(1 : ℚ), 0])).validated_chunks.map (fun c => c.validation_score)
      = [some ((2 : ℚ) / 5)] ∧
    (RetrievalValidator.extractKeywords "linux").card ≤ 2 ∧
    specCombinedScore (RetrievalValidator.extractKeywords "linux").card
        (RetrievalValidator.computeKeywordOverlap
          (RetrievalValidator.extractKeywords "linux") chunkLK.chunk_text)
        (dotQ [(1 : ℚ), 0] (encTwo chunkLK.chunk_text))
      = (3 : ℚ) / 5 ∧
    ((2 : ℚ) / 5) ≠ ((3 : ℚ) / 5) := by
  have hkw : RetrievalValidator.extractKeywords "linux" = {"linux"} := by decide
  have hov : RetrievalValidator.computeKeywordOverlap {"linux"} chunkLK.chunk_text = 1 := by
    rw [RetrievalValidator.computeKeywordOverlap, if_neg (by decide)]
    norm_num [show ({"linux"} ∩ RetrievalValidator.extractKeywords "linux kernel").card = 1
      from by decide, chunkLK]
  refine ⟨?_, by decide, ?_, by norm_num⟩
  · rw [RetrievalValidator.validate]
    rw [if_neg (by decide)]
    simp only [Option.getD]
    rw [hkw]
    have hcs : RetrievalValidator.combinedScore vLinux {"linux"} [(1 : ℚ), 0] chunkLK
        = 2 / 5 := by
      rw [RetrievalValidator.combinedScore, hov]
      norm_num [encTwo, chunkLK, dotQ, vLinux]
    simp only [List.map_cons, List.map_nil, hcs]
    rw [List.filter_cons_of_pos
      (by simp [vLinux, RetrievalValidator.defaultMinSimilarity]; norm_num)]
    simp
  · rw [hkw]
    rw [specCombinedScore, if_pos (by decide), hov]
    norm_num [encTwo, chunkLK, dotQ]

/-- Claim C5 (amended): the validator's combined score uses the FIXED
weights `0.4·keyword + 0.6·embedding` for every query, a chunk is validated
iff this score reaches `min_similarity` (default 0.15), and a validation
call is valid iff at least one chunk passes. -/
theorem C5_amended (V : RetrievalValidator.ValidatorCfg) (query : String)
    (chunks : List ChunkD) (qe : List ℚ) (c : ChunkD)
    (hne : chunks ≠ []) (hc : c ∈ chunks) :
    RetrievalValidator.combinedScore V (RetrievalValidator.extractKeywords query) qe c
      = (0.4 : ℚ) * RetrievalValidator.computeKeywordOverlap
          (RetrievalValidator.extractKeywords query) c.chunk_text
        + (0.6 : ℚ) * dotQ qe (V.encode c.chunk_text) ∧
    ({ c with validation_score := some (RetrievalValidator.combinedScore V
          (RetrievalValidator.extractKeywords query) qe c) }
        ∈ (RetrievalValidator.validate V query chunks (some qe)).validated_chunks
      ↔ V.min_similarity ≤ RetrievalValidator.combinedScore V
          (RetrievalValidator.extractKeywords query) qe c) ∧
    ((RetrievalValidator.validate V query chunks (some qe)).is_valid = true ↔
      ∃ c' ∈ chunks, V.min_similarity ≤ RetrievalValidator.combinedScore V
        (RetrievalValidator.extractKeywords query) qe c') := by
  refine ⟨rfl, ?_, ?_⟩
  · rw [RetrievalValidator.validate, if_neg hne]
    simp only [Option.getD]
    constructor
    · intro hmem
      have h2 := (List.mem_filter.mp hmem).2
      simpa using h2
    · intro hle
      refine List.mem_filter.mpr ⟨List.mem_map_of_mem _ hc, ?_⟩
      simpa using hle
  · rw [RetrievalValidator.validate, if_neg hne]
    simp only [Option.getD, Bool.not_eq_true']
    rw [List.isEmpty_eq_false]
    constructor
    · intro hne'
      rcases List.exists_mem_of_ne_nil _ hne' with ⟨x, hx⟩
      have h1 := (List.mem_filter.mp hx).1
      have h2 := (List.mem_filter.mp hx).2
      rcases List.mem_map.mp h1 with ⟨c', hc', he⟩
      refine ⟨c', hc', ?_⟩
      rw [← he] at h2
      simpa using h2
    · rintro ⟨c', hc', hle⟩
      intro habs
      have hall := List.filter_eq_nil_iff.mp habs
      have hmem := List.mem_map_of_mem (fun c => ({ c with
          validation_score := some (RetrievalValidator.combinedScore V
            (RetrievalValidator.extractKeywords query) qe c) } : ChunkD)) hc'
      have hno := hall _ hmem
      simp only [decide_eq_true_eq] at hno
      exact hno hle

/-- Witness for C5 (amended) at the concrete validator and chunk of the
counterexample. -/
theorem C5_amended_witness :
    RetrievalValidator.combinedScore vLinux
        (RetrievalValidator.extractKeywords "linux") [(1 : ℚ), 0] chunkLK
      = (0.4 : ℚ) * RetrievalValidator.computeKeywordOverlap
          (RetrievalValidator.extractKeywords "linux") chunkLK.chunk_text
        + (0.6 : ℚ) * dotQ [(1 : ℚ), 0] (vLinux.encode chunkLK.chunk_text) ∧
    ({ chunkLK with validation_score := some (RetrievalValidator.combinedScore vLinux
          (RetrievalValidator.extractKeywords "linux") [(1 : ℚ), 0] chunkLK) }
        ∈ (RetrievalValidator.validate vLinux "linux" [chunkLK]
            (some [(1 : ℚ), 0])).validated_chunks
      ↔ vLinux.min_similarity ≤ RetrievalValidator.combinedScore vLinux
          (RetrievalValidator.extractKeywords "linux") [(1 : ℚ), 0] chunkLK) ∧
    ((RetrievalValidator.validate vLinux "linux" [chunkLK]
        (some [(1 : ℚ), 0])).is_valid = true ↔
      ∃ c' ∈ [chunkLK], vLinux.min_similarity ≤ RetrievalValidator.combinedScore vLinux
        (RetrievalValidator.extractKeywords "linux") [(1 : ℚ), 0] c') :=
  C5_amended vLinux "linux" [chunkLK] [(1 : ℚ), 0] chunkLK (by decide)
    (List.mem_cons_self _ _)

/-! ## Preprocessor idempotence (claim C7) -/

theorem dropWhile_head_false {α : Type} {p : α → Bool} :
    ∀ {l : List α}, (∀ x, l.head? = some x → p x = false) → List.dropWhile p l = l
  | [], _ => rfl
  | x :: xs, h => by
      rw [List.dropWhile_cons, h x rfl]
      simp

theorem head_dropWhile_false {α : Type} {p : α → Bool} :
    ∀ (l : List α) (x : α), (List.dropWhile p l).head? = some x → p x = false
  | [], x, h => by cases h
  | y :: ys, x, h => by
      rw [List.dropWhile_cons] at h
      by_cases hy : p y = true
      · rw [if_pos hy] at h
        exact head_dropWhile_false ys x h
      · rw [if_neg hy] at h
        cases h
        exact Bool.not_eq_true _ ▸ hy

theorem dropWhile_dropWhile {α : Type} (p : α → Bool) (l : List α) :
    List.dropWhile p (List.dropWhile p l) = List.dropWhile p l :=
  dropWhile_head_false (head_dropWhile_false l)

theorem toList_asString (l : List Char) : (List.asString l).toList = l := rfl

theorem asString_toList (s : String) : List.asString s.toList = s := rfl

/-- Python `strip()` is idempotent. -/
theorem pyStrip_idem (s : String) : pyStrip (pyStrip s) = pyStrip s := by
  rw [pyStrip, pyStrip, toList_asString]
  congr 1
  generalize hb : s.toList.dropWhile isSpaceChar = b
  generalize hc : b.reverse.dropWhile isSpaceChar = c
  rcases hcr : c.reverse with _ | ⟨y, ys⟩
  · simp [hcr]
  · have hbsplit : b.reverse.takeWhile isSpaceChar ++ c = b.reverse := by
      rw [← hc]
      exact List.takeWhile_append_dropWhile isSpaceChar b.reverse
    have hbeq : b = c.reverse ++ (b.reverse.takeWhile isSpaceChar).reverse := by
      have h := congrArg List.reverse hbsplit
      rw [List.reverse_append, List.reverse_reverse] at h
      exact h.symm
    have hhead : b.head? = some y := by
      rw [hbeq, hcr]
      rfl
    have hy : isSpaceChar y = false := by
      apply head_dropWhile_false s.toList y
      rw [hb]
      exact hhead
    have h1 : List.dropWhile isSpaceChar (y :: ys) = y :: ys := by
      simp [List.dropWhile_cons, hy]
    rw [h1, ← hcr, List.reverse_reverse, ← hc, dropWhile_dropWhile]

theorem subAnchored_of_no_match {r : Rx} {s : String}
    (h : Rx.mlens r s.toList = []) : Rx.subAnchored r s = s := by
  rw [Rx.subAnchored, h]
  rfl

/-- Folding the filler strips over a string that no pattern matches and
that is already stripped leaves it unchanged. -/
theorem foldl_strip_fixpoint (E : String) :
    ∀ ps : List Rx, (∀ p ∈ ps, Rx.mlens p E.toList = []) → pyStrip E = E →
      ps.foldl (fun acc p => pyStrip (Rx.subAnchored p acc)) E = E
  | [], _, _ => rfl
  | p :: rest, hps, hs => by
      rw [List.foldl_cons, subAnchored_of_no_match (hps p (List.mem_cons_self _ _)), hs]
      exact foldl_strip_fixpoint E rest
        (fun p' hp' => hps p' (List.mem_cons_of_mem _ hp')) hs

/-- The filler-stripping fold always ends with a `strip()`, so its result is
a `pyStrip` fixed point. -/
theorem extract_foldl_stripped (q : String) :
    pyStrip (QueryProcessing.fillerPatterns.foldl
        (fun acc p => pyStrip (Rx.subAnchored p acc)) (pyStrip q))
      = QueryProcessing.fillerPatterns.foldl
        (fun acc p => pyStrip (Rx.subAnchored p acc)) (pyStrip q) := by
  simp only [QueryProcessing.fillerPatterns, List.foldl]
  rw [pyStrip_idem]

/-- Claim C7 (counterexample): preprocessing (with empty session context) is
not idempotent — a second pass strips a further filler layer:
`"what is what is linux"` preprocesses to `"what is linux"`, which
preprocesses again to `"linux"`. -/
theorem C7_counterexample :
    QueryProcessing.preprocessQuery emptyPreproc
        (QueryProcessing.preprocessQuery emptyPreproc "what is what is linux" "") ""
      ≠ QueryProcessing.preprocessQuery emptyPreproc "what is what is linux" "" := by
  decide

/-- Claim C7 (amended): preprocessing is not idempotent in general (see the
counterexample); it is idempotent on every query whose extracted intent
matches no filler pattern at its start. This is a sufficient condition, not
a characterization: a query whose intent does match a pattern can still be
idempotent, e.g. when the stripped remainder falls below 3 characters and
`_extract_query_intent` returns the original query. -/
theorem C7_amended (P : QueryProcessing.PreprocCfg) (q : String)
    (h : ∀ p ∈ QueryProcessing.fillerPatterns,
      Rx.mlens p ((QueryProcessing.extractQueryIntent q).toList) = []) :
    QueryProcessing.preprocessQuery P (QueryProcessing.preprocessQuery P q "") ""
      = QueryProcessing.preprocessQuery P q "" := by
  have hexp : ∀ r : String, QueryProcessing.expandWithContext P r "" = r := by
    intro r
    rw [QueryProcessing.expandWithContext, if_pos rfl]
  rw [QueryProcessing.preprocessQuery, QueryProcessing.preprocessQuery, hexp, hexp]
  by_cases hfix : QueryProcessing.extractQueryIntent q = q
  · rw [hfix]
    exact hfix
  · by_cases hlen : (QueryProcessing.fillerPatterns.foldl
        (fun acc p => pyStrip (Rx.subAnchored p acc)) (pyStrip q)).length < 3
    · exfalso
      apply hfix
      simp only [QueryProcessing.extractQueryIntent]
      rw [if_pos hlen]
    · have hel : QueryProcessing.extractQueryIntent q
          = QueryProcessing.fillerPatterns.foldl
            (fun acc p => pyStrip (Rx.subAnchored p acc)) (pyStrip q) := by
        simp only [QueryProcessing.extractQueryIntent]
        rw [if_neg hlen]
      rw [hel] at h ⊢
      have hstrip := extract_foldl_stripped q
      have hfold : QueryProcessing.fillerPatterns.foldl
          (fun acc p => pyStrip (Rx.subAnchored p acc))
          (pyStrip (QueryProcessing.fillerPatterns.foldl
            (fun acc p => pyStrip (Rx.subAnchored p acc)) (pyStrip q)))
          = QueryProcessing.fillerPatterns.foldl
            (fun acc p => pyStrip (Rx.subAnchored p acc)) (pyStrip q) := by
        rw [hstrip]
        exact foldl_strip_fixpoint _ QueryProcessing.fillerPatterns h hstrip
      simp only [QueryProcessing.extractQueryIntent]
      rw [hfold]
      rw [ite_self]

/-- Witness for C7 (amended) at a query that no filler pattern matches. -/
theorem C7_amended_witness :
    (∀ p ∈ QueryProcessing.fillerPatterns,
      Rx.mlens p ((QueryProcessing.extractQueryIntent "linux kernel").toList) = []) ∧
    QueryProcessing.preprocessQuery emptyPreproc
        (QueryProcessing.preprocessQuery emptyPreproc "linux kernel" "") ""
      = QueryProcessing.preprocessQuery emptyPreproc "linux kernel" "" :=
  ⟨by decide, C7_amended emptyPreproc "linux kernel" (by decide)⟩

/-! ## C8: tier/directory consistency and capacity invariants -/

namespace TopicCacheManager

theorem nodup_moveToEnd {l : List TopicKey} (k : TopicKey) (h : l.Nodup) :
    (moveToEnd l k).Nodup := by
  rw [moveToEnd, List.nodup_append]
  refine ⟨h.erase k, List.nodup_singleton k, ?_⟩
  intro a ha hsing
  rw [List.mem_singleton] at hsing
  subst hsing
  exact ((h.mem_erase_iff).mp ha).1 rfl

theorem mem_moveToEnd {l : List TopicKey} {k a : TopicKey} (hk : k ∈ l) :
    a ∈ moveToEnd l k ↔ a ∈ l := by
  rw [moveToEnd, List.mem_append, List.mem_singleton]
  constructor
  · intro h
    rcases h with h | h
    · exact List.mem_of_mem_erase h
    · exact h ▸ hk
  · intro h
    by_cases hak : a = k
    · exact Or.inr hak
    · exact Or.inl ((List.mem_erase_of_ne hak).mpr h)

theorem length_moveToEnd {l : List TopicKey} {k : TopicKey} (hk : k ∈ l) :
    (moveToEnd l k).length = l.length := by
  rw [moveToEnd, List.length_append, List.length_singleton,
    List.length_erase_of_mem hk]
  have : 1 ≤ l.length := List.length_pos.mpr (List.ne_nil_of_mem hk)
  omega

theorem cons_db {L1 L2 L3 : List TopicKey} {dir db db2 : List (TopicKey × CacheNodeM)}
    (h : CacheCons ⟨L1, L2, L3, dir, db⟩) : CacheCons ⟨L1, L2, L3, dir, db2⟩ :=
  ⟨h.n1, h.n2, h.n3, h.d12, h.d13, h.d23, h.dirn, h.mem1, h.mem2, h.mem3, h.dirmem⟩

theorem cons_evict_step {L1 L2 rest : List TopicKey} {k : TopicKey}
    {dir db : List (TopicKey × CacheNodeM)} (db2 : List (TopicKey × CacheNodeM))
    (h : CacheCons ⟨L1, L2, k :: rest, dir, db⟩) :
    CacheCons ⟨L1, L2, rest, aremove dir k, db2⟩ := by
  have hk3 : k ∈ (⟨L1, L2, k :: rest, dir, db⟩ : CacheState).L3 := List.mem_cons_self k rest
  refine ⟨h.n1, h.n2, h.n3.of_cons, h.d12, ?_, ?_, keysNodup_aremove h.dirn k, ?_, ?_, ?_, ?_⟩
  · intro a ha hmem
    exact h.d13 ha (List.mem_cons_of_mem k hmem)
  · intro a ha hmem
    exact h.d23 ha (List.mem_cons_of_mem k hmem)
  · intro j hj
    obtain ⟨n, hn, hlvl⟩ := h.mem1 j hj
    have hjk : j ≠ k := fun he => h.d13 hj (he ▸ hk3)
    exact ⟨n, by rw [alookup_aremove_ne _ hjk]; exact hn, hlvl⟩
  · intro j hj
    obtain ⟨n, hn, hlvl⟩ := h.mem2 j hj
    have hjk : j ≠ k := fun he => h.d23 hj (he ▸ hk3)
    exact ⟨n, by rw [alookup_aremove_ne _ hjk]; exact hn, hlvl⟩
  · intro j hj
    have hkr : k ∉ rest := (List.nodup_cons.mp h.n3).1
    have hjk : j ≠ k := fun he => hkr (he ▸ hj)
    obtain ⟨n, hn, hlvl⟩ := h.mem3 j (List.mem_cons_of_mem k hj)
    exact ⟨n, by rw [alookup_aremove_ne _ hjk]; exact hn, hlvl⟩
  · intro j m hm
    by_cases hjk : j = k
    · subst hjk
      rw [alookup_aremove_self h.dirn] at hm
      cases hm
    · rw [alookup_aremove_ne _ hjk] at hm
      rcases h.dirmem j m hm with ⟨hl, hmem⟩ | ⟨hl, hmem⟩ | ⟨hl, hmem⟩
      · exact Or.inl ⟨hl, hmem⟩
      · exact Or.inr (Or.inl ⟨hl, hmem⟩)
      · refine Or.inr (Or.inr ⟨hl, ?_⟩)
        rcases List.mem_cons.mp hmem with he | hmem2
        · exact absurd he hjk
        · exact hmem2

theorem cons_evict {s : CacheState} (h : CacheCons s) : CacheCons (evictFromL3 s) := by
  rcases hL3 : s.L3 with _ | ⟨k, rest⟩
  · simpa [evictFromL3, hL3] using h
  · simp only [evictFromL3, hL3, deleteCacheEntry]
    have h0 : CacheCons ⟨s.L1, s.L2, k :: rest, s.directory, s.db⟩ := by
      rw [← hL3]
      exact h
    exact cons_evict_step _ h0

end TopicCacheManager

namespace TopicCacheManager

theorem cons_save {s : CacheState} (k : TopicKey) (n : CacheNodeM)
    (h : CacheCons s) : CacheCons (saveCacheEntry s k n) :=
  ⟨h.n1, h.n2, h.n3, h.d12, h.d13, h.d23, h.dirn, h.mem1, h.mem2, h.mem3, h.dirmem⟩

theorem cons_demote23_step {L1 rest L3 : List TopicKey} {k : TopicKey}
    {dir db : List (TopicKey × CacheNodeM)}
    (db2 : List (TopicKey × CacheNodeM)) {n : CacheNodeM}
    (hdk : alookup dir k = some n)
    (h : CacheCons ⟨L1, k :: rest, L3, dir, db⟩) :
    CacheCons ⟨L1, rest, L3 ++ [k], aupdate dir k { n with level := 3 }, db2⟩ := by
  have hk2 : k ∈ (⟨L1, k :: rest, L3, dir, db⟩ : CacheState).L2 := List.mem_cons_self k rest
  have hk3 : k ∉ L3 := fun hm => h.d23 hk2 hm
  have hk1 : k ∉ L1 := fun hm => h.d12 hm hk2
  have hkr : k ∉ rest := (List.nodup_cons.mp h.n2).1
  refine ⟨h.n1, h.n2.of_cons, ?_, ?_, ?_, ?_, keysNodup_aupdate h.dirn k _, ?_, ?_, ?_, ?_⟩
  · rw [List.nodup_append]
    exact ⟨h.n3, List.nodup_singleton k, fun a ha hs =>
      hk3 ((List.mem_singleton.mp hs) ▸ ha)⟩
  · intro a ha hmem
    exact h.d12 ha (List.mem_cons_of_mem k hmem)
  · intro a ha hmem
    rcases List.mem_append.mp hmem with hm | hm
    · exact h.d13 ha hm
    · exact hk1 ((List.mem_singleton.mp hm) ▸ ha)
  · intro a ha hmem
    rcases List.mem_append.mp hmem with hm | hm
    · exact h.d23 (List.mem_cons_of_mem k ha) hm
    · exact hkr ((List.mem_singleton.mp hm) ▸ ha)
  · intro j hj
    obtain ⟨m, hm, hlvl⟩ := h.mem1 j hj
    have hjk : j ≠ k := fun he => hk1 (he ▸ hj)
    exact ⟨m, by rw [alookup_aupdate_ne _ _ hjk]; exact hm, hlvl⟩
  · intro j hj
    obtain ⟨m, hm, hlvl⟩ := h.mem2 j (List.mem_cons_of_mem k hj)
    have hjk : j ≠ k := fun he => hkr (he ▸ hj)
    exact ⟨m, by rw [alookup_aupdate_ne _ _ hjk]; exact hm, hlvl⟩
  · intro j hj
    rcases List.mem_append.mp hj with hm | hm
    · obtain ⟨m, hmm, hlvl⟩ := h.mem3 j hm
      have hjk : j ≠ k := fun he => hk3 (he ▸ hm)
      exact ⟨m, by rw [alookup_aupdate_ne _ _ hjk]; exact hmm, hlvl⟩
    · rw [List.mem_singleton.mp hm]
      exact ⟨{ n with level := 3 }, alookup_aupdate_self _ _ _, rfl⟩
  · intro j m hm
    by_cases hjk : j = k
    · subst hjk
      rw [alookup_aupdate_self] at hm
      cases hm
      exact Or.inr (Or.inr ⟨rfl, by simp⟩)
    · rw [alookup_aupdate_ne _ _ hjk] at hm
      rcases h.dirmem j m hm with ⟨hl, hmem⟩ | ⟨hl, hmem⟩ | ⟨hl, hmem⟩
      · exact Or.inl ⟨hl, hmem⟩
      · refine Or.inr (Or.inl ⟨hl, ?_⟩)
        rcases List.mem_cons.mp hmem with he | hm2
        · exact absurd he hjk
        · exact hm2
      · exact Or.inr (Or.inr ⟨hl, List.mem_append_left _ hmem⟩)

theorem cons_demote23 (cfg : CacheCfg) {s : CacheState} (h : CacheCons s) :
    CacheCons (demoteL2toL3 cfg s) := by
  rcases hL2 : s.L2 with _ | ⟨k, rest⟩
  · simpa [demoteL2toL3, hL2] using h
  · rcases hdk : alookup s.directory k with _ | n
    · simpa [demoteL2toL3, hL2, hdk] using h
    · simp only [demoteL2toL3, hL2, hdk]
      have h0 : CacheCons ⟨s.L1, k :: rest, s.L3, s.directory, s.db⟩ := by
        rw [← hL2]
        exact h
      have h1 := cons_demote23_step s.db hdk h0
      split
      · exact cons_save _ _ (cons_evict h1)
      · exact cons_save _ _ h1

end TopicCacheManager

namespace TopicCacheManager

theorem cons_demote12_step {rest L2 L3 : List TopicKey} {k : TopicKey}
    {dir db : List (TopicKey × CacheNodeM)}
    (db2 : List (TopicKey × CacheNodeM)) {n : CacheNodeM}
    (hdk : alookup dir k = some n)
    (h : CacheCons ⟨k :: rest, L2, L3, dir, db⟩) :
    CacheCons ⟨rest, L2 ++ [k], L3, aupdate dir k { n with level := 2 }, db2⟩ := by
  have hk1 : k ∈ (⟨k :: rest, L2, L3, dir, db⟩ : CacheState).L1 := List.mem_cons_self k rest
  have hk2 : k ∉ L2 := fun hm => h.d12 hk1 hm
  have hk3 : k ∉ L3 := fun hm => h.d13 hk1 hm
  have hkr : k ∉ rest := (List.nodup_cons.mp h.n1).1
  refine ⟨h.n1.of_cons, ?_, h.n3, ?_, ?_, ?_, keysNodup_aupdate h.dirn k _, ?_, ?_, ?_, ?_⟩
  · rw [List.nodup_append]
    exact ⟨h.n2, List.nodup_singleton k, fun a ha hs =>
      hk2 ((List.mem_singleton.mp hs) ▸ ha)⟩
  · intro a ha hmem
    rcases List.mem_append.mp hmem with hm | hm
    · exact h.d12 (List.mem_cons_of_mem k ha) hm
    · exact hkr ((List.mem_singleton.mp hm) ▸ ha)
  · intro a ha hmem
    exact h.d13 (List.mem_cons_of_mem k ha) hmem
  · intro a ha hmem
    rcases List.mem_append.mp ha with hm | hm
    · exact h.d23 hm hmem
    · exact hk3 ((List.mem_singleton.mp hm) ▸ hmem)
  · intro j hj
    obtain ⟨m, hm, hlvl⟩ := h.mem1 j (List.mem_cons_of_mem k hj)
    have hjk : j ≠ k := fun he => hkr (he ▸ hj)
    exact ⟨m, by rw [alookup_aupdate_ne _ _ hjk]; exact hm, hlvl⟩
  · intro j hj
    rcases List.mem_append.mp hj with hm | hm
    · obtain ⟨m, hmm, hlvl⟩ := h.mem2 j hm
      have hjk : j ≠ k := fun he => hk2 (he ▸ hm)
      exact ⟨m, by rw [alookup_aupdate_ne _ _ hjk]; exact hmm, hlvl⟩
    · rw [List.mem_singleton.mp hm]
      exact ⟨{ n with level := 2 }, alookup_aupdate_self _ _ _, rfl⟩
  · intro j hj
    obtain ⟨m, hm, hlvl⟩ := h.mem3 j hj
    have hjk : j ≠ k := fun he => hk3 (he ▸ hj)
    exact ⟨m, by rw [alookup_aupdate_ne _ _ hjk]; exact hm, hlvl⟩
  · intro j m hm
    by_cases hjk : j = k
    · subst hjk
      rw [alookup_aupdate_self] at hm
      cases hm
      exact Or.inr (Or.inl ⟨rfl, by simp⟩)
    · rw [alookup_aupdate_ne _ _ hjk] at hm
      rcases h.dirmem j m hm with ⟨hl, hmem⟩ | ⟨hl, hmem⟩ | ⟨hl, hmem⟩
      · refine Or.inl ⟨hl, ?_⟩
        rcases List.mem_cons.mp hmem with he | hm2
        · exact absurd he hjk
        · exact hm2
      · exact Or.inr (Or.inl ⟨hl, List.mem_append_left _ hmem⟩)
      · exact Or.inr (Or.inr ⟨hl, hmem⟩)

theorem cons_demote12 (cfg : CacheCfg) {s : CacheState} (h : CacheCons s) :
    CacheCons (demoteL1toL2 cfg s) := by
  rcases hL1 : s.L1 with _ | ⟨k, rest⟩
  · simpa [demoteL1toL2, hL1] using h
  · rcases hdk : alookup s.directory k with _ | n
    · simpa [demoteL1toL2, hL1, hdk] using h
    · simp only [demoteL1toL2, hL1, hdk]
      have h0 : CacheCons ⟨k :: rest, s.L2, s.L3, s.directory, s.db⟩ := by
        rw [← hL1]
        exact h
      have h1 := cons_demote12_step s.db hdk h0
      split
      · exact cons_save _ _ (cons_demote23 cfg h1)
      · exact cons_save _ _ h1

theorem cons_promote32_step {L1 L2 L3 : List TopicKey} {k : TopicKey}
    {dir db : List (TopicKey × CacheNodeM)}
    (db2 : List (TopicKey × CacheNodeM)) {n : CacheNodeM}
    (hdk : alookup dir k = some n) (hlvl : n.level = 3)
    (h : CacheCons ⟨L1, L2, L3, dir, db⟩) :
    CacheCons ⟨L1, L2 ++ [k], L3.erase k, aupdate dir k { n with level := 2 }, db2⟩ := by
  have hk3 : k ∈ L3 := by
    rcases h.dirmem k n hdk with ⟨hl, _⟩ | ⟨hl, _⟩ | ⟨_, hm⟩
    · rw [hlvl] at hl
      cases hl
    · rw [hlvl] at hl
      cases hl
    · exact hm
  have hk1 : k ∉ L1 := fun hm => h.d13 hm hk3
  have hk2 : k ∉ L2 := fun hm => h.d23 hm hk3
  refine ⟨h.n1, ?_, h.n3.erase k, ?_, ?_, ?_, keysNodup_aupdate h.dirn k _, ?_, ?_, ?_, ?_⟩
  · rw [List.nodup_append]
    exact ⟨h.n2, List.nodup_singleton k, fun a ha hs =>
      hk2 ((List.mem_singleton.mp hs) ▸ ha)⟩
  · intro a ha hmem
    rcases List.mem_append.mp hmem with hm | hm
    · exact h.d12 ha hm
    · exact hk1 ((List.mem_singleton.mp hm) ▸ ha)
  · intro a ha hmem
    exact h.d13 ha (List.mem_of_mem_erase hmem)
  · intro a ha hmem
    rcases List.mem_append.mp ha with hm | hm
    · exact h.d23 hm (List.mem_of_mem_erase hmem)
    · exact ((h.n3.mem_erase_iff).mp ((List.mem_singleton.mp hm) ▸ hmem)).1 rfl
  · intro j hj
    obtain ⟨m, hm, hl⟩ := h.mem1 j hj
    have hjk : j ≠ k := fun he => hk1 (he ▸ hj)
    exact ⟨m, by rw [alookup_aupdate_ne _ _ hjk]; exact hm, hl⟩
  · intro j hj
    rcases List.mem_append.mp hj with hm | hm
    · obtain ⟨m, hmm, hl⟩ := h.mem2 j hm
      have hjk : j ≠ k := fun he => hk2 (he ▸ hm)
      exact ⟨m, by rw [alookup_aupdate_ne _ _ hjk]; exact hmm, hl⟩
    · rw [List.mem_singleton.mp hm]
      exact ⟨{ n with level := 2 }, alookup_aupdate_self _ _ _, rfl⟩
  · intro j hj
    have hj3 : j ∈ L3 := List.mem_of_mem_erase hj
    have hjk : j ≠ k := ((h.n3.mem_erase_iff).mp hj).1
    obtain ⟨m, hm, hl⟩ := h.mem3 j hj3
    exact ⟨m, by rw [alookup_aupdate_ne _ _ hjk]; exact hm, hl⟩
  · intro j m hm
    by_cases hjk : j = k
    · subst hjk
      rw [alookup_aupdate_self] at hm
      cases hm
      exact Or.inr (Or.inl ⟨rfl, by simp⟩)
    · rw [alookup_aupdate_ne _ _ hjk] at hm
      rcases h.dirmem j m hm with ⟨hl, hmem⟩ | ⟨hl, hmem⟩ | ⟨hl, hmem⟩
      · exact Or.inl ⟨hl, hmem⟩
      · exact Or.inr (Or.inl ⟨hl, List.mem_append_left _ hmem⟩)
      · exact Or.inr (Or.inr ⟨hl, (List.mem_erase_of_ne hjk).mpr hmem⟩)

theorem cons_promote32 (cfg : CacheCfg) {s : CacheState} (k : TopicKey)
    (h : CacheCons s)
    (hlvl : ∀ n, alookup s.directory k = some n → n.level = 3) :
    CacheCons (promoteL3toL2 cfg s k) := by
  rcases hdk : alookup s.directory k with _ | n
  · simpa [promoteL3toL2, hdk] using h
  · simp only [promoteL3toL2, hdk]
    have h0 : CacheCons ⟨s.L1, s.L2, s.L3, s.directory, s.db⟩ := h
    have h1 := cons_promote32_step s.db hdk (hlvl n hdk) h0
    split
    · exact cons_save _ _ (cons_demote23 cfg h1)
    · exact cons_save _ _ h1

end TopicCacheManager

namespace TopicCacheManager

theorem cons_promote21_step {L1 L2 L3 : List TopicKey} {k : TopicKey}
    {dir db : List (TopicKey × CacheNodeM)}
    (db2 : List (TopicKey × CacheNodeM)) {n : CacheNodeM}
    (hdk : alookup dir k = some n) (hlvl : n.level = 2)
    (h : CacheCons ⟨L1, L2, L3, dir, db⟩) :
    CacheCons ⟨L1 ++ [k], L2.erase k, L3, aupdate dir k { n with level := 1 }, db2⟩ := by
  have hk2 : k ∈ L2 := by
    rcases h.dirmem k n hdk with ⟨hl, _⟩ | ⟨_, hm⟩ | ⟨hl, _⟩
    · rw [hlvl] at hl
      cases hl
    · exact hm
    · rw [hlvl] at hl
      cases hl
  have hk1 : k ∉ L1 := fun hm => h.d12 hm hk2
  have hk3 : k ∉ L3 := fun hm => h.d23 hk2 hm
  refine ⟨?_, h.n2.erase k, h.n3, ?_, ?_, ?_, keysNodup_aupdate h.dirn k _, ?_, ?_, ?_, ?_⟩
  · rw [List.nodup_append]
    exact ⟨h.n1, List.nodup_singleton k, fun a ha hs =>
      hk1 ((List.mem_singleton.mp hs) ▸ ha)⟩
  · intro a ha hmem
    rcases List.mem_append.mp ha with hm | hm
    · exact h.d12 hm (List.mem_of_mem_erase hmem)
    · exact ((h.n2.mem_erase_iff).mp ((List.mem_singleton.mp hm) ▸ hmem)).1 rfl
  · intro a ha hmem
    rcases List.mem_append.mp ha with hm | hm
    · exact h.d13 hm hmem
    · exact hk3 ((List.mem_singleton.mp hm) ▸ hmem)
  · intro a ha hmem
    exact h.d23 (List.mem_of_mem_erase ha) hmem
  · intro j hj
    rcases List.mem_append.mp hj with hm | hm
    · obtain ⟨m, hmm, hl⟩ := h.mem1 j hm
      have hjk : j ≠ k := fun he => hk1 (he ▸ hm)
      exact ⟨m, by rw [alookup_aupdate_ne _ _ hjk]; exact hmm, hl⟩
    · rw [List.mem_singleton.mp hm]
      exact ⟨{ n with level := 1 }, alookup_aupdate_self _ _ _, rfl⟩
  · intro j hj
    have hj2 : j ∈ L2 := List.mem_of_mem_erase hj
    have hjk : j ≠ k := ((h.n2.mem_erase_iff).mp hj).1
    obtain ⟨m, hm, hl⟩ := h.mem2 j hj2
    exact ⟨m, by rw [alookup_aupdate_ne _ _ hjk]; exact hm, hl⟩
  · intro j hj
    obtain ⟨m, hm, hl⟩ := h.mem3 j hj
    have hjk : j ≠ k := fun he => hk3 (he ▸ hj)
    exact ⟨m, by rw [alookup_aupdate_ne _ _ hjk]; exact hm, hl⟩
  · intro j m hm
    by_cases hjk : j = k
    · subst hjk
      rw [alookup_aupdate_self] at hm
      cases hm
      exact Or.inl ⟨rfl, by simp⟩
    · rw [alookup_aupdate_ne _ _ hjk] at hm
      rcases h.dirmem j m hm with ⟨hl, hmem⟩ | ⟨hl, hmem⟩ | ⟨hl, hmem⟩
      · exact Or.inl ⟨hl, List.mem_append_left _ hmem⟩
      · exact Or.inr (Or.inl ⟨hl, (List.mem_erase_of_ne hjk).mpr hmem⟩)
      · exact Or.inr (Or.inr ⟨hl, hmem⟩)

theorem cons_promote21 (cfg : CacheCfg) {s : CacheState} (k : TopicKey)
    (h : CacheCons s)
    (hlvl : ∀ n, alookup s.directory k = some n → n.level = 2) :
    CacheCons (promoteL2toL1 cfg s k) := by
  rcases hdk : alookup s.directory k with _ | n
  · simpa [promoteL2toL1, hdk] using h
  · simp only [promoteL2toL1, hdk]
    have h0 : CacheCons ⟨s.L1, s.L2, s.L3, s.directory, s.db⟩ := h
    have h1 := cons_promote21_step s.db hdk (hlvl n hdk) h0
    split
    · exact cons_save _ _ (cons_demote12 cfg h1)
    · exact cons_save _ _ h1

theorem cons_maybePromote (cfg : CacheCfg) {s : CacheState} (k : TopicKey)
    (h : CacheCons s) : CacheCons (maybePromote cfg s k) := by
  rcases hdk : alookup s.directory k with _ | n
  · simpa [maybePromote, hdk] using h
  · simp only [maybePromote, hdk]
    split
    · rename_i hg
      refine cons_promote32 cfg k h (fun m hm => ?_)
      rw [hdk] at hm
      cases hm
      exact hg.1
    · split
      · rename_i hg
        refine cons_promote21 cfg k h (fun m hm => ?_)
        rw [hdk] at hm
        cases hm
        exact hg.1
      · exact h

theorem cons_aupdate_keep_step {L1 L2 L3 : List TopicKey} {k : TopicKey}
    {dir db db2 : List (TopicKey × CacheNodeM)} {n n2 : CacheNodeM}
    (hdk : alookup dir k = some n) (hlvl : n2.level = n.level)
    (h : CacheCons ⟨L1, L2, L3, dir, db⟩) :
    CacheCons ⟨L1, L2, L3, aupdate dir k n2, db2⟩ := by
  refine ⟨h.n1, h.n2, h.n3, h.d12, h.d13, h.d23, keysNodup_aupdate h.dirn k _,
    ?_, ?_, ?_, ?_⟩
  · intro j hj
    obtain ⟨m, hm, hl⟩ := h.mem1 j hj
    by_cases hjk : j = k
    · subst hjk
      rw [hm] at hdk
      cases hdk
      exact ⟨n2, alookup_aupdate_self _ _ _, hlvl.trans hl⟩
    · exact ⟨m, by rw [alookup_aupdate_ne _ _ hjk]; exact hm, hl⟩
  · intro j hj
    obtain ⟨m, hm, hl⟩ := h.mem2 j hj
    by_cases hjk : j = k
    · subst hjk
      rw [hm] at hdk
      cases hdk
      exact ⟨n2, alookup_aupdate_self _ _ _, hlvl.trans hl⟩
    · exact ⟨m, by rw [alookup_aupdate_ne _ _ hjk]; exact hm, hl⟩
  · intro j hj
    obtain ⟨m, hm, hl⟩ := h.mem3 j hj
    by_cases hjk : j = k
    · subst hjk
      rw [hm] at hdk
      cases hdk
      exact ⟨n2, alookup_aupdate_self _ _ _, hlvl.trans hl⟩
    · exact ⟨m, by rw [alookup_aupdate_ne _ _ hjk]; exact hm, hl⟩
  · intro j m hm
    by_cases hjk : j = k
    · subst hjk
      rw [alookup_aupdate_self] at hm
      cases hm
      rcases h.dirmem _ n hdk with ⟨hl, hmem⟩ | ⟨hl, hmem⟩ | ⟨hl, hmem⟩
      · exact Or.inl ⟨hlvl.trans hl, hmem⟩
      · exact Or.inr (Or.inl ⟨hlvl.trans hl, hmem⟩)
      · exact Or.inr (Or.inr ⟨hlvl.trans hl, hmem⟩)
    · rw [alookup_aupdate_ne _ _ hjk] at hm
      exact h.dirmem j m hm

end TopicCacheManager

namespace TopicCacheManager

theorem cons_moveToEnd1_step {L1 L2 L3 : List TopicKey} {k : TopicKey}
    {dir db db2 : List (TopicKey × CacheNodeM)} (hk : k ∈ L1)
    (h : CacheCons ⟨L1, L2, L3, dir, db⟩) :
    CacheCons ⟨moveToEnd L1 k, L2, L3, dir, db2⟩ := by
  refine ⟨nodup_moveToEnd k h.n1, h.n2, h.n3, ?_, ?_, h.d23, h.dirn, ?_, h.mem2, h.mem3, ?_⟩
  · intro a ha hmem
    exact h.d12 ((mem_moveToEnd hk).mp ha) hmem
  · intro a ha hmem
    exact h.d13 ((mem_moveToEnd hk).mp ha) hmem
  · intro j hj
    exact h.mem1 j ((mem_moveToEnd hk).mp hj)
  · intro j m hm
    rcases h.dirmem j m hm with ⟨hl, hmem⟩ | hrest
    · exact Or.inl ⟨hl, (mem_moveToEnd hk).mpr hmem⟩
    · exact Or.inr hrest

theorem cons_moveToEnd2_step {L1 L2 L3 : List TopicKey} {k : TopicKey}
    {dir db db2 : List (TopicKey × CacheNodeM)} (hk : k ∈ L2)
    (h : CacheCons ⟨L1, L2, L3, dir, db⟩) :
    CacheCons ⟨L1, moveToEnd L2 k, L3, dir, db2⟩ := by
  refine ⟨h.n1, nodup_moveToEnd k h.n2, h.n3, ?_, h.d13, ?_, h.dirn, h.mem1, ?_, h.mem3, ?_⟩
  · intro a ha hmem
    exact h.d12 ha ((mem_moveToEnd hk).mp hmem)
  · intro a ha hmem
    exact h.d23 ((mem_moveToEnd hk).mp ha) hmem
  · intro j hj
    exact h.mem2 j ((mem_moveToEnd hk).mp hj)
  · intro j m hm
    rcases h.dirmem j m hm with h1 | ⟨hl, hmem⟩ | h3
    · exact Or.inl h1
    · exact Or.inr (Or.inl ⟨hl, (mem_moveToEnd hk).mpr hmem⟩)
    · exact Or.inr (Or.inr h3)

theorem cons_moveToEnd3_step {L1 L2 L3 : List TopicKey} {k : TopicKey}
    {dir db db2 : List (TopicKey × CacheNodeM)} (hk : k ∈ L3)
    (h : CacheCons ⟨L1, L2, L3, dir, db⟩) :
    CacheCons ⟨L1, L2, moveToEnd L3 k, dir, db2⟩ := by
  refine ⟨h.n1, h.n2, nodup_moveToEnd k h.n3, h.d12, ?_, ?_, h.dirn, h.mem1, h.mem2, ?_, ?_⟩
  · intro a ha hmem
    exact h.d13 ha ((mem_moveToEnd hk).mp hmem)
  · intro a ha hmem
    exact h.d23 ha ((mem_moveToEnd hk).mp hmem)
  · intro j hj
    exact h.mem3 j ((mem_moveToEnd hk).mp hj)
  · intro j m hm
    rcases h.dirmem j m hm with h1 | h2 | ⟨hl, hmem⟩
    · exact Or.inl h1
    · exact Or.inr (Or.inl h2)
    · exact Or.inr (Or.inr ⟨hl, (mem_moveToEnd hk).mpr hmem⟩)

theorem cons_onAccess (now : ℚ) {s : CacheState} (k : TopicKey)
    (h : CacheCons s) : CacheCons (onAccess now s k) := by
  rcases hdk : alookup s.directory k with _ | n
  · simpa [onAccess, hdk] using h
  · simp only [onAccess, hdk]
    have h0 : CacheCons ⟨s.L1, s.L2, s.L3, s.directory, s.db⟩ := h
    have h1 : CacheCons ⟨s.L1, s.L2, s.L3,
        aupdate s.directory k
          { n with
            access_count := n.access_count + 1
            last_access_ts := now
            score := ((n.access_count + 1 : Nat) : ℚ) + (0.1 : ℚ) }, s.db⟩ :=
      cons_aupdate_keep_step hdk rfl h0
    split
    · rename_i hg
      have hk1 : k ∈ s.L1 := by
        rcases h.dirmem k n hdk with ⟨_, hm⟩ | ⟨hl, _⟩ | ⟨hl, _⟩
        · exact hm
        · exact absurd (hg.symm.trans hl) (by decide)
        · exact absurd (hg.symm.trans hl) (by decide)
      exact cons_save _ _ (cons_moveToEnd1_step hk1 h1)
    · split
      · rename_i hg
        have hk2 : k ∈ s.L2 := by
          rcases h.dirmem k n hdk with ⟨hl, _⟩ | ⟨_, hm⟩ | ⟨hl, _⟩
          · exact absurd (hg.symm.trans hl) (by decide)
          · exact hm
          · exact absurd (hg.symm.trans hl) (by decide)
        exact cons_save _ _ (cons_moveToEnd2_step hk2 h1)
      · split
        · rename_i hg
          have hk3 : k ∈ s.L3 := by
            rcases h.dirmem k n hdk with ⟨hl, _⟩ | ⟨hl, _⟩ | ⟨_, hm⟩
            · exact absurd (hg.symm.trans hl) (by decide)
            · exact absurd (hg.symm.trans hl) (by decide)
            · exact hm
          exact cons_save _ _ (cons_moveToEnd3_step hk3 h1)
        · exact cons_save _ _ h1

theorem cons_lookup (cfg : CacheCfg) (now : ℚ) {s : CacheState} (k : TopicKey)
    (h : CacheCons s) : CacheCons (lookup cfg now s k).2 := by
  rcases hdk : alookup s.directory k with _ | n
  · simpa [lookup, hdk] using h
  · simp only [lookup, hdk]
    exact cons_maybePromote cfg k (cons_onAccess now k h)

theorem cons_insert_step {L1 L2 L3 : List TopicKey} {k : TopicKey}
    {dir db db2 : List (TopicKey × CacheNodeM)} {st : CacheNodeM}
    (hnone : alookup dir k = none) (hst : st.level = 3)
    (h : CacheCons ⟨L1, L2, L3, dir, db⟩) :
    CacheCons ⟨L1, L2, L3 ++ [k], aupdate dir k st, db2⟩ := by
  have hk1 : k ∉ L1 := by
    intro hm
    obtain ⟨m, hmm, _⟩ := h.mem1 k hm
    rw [hnone] at hmm
    cases hmm
  have hk2 : k ∉ L2 := by
    intro hm
    obtain ⟨m, hmm, _⟩ := h.mem2 k hm
    rw [hnone] at hmm
    cases hmm
  have hk3 : k ∉ L3 := by
    intro hm
    obtain ⟨m, hmm, _⟩ := h.mem3 k hm
    rw [hnone] at hmm
    cases hmm
  refine ⟨h.n1, h.n2, ?_, h.d12, ?_, ?_, keysNodup_aupdate h.dirn k _, ?_, ?_, ?_, ?_⟩
  · rw [List.nodup_append]
    exact ⟨h.n3, List.nodup_singleton k, fun a ha hs =>
      hk3 ((List.mem_singleton.mp hs) ▸ ha)⟩
  · intro a ha hmem
    rcases List.mem_append.mp hmem with hm | hm
    · exact h.d13 ha hm
    · exact hk1 ((List.mem_singleton.mp hm) ▸ ha)
  · intro a ha hmem
    rcases List.mem_append.mp hmem with hm | hm
    · exact h.d23 ha hm
    · exact hk2 ((List.mem_singleton.mp hm) ▸ ha)
  · intro j hj
    obtain ⟨m, hm, hl⟩ := h.mem1 j hj
    have hjk : j ≠ k := fun he => hk1 (he ▸ hj)
    exact ⟨m, by rw [alookup_aupdate_ne _ _ hjk]; exact hm, hl⟩
  · intro j hj
    obtain ⟨m, hm, hl⟩ := h.mem2 j hj
    have hjk : j ≠ k := fun he => hk2 (he ▸ hj)
    exact ⟨m, by rw [alookup_aupdate_ne _ _ hjk]; exact hm, hl⟩
  · intro j hj
    rcases List.mem_append.mp hj with hm | hm
    · obtain ⟨m, hmm, hl⟩ := h.mem3 j hm
      have hjk : j ≠ k := fun he => hk3 (he ▸ hm)
      exact ⟨m, by rw [alookup_aupdate_ne _ _ hjk]; exact hmm, hl⟩
    · rw [List.mem_singleton.mp hm]
      exact ⟨st, alookup_aupdate_self _ _ _, hst⟩
  · intro j m hm
    by_cases hjk : j = k
    · subst hjk
      rw [alookup_aupdate_self] at hm
      cases hm
      exact Or.inr (Or.inr ⟨hst, by simp⟩)
    · rw [alookup_aupdate_ne _ _ hjk] at hm
      rcases h.dirmem j m hm with h1 | h2 | ⟨hl, hmem⟩
      · exact Or.inl h1
      · exact Or.inr (Or.inl h2)
      · exact Or.inr (Or.inr ⟨hl, List.mem_append_left _ hmem⟩)

theorem cons_insertNew (cfg : CacheCfg) (now : ℚ) {s : CacheState} (k : TopicKey)
    (ids : List String) (hcap : 1 ≤ cfg.cap_l3) (h : CacheCons s) : CacheCons (insertNew cfg now s k ids).2 := by
  rcases hdk : alookup s.directory k with _ | n
  · simp only [insertNew, hdk]
    have h0 : CacheCons ⟨s.L1, s.L2, s.L3, s.directory, s.db⟩ := h
    split
    · rename_i hguard
      rcases hL3 : s.L3 with _ | ⟨k0, rest⟩
      · rw [hL3] at hguard
        simp at hguard
        omega
      · have h00 : CacheCons ⟨s.L1, s.L2, k0 :: rest, s.directory, s.db⟩ := by
          rw [← hL3]
          exact h
        have hk0 : alookup s.directory k0 ≠ none := by
          obtain ⟨m, hmm, _⟩ := h00.mem3 k0 (List.mem_cons_self k0 rest)
          rw [hmm]
          exact Option.noConfusion
        have hkk0 : k ≠ k0 := fun he => hk0 (he ▸ hdk)
        have hnone2 : alookup (aremove s.directory k0) k = none := by
          rw [alookup_aremove_ne _ hkk0]
          exact hdk
        have h2 := cons_evict_step s.db h00
        simp only [hL3, evictFromL3, List.cons_append, deleteCacheEntry]
        exact cons_save _ _ (cons_insert_step hnone2 rfl h2)
    · exact cons_save _ _ (cons_insert_step hdk rfl h0)
  · simpa [insertNew, hdk] using h

end TopicCacheManager

namespace TopicCacheManager

theorem evict_L1 {s : CacheState} : (evictFromL3 s).L1 = s.L1 := by
  rcases hL3 : s.L3 with _ | ⟨k, rest⟩ <;> simp [evictFromL3, hL3, deleteCacheEntry]

theorem evict_L2 {s : CacheState} : (evictFromL3 s).L2 = s.L2 := by
  rcases hL3 : s.L3 with _ | ⟨k, rest⟩ <;> simp [evictFromL3, hL3, deleteCacheEntry]

theorem evict_len3_eq {s : CacheState} (hne : s.L3 ≠ []) :
    (evictFromL3 s).L3.length + 1 = s.L3.length := by
  rcases hL3 : s.L3 with _ | ⟨k, rest⟩
  · exact absurd hL3 hne
  · simp [evictFromL3, hL3, deleteCacheEntry]

theorem L1_demote23 (cfg : CacheCfg) {s : CacheState} :
    (demoteL2toL3 cfg s).L1 = s.L1 := by
  rcases hL2 : s.L2 with _ | ⟨k, rest⟩
  · simp [demoteL2toL3, hL2]
  · rcases hdk : alookup s.directory k with _ | n
    · simp [demoteL2toL3, hL2, hdk]
    · simp only [demoteL2toL3, hL2, hdk]
      split
      · simp only [saveCacheEntry]
        rw [evict_L1]
      · simp [saveCacheEntry]

theorem pop2_demote23 (cfg : CacheCfg) {s : CacheState} (h : CacheCons s)
    (hne : s.L2 ≠ []) :
    (demoteL2toL3 cfg s).L2.length + 1 = s.L2.length := by
  rcases hL2 : s.L2 with _ | ⟨k, rest⟩
  · exact absurd hL2 hne
  · obtain ⟨n, hdk, _⟩ := h.mem2 k (by rw [hL2]; exact List.mem_cons_self k rest)
    simp only [demoteL2toL3, hL2, hdk]
    split
    · simp only [saveCacheEntry]
      rw [evict_L2]
      simp [hL2]
    · simp [saveCacheEntry, hL2]

theorem cap3_demote23 (cfg : CacheCfg) {s : CacheState}
    (h3 : s.L3.length ≤ cfg.cap_l3) :
    (demoteL2toL3 cfg s).L3.length ≤ cfg.cap_l3 := by
  rcases hL2 : s.L2 with _ | ⟨k, rest⟩
  · simpa [demoteL2toL3, hL2] using h3
  · rcases hdk : alookup s.directory k with _ | n
    · simpa [demoteL2toL3, hL2, hdk] using h3
    · simp only [demoteL2toL3, hL2, hdk]
      split
      · simp only [saveCacheEntry]
        have he := evict_len3_eq
          (s := ⟨s.L1, rest, s.L3 ++ [k],
            aupdate s.directory k { n with level := 3 }, s.db⟩) (by simp)
        simp only [List.length_append, List.length_singleton] at he
        omega
      · rename_i hg
        simp only [saveCacheEntry]
        simp only [List.length_append, List.length_singleton] at hg ⊢
        omega

theorem L1pop_demote12 (cfg : CacheCfg) {s : CacheState} (h : CacheCons s)
    (hne : s.L1 ≠ []) :
    (demoteL1toL2 cfg s).L1.length + 1 = s.L1.length := by
  rcases hL1 : s.L1 with _ | ⟨k, rest⟩
  · exact absurd hL1 hne
  · obtain ⟨n, hdk, _⟩ := h.mem1 k (by rw [hL1]; exact List.mem_cons_self k rest)
    simp only [demoteL1toL2, hL1, hdk]
    split
    · simp only [saveCacheEntry]
      rw [L1_demote23]
      simp [hL1]
    · simp [saveCacheEntry, hL1]

theorem cap2_demote12 (cfg : CacheCfg) {s : CacheState} (h : CacheCons s)
    (h2 : s.L2.length ≤ cfg.cap_l2) :
    (demoteL1toL2 cfg s).L2.length ≤ cfg.cap_l2 := by
  rcases hL1 : s.L1 with _ | ⟨k, rest⟩
  · simpa [demoteL1toL2, hL1] using h2
  · rcases hdk : alookup s.directory k with _ | n
    · simpa [demoteL1toL2, hL1, hdk] using h2
    · simp only [demoteL1toL2, hL1, hdk]
      have h00 : CacheCons ⟨k :: rest, s.L2, s.L3, s.directory, s.db⟩ := by
        rw [← hL1]
        exact h
      split
      · simp only [saveCacheEntry]
        have hc := cons_demote12_step s.db hdk h00
        have hp := pop2_demote23 cfg hc (by simp)
        simp only [List.length_append, List.length_singleton] at hp
        omega
      · rename_i hg
        simp only [saveCacheEntry]
        simp only [List.length_append, List.length_singleton] at hg ⊢
        omega

theorem cap3_demote12 (cfg : CacheCfg) {s : CacheState}
    (h3 : s.L3.length ≤ cfg.cap_l3) :
    (demoteL1toL2 cfg s).L3.length ≤ cfg.cap_l3 := by
  rcases hL1 : s.L1 with _ | ⟨k, rest⟩
  · simpa [demoteL1toL2, hL1] using h3
  · rcases hdk : alookup s.directory k with _ | n
    · simpa [demoteL1toL2, hL1, hdk] using h3
    · simp only [demoteL1toL2, hL1, hdk]
      split
      · simp only [saveCacheEntry]
        exact cap3_demote23 cfg h3
      · simpa [saveCacheEntry] using h3

end TopicCacheManager

namespace TopicCacheManager

theorem L1_promote32 (cfg : CacheCfg) {s : CacheState} (k : TopicKey) :
    (promoteL3toL2 cfg s k).L1 = s.L1 := by
  rcases hdk : alookup s.directory k with _ | n
  · simp [promoteL3toL2, hdk]
  · simp only [promoteL3toL2, hdk]
    split
    · simp only [saveCacheEntry]
      rw [L1_demote23]
    · simp [saveCacheEntry]

theorem cap2_promote32 (cfg : CacheCfg) {s : CacheState} (k : TopicKey)
    (h : CacheCons s)
    (hlvl : ∀ n, alookup s.directory k = some n → n.level = 3)
    (h2 : s.L2.length ≤ cfg.cap_l2) :
    (promoteL3toL2 cfg s k).L2.length ≤ cfg.cap_l2 := by
  rcases hdk : alookup s.directory k with _ | n
  · simpa [promoteL3toL2, hdk] using h2
  · simp only [promoteL3toL2, hdk]
    have h0 : CacheCons ⟨s.L1, s.L2, s.L3, s.directory, s.db⟩ := h
    have hc := cons_promote32_step s.db hdk (hlvl n hdk) h0
    split
    · simp only [saveCacheEntry]
      have hp := pop2_demote23 cfg hc (by simp)
      simp only [List.length_append, List.length_singleton] at hp
      omega
    · rename_i hg
      simp only [saveCacheEntry]
      simp only [List.length_append, List.length_singleton] at hg ⊢
      omega

theorem cap3_promote32 (cfg : CacheCfg) {s : CacheState} (k : TopicKey)
    (h3 : s.L3.length ≤ cfg.cap_l3) :
    (promoteL3toL2 cfg s k).L3.length ≤ cfg.cap_l3 := by
  rcases hdk : alookup s.directory k with _ | n
  · simpa [promoteL3toL2, hdk] using h3
  · simp only [promoteL3toL2, hdk]
    have h3e : (s.L3.erase k).length ≤ cfg.cap_l3 :=
      le_trans (List.erase_sublist k s.L3).length_le h3
    split
    · simp only [saveCacheEntry]
      exact cap3_demote23 cfg h3e
    · simpa [saveCacheEntry] using h3e

theorem cap1_promote21 (cfg : CacheCfg) {s : CacheState} (k : TopicKey)
    (h : CacheCons s)
    (hlvl : ∀ n, alookup s.directory k = some n → n.level = 2)
    (h1 : s.L1.length ≤ cfg.cap_l1) :
    (promoteL2toL1 cfg s k).L1.length ≤ cfg.cap_l1 := by
  rcases hdk : alookup s.directory k with _ | n
  · simpa [promoteL2toL1, hdk] using h1
  · simp only [promoteL2toL1, hdk]
    have h0 : CacheCons ⟨s.L1, s.L2, s.L3, s.directory, s.db⟩ := h
    have hc := cons_promote21_step s.db hdk (hlvl n hdk) h0
    split
    · simp only [saveCacheEntry]
      have hp := L1pop_demote12 cfg hc (by simp)
      simp only [List.length_append, List.length_singleton] at hp
      omega
    · rename_i hg
      simp only [saveCacheEntry]
      simp only [List.length_append, List.length_singleton] at hg ⊢
      omega

theorem cap2_promote21 (cfg : CacheCfg) {s : CacheState} (k : TopicKey)
    (h : CacheCons s)
    (hlvl : ∀ n, alookup s.directory k = some n → n.level = 2)
    (h2 : s.L2.length ≤ cfg.cap_l2) :
    (promoteL2toL1 cfg s k).L2.length ≤ cfg.cap_l2 := by
  rcases hdk : alookup s.directory k with _ | n
  · simpa [promoteL2toL1, hdk] using h2
  · simp only [promoteL2toL1, hdk]
    have h0 : CacheCons ⟨s.L1, s.L2, s.L3, s.directory, s.db⟩ := h
    have hc := cons_promote21_step s.db hdk (hlvl n hdk) h0
    have h2e : (s.L2.erase k).length ≤ cfg.cap_l2 :=
      le_trans (List.erase_sublist k s.L2).length_le h2
    split
    · simp only [saveCacheEntry]
      exact cap2_demote12 cfg hc h2e
    · simpa [saveCacheEntry] using h2e

theorem cap3_promote21 (cfg : CacheCfg) {s : CacheState} (k : TopicKey)
    (h3 : s.L3.length ≤ cfg.cap_l3) :
    (promoteL2toL1 cfg s k).L3.length ≤ cfg.cap_l3 := by
  rcases hdk : alookup s.directory k with _ | n
  · simpa [promoteL2toL1, hdk] using h3
  · simp only [promoteL2toL1, hdk]
    split
    · simp only [saveCacheEntry]
      exact cap3_demote12 cfg h3
    · simpa [saveCacheEntry] using h3

theorem lens_onAccess (now : ℚ) {s : CacheState} (k : TopicKey) (h : CacheCons s) :
    (onAccess now s k).L1.length = s.L1.length
    ∧ (onAccess now s k).L2.length = s.L2.length
    ∧ (onAccess now s k).L3.length = s.L3.length := by
  rcases hdk : alookup s.directory k with _ | n
  · simp [onAccess, hdk]
  · simp only [onAccess, hdk]
    split
    · rename_i hg
      have hk1 : k ∈ s.L1 := by
        rcases h.dirmem k n hdk with ⟨_, hm⟩ | ⟨hl, _⟩ | ⟨hl, _⟩
        · exact hm
        · exact absurd (hg.symm.trans hl) (by decide)
        · exact absurd (hg.symm.trans hl) (by decide)
      exact ⟨length_moveToEnd hk1, rfl, rfl⟩
    · split
      · rename_i hg
        have hk2 : k ∈ s.L2 := by
          rcases h.dirmem k n hdk with ⟨hl, _⟩ | ⟨_, hm⟩ | ⟨hl, _⟩
          · exact absurd (hg.symm.trans hl) (by decide)
          · exact hm
          · exact absurd (hg.symm.trans hl) (by decide)
        exact ⟨rfl, length_moveToEnd hk2, rfl⟩
      · split
        · rename_i hg
          have hk3 : k ∈ s.L3 := by
            rcases h.dirmem k n hdk with ⟨hl, _⟩ | ⟨hl, _⟩ | ⟨_, hm⟩
            · exact absurd (hg.symm.trans hl) (by decide)
            · exact absurd (hg.symm.trans hl) (by decide)
            · exact hm
          exact ⟨rfl, rfl, length_moveToEnd hk3⟩
        · simp [saveCacheEntry]

theorem inv_onAccess (now : ℚ) {cfg : CacheCfg} {s : CacheState} (k : TopicKey)
    (h : CacheInv cfg s) : CacheInv cfg (onAccess now s k) := by
  obtain ⟨l1, l2, l3⟩ := lens_onAccess now k h.cons
  exact ⟨cons_onAccess now k h.cons, by rw [l1]; exact h.cap1,
    by rw [l2]; exact h.cap2, by rw [l3]; exact h.cap3⟩

theorem inv_maybePromote (cfg : CacheCfg) {s : CacheState} (k : TopicKey)
    (h : CacheInv cfg s) : CacheInv cfg (maybePromote cfg s k) := by
  rcases hdk : alookup s.directory k with _ | n
  · simpa [maybePromote, hdk] using h
  · simp only [maybePromote, hdk]
    split
    · rename_i hg
      have hlvl : ∀ m, alookup s.directory k = some m → m.level = 3 := by
        intro m hm
        rw [hdk] at hm
        cases hm
        exact hg.1
      exact ⟨cons_promote32 cfg k h.cons hlvl,
        by rw [L1_promote32]; exact h.cap1,
        cap2_promote32 cfg k h.cons hlvl h.cap2,
        cap3_promote32 cfg k h.cap3⟩
    · split
      · rename_i hg
        have hlvl : ∀ m, alookup s.directory k = some m → m.level = 2 := by
          intro m hm
          rw [hdk] at hm
          cases hm
          exact hg.1
        exact ⟨cons_promote21 cfg k h.cons hlvl,
          cap1_promote21 cfg k h.cons hlvl h.cap1,
          cap2_promote21 cfg k h.cons hlvl h.cap2,
          cap3_promote21 cfg k h.cap3⟩
      · exact h

theorem inv_lookup (cfg : CacheCfg) (now : ℚ) {s : CacheState} (k : TopicKey)
    (h : CacheInv cfg s) : CacheInv cfg (lookup cfg now s k).2 := by
  rcases hdk : alookup s.directory k with _ | n
  · simpa [lookup, hdk] using h
  · simp only [lookup, hdk]
    exact inv_maybePromote cfg k (inv_onAccess now k h)

theorem shape_insertNew (cfg : CacheCfg) (now : ℚ) {s : CacheState} (k : TopicKey)
    (ids : List String) :
    (insertNew cfg now s k ids).2.L1 = s.L1
    ∧ (insertNew cfg now s k ids).2.L2 = s.L2
    ∧ ((insertNew cfg now s k ids).2.L3.length = s.L3.length
      ∨ ((insertNew cfg now s k ids).2.L3.length = s.L3.length + 1
        ∧ s.L3.length + 1 ≤ cfg.cap_l3)) := by
  rcases hdk : alookup s.directory k with _ | n
  · simp only [insertNew, hdk]
    split
    · rename_i hg
      rcases hL3 : s.L3 with _ | ⟨k0, rest⟩
      · simp [hL3, evictFromL3, deleteCacheEntry, saveCacheEntry]
      · simp only [hL3, evictFromL3, List.cons_append, deleteCacheEntry, saveCacheEntry]
        simp [hL3]
    · rename_i hg
      refine ⟨rfl, rfl, Or.inr ⟨by simp [saveCacheEntry], ?_⟩⟩
      simp only [List.length_append, List.length_singleton] at hg
      omega
  · simp [insertNew, hdk]

theorem inv_insertNew (cfg : CacheCfg) (now : ℚ) {s : CacheState} (k : TopicKey)
    (ids : List String) (hcap : 1 ≤ cfg.cap_l3) (h : CacheInv cfg s) :
    CacheInv cfg (insertNew cfg now s k ids).2 := by
  obtain ⟨l1, l2, l3⟩ := shape_insertNew cfg now k ids (s := s)
  refine ⟨cons_insertNew cfg now k ids hcap h.cons, by rw [l1]; exact h.cap1,
    by rw [l2]; exact h.cap2, ?_⟩
  rcases l3 with he | ⟨he, hb⟩
  · rw [he]
    exact h.cap3
  · rw [he]
    exact hb

end TopicCacheManager

namespace TopicCacheManager

theorem cons_keys_union {s : CacheState} (h : CacheCons s) (j : TopicKey) :
    (j ∈ s.L1 ∨ j ∈ s.L2 ∨ j ∈ s.L3) ↔ j ∈ keysOf s.directory := by
  constructor
  · intro hj
    rcases hj with hj | hj | hj
    · obtain ⟨m, hm, _⟩ := h.mem1 j hj
      exact List.mem_map_of_mem Prod.fst (alookup_mem hm)
    · obtain ⟨m, hm, _⟩ := h.mem2 j hj
      exact List.mem_map_of_mem Prod.fst (alookup_mem hm)
    · obtain ⟨m, hm, _⟩ := h.mem3 j hj
      exact List.mem_map_of_mem Prod.fst (alookup_mem hm)
  · intro hj
    rcases hv : alookup s.directory j with _ | m
    · exact absurd hj ((alookup_eq_none _ _).mp hv)
    · rcases h.dirmem j m hv with ⟨_, hm⟩ | ⟨_, hm⟩ | ⟨_, hm⟩
      · exact Or.inl hm
      · exact Or.inr (Or.inl hm)
      · exact Or.inr (Or.inr hm)

end TopicCacheManager

/-- The empty cache satisfies the full invariant for any capacities. -/
theorem cacheInv_empty (cfg : CacheCfg) : CacheInv cfg emptyCacheState := by
  refine ⟨⟨List.nodup_nil, List.nodup_nil, List.nodup_nil, ?_, ?_, ?_, ?_, ?_, ?_, ?_, ?_⟩,
    by simp [emptyCacheState], by simp [emptyCacheState], by simp [emptyCacheState]⟩
  · intro a ha
    exact absurd ha (List.not_mem_nil a)
  · intro a ha
    exact absurd ha (List.not_mem_nil a)
  · intro a ha
    exact absurd ha (List.not_mem_nil a)
  · simp [emptyCacheState, keysNodup, keysOf]
  · intro j hj
    exact absurd hj (List.not_mem_nil j)
  · intro j hj
    exact absurd hj (List.not_mem_nil j)
  · intro j hj
    exact absurd hj (List.not_mem_nil j)
  · intro j m hm
    exact nomatch hm

/-- C8: each state-changing public TopicCache call (`lookup`, `insert_new`)
preserves the full invariant — the three tier key-lists are duplicate-free
and pairwise disjoint, their union equals the directory key-set, and every
tier respects its capacity — while the read-only calls (`debug_dump_levels`,
`debug_counts`) just project the state. `insert_new` needs the configured L3
capacity to be at least 1 (true of the default `L3_CAPACITY = 1024`):
with capacity 0 the post-eviction directory registration would leave the
fresh key in the directory but in no tier. -/
theorem C8_invariant_preserved (cfg : CacheCfg) (now : ℚ) (s : CacheState)
    (k k2 : TopicKey) (ids : List String) (hcap : 1 ≤ cfg.cap_l3)
    (h : CacheInv cfg s) :
    (CacheInv cfg (TopicCacheManager.lookup cfg now s k).2
      ∧ ∀ j, (j ∈ (TopicCacheManager.lookup cfg now s k).2.L1
          ∨ j ∈ (TopicCacheManager.lookup cfg now s k).2.L2
          ∨ j ∈ (TopicCacheManager.lookup cfg now s k).2.L3)
        ↔ j ∈ keysOf (TopicCacheManager.lookup cfg now s k).2.directory)
    ∧ (CacheInv cfg (TopicCacheManager.insertNew cfg now s k2 ids).2
      ∧ ∀ j, (j ∈ (TopicCacheManager.insertNew cfg now s k2 ids).2.L1
          ∨ j ∈ (TopicCacheManager.insertNew cfg now s k2 ids).2.L2
          ∨ j ∈ (TopicCacheManager.insertNew cfg now s k2 ids).2.L3)
        ↔ j ∈ keysOf (TopicCacheManager.insertNew cfg now s k2 ids).2.directory)
    ∧ TopicCacheManager.debugDumpLevels s = (s.L1, s.L2, s.L3)
    ∧ TopicCacheManager.debugCounts s
        = (s.L1.length, s.L2.length, s.L3.length, s.directory.length) := by
  have hl := TopicCacheManager.inv_lookup cfg now k h
  have hi := TopicCacheManager.inv_insertNew cfg now k2 ids hcap h
  exact ⟨⟨hl, TopicCacheManager.cons_keys_union hl.cons⟩,
    ⟨hi, TopicCacheManager.cons_keys_union hi.cons⟩, rfl, rfl⟩

/-- Witness for C8 at the default configuration and the empty cache. -/
theorem C8_invariant_preserved_witness :
    1 ≤ defaultCacheCfg.cap_l3
    ∧ CacheInv defaultCacheCfg emptyCacheState
    ∧ CacheInv defaultCacheCfg
        (TopicCacheManager.lookup defaultCacheCfg 0 emptyCacheState keyA).2
    ∧ CacheInv defaultCacheCfg
        (TopicCacheManager.insertNew defaultCacheCfg 0 emptyCacheState keyA ["c1"]).2 := by
  have hinv := cacheInv_empty defaultCacheCfg
  have hc := C8_invariant_preserved defaultCacheCfg 0 emptyCacheState keyA keyA ["c1"] (by decide) hinv
  exact ⟨by decide, hinv, hc.1.1, hc.2.1.1⟩


/-! ## C6: contextual expansion gating -/

/-- Orthogonal unit vectors have cosine similarity 0 under the embedded
`cosine_sim`. -/
lemma cosineSim_orth :
    QueryProcessing.cosineSim [(1 : ℚ), 0] [(0 : ℚ), 1] = 0 := by
  have h1 : dotQ [(1 : ℚ), 0] [(1 : ℚ), 0] = 1 := by norm_num [dotQ]
  have h2 : dotQ [(0 : ℚ), 1] [(0 : ℚ), 1] = 1 := by norm_num [dotQ]
  have h3 : dotQ [(1 : ℚ), 0] [(0 : ℚ), 1] = 0 := by norm_num [dotQ]
  simp only [QueryProcessing.cosineSim, normQ, h1, h2, h3, ratSqrt_one]
  norm_num

/-- Counterexample for C6: the query "tell me more" contains a follow-up
marker and its cosine similarity with every prior query is 0 < 0.45, yet
`_expand_with_context` does NOT pass it through unchanged — it expands it
to "alpha | beta tell me more", because in the code a follow-up marker
bypasses the 0.45 similarity gate (`if best_sim < 0.45 and not
is_followup`). This refutes the claim that expansion requires similarity
≥ 0.45 with at least one prior query. -/
theorem C6_counterexample :
    (QueryProcessing.followupMarkers.any
      (fun w => containsSub (lowerString "tell me more") w)) = true
    ∧ (∀ p ∈ ctxRecent "s1" 3,
        QueryProcessing.cosineSim (encCtx "tell me more") (encCtx p) < (0.45 : ℚ))
    ∧ QueryProcessing.expandWithContext ctxPreproc "tell me more" "s1"
        ≠ "tell me more" := by
  refine ⟨by decide, ?_, ?_⟩
  · intro p hp
    have hp3 : p = "alpha" ∨ p = "beta" ∨ p = "gamma" := by
      simpa [ctxRecent] using hp
    have he : encCtx p = [(0 : ℚ), 1] := by
      rcases hp3 with rfl | rfl | rfl <;> simp [encCtx]
    rw [show encCtx "tell me more" = [(1 : ℚ), 0] from by simp [encCtx], he,
      cosineSim_orth]
    norm_num
  · have hout : QueryProcessing.expandWithContext ctxPreproc "tell me more" "s1"
        = "alpha | beta tell me more" := by
      rw [QueryProcessing.expandWithContext, if_neg (by decide)]
      simp only [ctxPreproc]
      rw [show ctxRecent "s1" 3 = ["alpha", "beta", "gamma"] from rfl]
      rw [if_neg (by decide)]
      have hf : QueryProcessing.followupMarkers.any
          (fun w => containsSub (lowerString "tell me more") w) = true := by decide
      simp only [hf, Bool.not_true, Bool.and_false]
      rw [if_neg (show ¬ (false = true) by decide)]
      rw [if_pos (show (decide ((pyWords "tell me more").length ≤ 4) || true) = true
        by decide)]
      decide
    rw [hout]
    decide

/-- C6 (amended): with a conversation memory supplying priors and an
embedding model wired in, for a non-empty session id whose recent list has
at least 2 entries, `_expand_with_context` expands the query iff
(the query is short OR contains a follow-up marker) AND (it contains a
follow-up marker OR its best cosine similarity with a prior query is
≥ 0.45); the expansion joins the last two prior queries with " | " and
prepends them. The follow-up-marker condition thus bypasses the
similarity gate, unlike what the claim states. -/
theorem C6_amended (getRecent : String → Nat → List String) (enc : String → List ℚ)
    (q sid : String) (hsid : ¬ sid = "") (hlen : ¬ (getRecent sid 3).length ≤ 1) :
    QueryProcessing.expandWithContext ⟨some getRecent, some enc⟩ q sid
      = if (((pyWords q).length ≤ 4 ∨ QueryProcessing.followupMarkers.any
              (fun w => containsSub (lowerString q) w) = true)
          ∧ (QueryProcessing.followupMarkers.any
              (fun w => containsSub (lowerString q) w) = true
            ∨ (0.45 : ℚ) ≤ listMaxQ (((getRecent sid 3).dropLast).map
                (fun p => QueryProcessing.cosineSim (enc q) (enc p)))))
        then joinSep " | " (((getRecent sid 3).dropLast).drop
              (((getRecent sid 3).dropLast).length - 2)) ++ " " ++ q
        else q := by
  simp only [QueryProcessing.expandWithContext]
  rw [if_neg hsid, if_neg hlen]
  by_cases hf : QueryProcessing.followupMarkers.any
      (fun w => containsSub (lowerString q) w) = true
  · simp only [hf, Bool.not_true, Bool.and_false]
    rw [if_neg (show ¬ (false = true) by decide)]
    rw [show (decide ((pyWords q).length ≤ 4) || true) = true from by simp]
    rw [if_pos rfl]
    rw [if_pos ⟨Or.inr trivial, Or.inl trivial⟩]
  · have hf' : (QueryProcessing.followupMarkers.any
        fun w => containsSub (lowerString q) w) = false := Bool.eq_false_iff.mpr hf
    simp only [hf', Bool.not_false, Bool.and_true]
    by_cases hb : (0.45 : ℚ) ≤ listMaxQ (((getRecent sid 3).dropLast).map
        (fun p => QueryProcessing.cosineSim (enc q) (enc p)))
    · rw [show (decide (listMaxQ (((getRecent sid 3).dropLast).map
          (fun p => QueryProcessing.cosineSim (enc q) (enc p))) < (0.45 : ℚ))) = false
        from decide_eq_false (not_lt.mpr hb)]
      rw [if_neg (show ¬ (false = true) by decide)]
      by_cases hs : (pyWords q).length ≤ 4
      · rw [show (decide ((pyWords q).length ≤ 4) || false) = true from by simp [hs]]
        rw [if_pos rfl]
        rw [if_pos ⟨Or.inl hs, Or.inr hb⟩]
      · rw [show (decide ((pyWords q).length ≤ 4) || false) = false from by simp [hs]]
        rw [if_neg (show ¬ (false = true) by decide)]
        rw [if_neg (fun hc => ?_)]
        rcases hc.1 with h1 | h1
        · exact hs h1
        · exact absurd h1 (by simp)
    · rw [show (decide (listMaxQ (((getRecent sid 3).dropLast).map
          (fun p => QueryProcessing.cosineSim (enc q) (enc p))) < (0.45 : ℚ))) = true
        from decide_eq_true (not_le.mp hb)]
      rw [if_pos rfl]
      rw [if_neg (fun hc => ?_)]
      rcases hc.2 with h2 | h2
      · exact absurd h2 (by simp)
      · exact hb h2

/-- Witness for C6 (amended): at the concrete oracles the hypotheses hold
and the characterization evaluates the follow-up query to its expansion. -/
theorem C6_amended_witness :
    ¬ ("s1" : String) = ""
    ∧ ¬ (ctxRecent "s1" 3).length ≤ 1
    ∧ QueryProcessing.expandWithContext ⟨some ctxRecent, some encCtx⟩
        "tell me more" "s1" = "alpha | beta tell me more" := by
  refine ⟨by decide, by decide, ?_⟩
  rw [C6_amended ctxRecent encCtx "tell me more" "s1" (by decide) (by decide)]
  rw [if_pos ⟨Or.inr (by decide), Or.inl (by decide)⟩]
  decide

/-! ## C1: orchestrator response after exhausted validation -/

/-- Every validation attempt against the scored-to-zero chunk is invalid and
proposes a retry query. -/
theorem validate_null_invalid (q : String)
    (hq : ¬ RetrievalValidator.extractKeywords q = ∅) :
    RetrievalValidator.validate vNull q [chunkE] (some []) =
      { is_valid := false, confidence := 0, validated_chunks := [],
        rejected_chunks := [⟨"c9", "", "", some 0⟩],
        reason := some "Insufficient relevance",
        retry_query := some (RetrievalValidator.generateRetryQuery q) } := by
  have hov : RetrievalValidator.computeKeywordOverlap
      (RetrievalValidator.extractKeywords q) chunkE.chunk_text = 0 := by
    rw [RetrievalValidator.computeKeywordOverlap, if_neg hq]
    rw [show RetrievalValidator.extractKeywords chunkE.chunk_text = ∅ from by decide]
    simp
  have hs : RetrievalValidator.combinedScore vNull
      (RetrievalValidator.extractKeywords q) [] chunkE = 0 := by
    rw [RetrievalValidator.combinedScore, hov]
    norm_num [vNull, encNull, dotQ]
  rw [RetrievalValidator.validate, if_neg (by simp)]
  simp only [Option.getD, List.map_cons, List.map_nil, hs]
  rw [List.filter_cons_of_neg
    (by simp [vNull, RetrievalValidator.defaultMinSimilarity]; norm_num)]
  rw [List.filter_cons_of_pos
    (by simp [vNull, RetrievalValidator.defaultMinSimilarity]; norm_num)]
  simp [chunkE]

/-- The full retry loop on the null engine: 2 retries are spent and the final
result still has no validated chunk. -/
theorem validateWithRetry_null :
    RetrievalValidator.validateWithRetry vNull (RetrievalEngine.retrieveFresh engE)
        "linux" (some [chunkE]) (some []) =
      ({ is_valid := false, confidence := 0, validated_chunks := [],
         rejected_chunks := [⟨"c9", "", "", some 0⟩],
         reason := some "Insufficient relevance",
         retry_query := some (RetrievalValidator.generateRetryQuery
           "detailed information about What is linux?") }, 2) := by
  have h1 := validate_null_invalid "linux" (by decide)
  have h2 := validate_null_invalid "What is linux?" (by decide)
  have h3 := validate_null_invalid "detailed information about What is linux?" (by decide)
  have hrf : ∀ r, RetrievalEngine.retrieveFresh engE r = [chunkE] := fun _ => rfl
  show RetrievalValidator.validateRetryAux vNull (RetrievalEngine.retrieveFresh engE)
    2 0 "linux" [chunkE] (some []) = _
  rw [RetrievalValidator.validateRetryAux]
  case heq => rw [h1]
  rw [h1]
  rw [if_neg (by decide)]
  rw [show RetrievalValidator.generateRetryQuery "linux" = "What is linux?" from by decide]
  rw [if_pos (by decide)]
  rw [hrf, show vNull.encode "What is linux?" = [] from rfl]
  rw [RetrievalValidator.validateRetryAux]
  case heq => rw [h2]
  rw [h2]
  rw [if_neg (by decide)]
  rw [show RetrievalValidator.generateRetryQuery "What is linux?"
    = "detailed information about What is linux?" from by decide]
  rw [if_pos (by decide)]
  rw [hrf, show vNull.encode "detailed information about What is linux?" = [] from rfl]
  rw [RetrievalValidator.validateRetryAux]
  rw [h3]
  rw [if_neg (by decide)]
  · rfl
  · intro l rq hcontra hrq
    exact absurd hcontra (by omega)

/-- The enhanced retrieval of the null engine ends with empty
`chunks_with_metadata` after the retry budget is exhausted. -/
theorem retrieveEnhanced_null :
    RetrievalEngine.retrieveEnhanced engE 0 st0 "linux" =
      ({ query := "linux", chunk_ids := [], chunks_with_metadata := [],
         source := "ann", reranked := true, validated := true,
         validation_retries := 2 }, st0) := by
  have h := validateWithRetry_null
  calc RetrievalEngine.retrieveEnhanced engE 0 st0 "linux"
      = (fun p : ValidationResult × Nat =>
          (({ query := "linux",
              chunk_ids := p.1.validated_chunks.map (fun c => c.chunk_id),
              chunks_with_metadata := p.1.validated_chunks,
              source := "ann", reranked := true, validated := true,
              validation_retries := p.2 } : RetrievalResult),
           if (p.1.validated_chunks.map (fun c => c.chunk_id)).isEmpty
           then ({ st0 with cache := emptyCacheState } : EngineState)
           else { cache := (TopicCacheManager.insertNew engE.cacheCfg 0 emptyCacheState
                    (QueryRouter.buildTopicKey "linux")
                    (p.1.validated_chunks.map (fun c => c.chunk_id))).2
                  history := ConversationHistory.addOrUpdate 0 st0.history
                    (QueryRouter.buildTopicKey "linux") []
                    (p.1.validated_chunks.map (fun c => c.chunk_id)) }))
        (RetrievalValidator.validateWithRetry vNull
          (RetrievalEngine.retrieveFresh engE) "linux" (some [chunkE]) (some [])) := rfl
    _ = ({ query := "linux", chunk_ids := [], chunks_with_metadata := [],
           source := "ann", reranked := true, validated := true,
           validation_retries := 2 }, st0) := by rw [h]; rfl

/-- Counterexample for C1: on the null engine, `validate_with_retry` exhausts
its retry budget (2 = max_retries) with no chunk passing validation, and
`retrieve_and_generate` returns `success = false` with
`error = some "No chunks retrieved"` — not the claimed `success = true`
honest refusal (the empty citations list is the only part the code matches). -/
theorem C1_counterexample :
    (RetrievalValidator.validateWithRetry vNull (RetrievalEngine.retrieveFresh engE)
        "linux" (some [chunkE]) (some [])).1.validated_chunks = []
    ∧ (RetrievalValidator.validateWithRetry vNull (RetrievalEngine.retrieveFresh engE)
        "linux" (some [chunkE]) (some [])).2 = vNull.max_retries
    ∧ (RetrievalEngine.retrieveAndGenerate engE 0 st0 "linux" "linux" "").1.success = false
    ∧ (RetrievalEngine.retrieveAndGenerate engE 0 st0 "linux" "linux" "").1.citations = []
    ∧ (RetrievalEngine.retrieveAndGenerate engE 0 st0 "linux" "linux" "").1.error
        = some "No chunks retrieved" := by
  have hv := validateWithRetry_null
  have hre := retrieveEnhanced_null
  have hrag : RetrievalEngine.retrieveAndGenerate engE 0 st0 "linux" "linux" "" =
      ({ query := "linux",
         answer := "I couldn't find any relevant information to answer your question.",
         citations := [], retrieval_source := "ann", chunks_used := 0,
         success := false, error := some "No chunks retrieved",
         expanded_query := none }, st0) := by
    calc RetrievalEngine.retrieveAndGenerate engE 0 st0 "linux" "linux" ""
        = (fun p : RetrievalResult × EngineState =>
            if p.1.chunks_with_metadata.isEmpty then
              (({ query := "linux",
                  answer := "I couldn't find any relevant information to answer your question.",
                  citations := [], retrieval_source := p.1.source, chunks_used := 0,
                  success := false, error := some "No chunks retrieved",
                  expanded_query := if ("linux" : String) ≠ "linux" then some "linux"
                    else none } : RAGResponse), p.2)
            else
              ({ query := "linux",
                 answer := "Found " ++ toString p.1.chunks_with_metadata.length ++
                   " relevant chunks:\n\n" ++
                   RetrievalEngine.fallbackChunksText p.1.chunks_with_metadata,
                 citations := [], retrieval_source := p.1.source,
                 chunks_used := p.1.chunks_with_metadata.length, success := true,
                 error := none, expanded_query := none }, p.2))
          (RetrievalEngine.retrieveEnhanced engE 0 st0 "linux") := rfl
      _ = ({ query := "linux",
             answer := "I couldn't find any relevant information to answer your question.",
             citations := [], retrieval_source := "ann", chunks_used := 0,
             success := false, error := some "No chunks retrieved",
             expanded_query := none }, st0) := by rw [hre]; rfl
  refine ⟨by rw [hv], by rw [hv]; rfl, by rw [hrag], by rw [hrag], by rw [hrag]⟩

/-- C1 (amended): whenever enhanced retrieval ends with no chunks (in
particular when validation exhausts its retries with no passing chunk, which
empties `validated_chunks` and hence `chunks_with_metadata`), the
orchestrator returns the failure response: `success = false`,
`error = some "No chunks retrieved"`, empty citations and the
"I couldn\x27t find any relevant information" answer — the spec's
`success = true` honest-refusal contract does not hold in the code. -/
theorem C1_amended (E : EngineCfg) (now : ℚ) (st : EngineState)
    (query intent_query session_id : String)
    (h : (RetrievalEngine.retrieveEnhanced E now st intent_query).1.chunks_with_metadata
      = []) :
    (RetrievalEngine.retrieveAndGenerate E now st query intent_query session_id).1
      = { query := query,
          answer := "I couldn't find any relevant information to answer your question.",
          citations := [],
          retrieval_source := (RetrievalEngine.retrieveEnhanced E now st intent_query).1.source,
          chunks_used := 0, success := false, error := some "No chunks retrieved",
          expanded_query := if intent_query ≠ query then some intent_query else none } := by
  rcases he : RetrievalEngine.retrieveEnhanced E now st intent_query with ⟨rr, st2⟩
  rw [he] at h
  have h' : rr.chunks_with_metadata = [] := h
  simp only [RetrievalEngine.retrieveAndGenerate, he]
  rw [show rr.chunks_with_metadata.isEmpty = true from by rw [h']; rfl]
  rfl

/-- Witness for C1 (amended) on the null engine. -/
theorem C1_amended_witness :
    (RetrievalEngine.retrieveEnhanced engE 0 st0 "linux").1.chunks_with_metadata = []
    ∧ (RetrievalEngine.retrieveAndGenerate engE 0 st0 "linux" "linux" "").1
        = { query := "linux",
            answer := "I couldn't find any relevant information to answer your question.",
            citations := [],
            retrieval_source := (RetrievalEngine.retrieveEnhanced engE 0 st0 "linux").1.source,
            chunks_used := 0, success := false, error := some "No chunks retrieved",
            expanded_query := if ("linux" : String) ≠ "linux" then some "linux"
              else none } := by
  have hm : (RetrievalEngine.retrieveEnhanced engE 0 st0 "linux").1.chunks_with_metadata
      = [] := by
    rw [retrieveEnhanced_null]
  exact ⟨hm, C1_amended engE 0 st0 "linux" "linux" "" hm⟩

end RagCore
